import Mathlib

/-!
# Address-translation simulators: single-level and two-level paging

Shallow embedding of `simulador_nivel_unico.c` (namespace `NivelUnico`) and
`simulador_multinivel.c` (namespace `Multinivel`).

Conventions of the embedding.

* The global variables of each program are the fields of a `State` record and
  every C function is a function on `State`.
* A C array is a function from `Nat`; every array access of the source is
  preceded by a bounds check (`idx`), and an access outside the array, a null
  dereference or a left shift of an `int` that is negative or does not fit
  makes the operation return `none` (the C behaviour is undefined there).
* `int` values are `Int`; the `unsigned int` argument of `translate_address`
  is a `Nat` below `2 ^ 32`. The one `int` product that can leave the range
  of `int` (`old_vpn * PAGE_SIZE` in the two-level program) is reduced to
  32-bit two's complement by `wrap32`, and `>>` on an `int` is the arithmetic
  shift.
* The `long long` counters are `Nat`: they only grow by at most 50301 per
  call and cannot reach `2 ^ 63` in any run that can be carried out.
* `printf` calls are dropped; the values the source prints at the end of
  `translate_address` (frame number and physical address) are returned.
-/

/-- Array index check: the `int` value `i` used as an index into an array of
`n` elements. -/
def idx (i : Int) (n : Nat) : Option Nat :=
  if 0 ≤ i ∧ i < (n : Int) then some i.toNat else none

namespace NivelUnico

/-! ## Parameters (`simulador_nivel_unico.c`, lines 9-24) -/

@[simp] def VIRTUAL_ADDRESS_BITS : Nat := 16
@[simp] def PAGE_SIZE : Nat := 256
@[simp] def PHYSICAL_MEMORY_SIZE : Nat := 4096
@[simp] def TLB_ENTRIES : Nat := 4
@[simp] def TLB_ACCESS_TIME : Nat := 1
@[simp] def MEMORY_ACCESS_TIME : Nat := 100
@[simp] def DISK_ACCESS_TIME : Nat := 50000
@[simp] def OFFSET_BITS : Nat := 8
@[simp] def VPN_BITS : Nat := VIRTUAL_ADDRESS_BITS - OFFSET_BITS
@[simp] def NUM_VIRTUAL_PAGES : Nat := 1 <<< VPN_BITS
@[simp] def NUM_PHYSICAL_FRAMES : Nat := PHYSICAL_MEMORY_SIZE / PAGE_SIZE
@[simp] def OFFSET_MASK : Nat := PAGE_SIZE - 1

/-! ## Data structures and global state (lines 30-52) -/

structure PageTableEntry where
  valid : Bool
  frame_number : Int

structure TLBEntry where
  valid : Bool
  vpn : Int
  frame_number : Int

structure State where
  page_table : Nat → PageTableEntry
  tlb : Nat → TLBEntry
  is_frame_free : Nat → Bool
  frame_to_vpn_map : Nat → Int
  fifo_victim_frame_ptr : Int
  tlb_victim_entry_ptr : Int
  total_accesses : Nat
  tlb_hits : Nat
  tlb_misses : Nat
  page_faults : Nat
  total_access_time : Nat

/-- What one call of `translate_address` leaves behind: the new global state
and the two values of its final `printf`. -/
structure Translation where
  state : State
  frame_number : Int
  physical_address : Nat

/-- The state after `initialize_system` (lines 88-100). Globals are
zero-initialised by the C runtime, so the fields the function does not write
are 0. -/
def initialize_system : State where
  page_table := fun _ => ⟨false, 0⟩
  tlb := fun _ => ⟨false, 0, 0⟩
  is_frame_free := fun _ => true
  frame_to_vpn_map := fun _ => -1
  fifo_victim_frame_ptr := 0
  tlb_victim_entry_ptr := 0
  total_accesses := 0
  tlb_hits := 0
  tlb_misses := 0
  page_faults := 0
  total_access_time := 0

/-- Lines 102-107: lowest free frame, or -1. -/
def find_free_frame (is_frame_free : Nat → Bool) : Int :=
  match (List.range NUM_PHYSICAL_FRAMES).find? (fun i => is_frame_free i) with
  | some i => (i : Int)
  | none => -1

/-- Lines 109-114. -/
def update_tlb (s : State) (vpn frame_number : Int) : Option State :=
  match idx s.tlb_victim_entry_ptr TLB_ENTRIES with
  | none => none
  | some p =>
    some { s with
      tlb := Function.update s.tlb p ⟨true, vpn, frame_number⟩
      tlb_victim_entry_ptr := (s.tlb_victim_entry_ptr + 1) % (TLB_ENTRIES : Int) }

/-- Lines 121-128: the frame the faulting page is loaded into, and the state
after the victim (if any) has been invalidated. -/
def choose_frame (s : State) : Option (State × Int) :=
  let frame_to_use := find_free_frame s.is_frame_free
  if frame_to_use = -1 then
    let frame_to_use := s.fifo_victim_frame_ptr
    match idx frame_to_use NUM_PHYSICAL_FRAMES with
    | none => none
    | some f =>
      let old_vpn := s.frame_to_vpn_map f
      match idx old_vpn NUM_VIRTUAL_PAGES with
      | none => none
      | some ov =>
        some ({ s with
                fifo_victim_frame_ptr :=
                  (s.fifo_victim_frame_ptr + 1) % (NUM_PHYSICAL_FRAMES : Int)
                page_table :=
                  Function.update s.page_table ov
                    { s.page_table ov with valid := false } },
              frame_to_use)
  else some (s, frame_to_use)

/-- Lines 116-137. -/
def handle_page_fault (s : State) (vpn : Int) : Option State :=
  let s1 := { s with
    page_faults := s.page_faults + 1
    total_access_time := s.total_access_time + DISK_ACCESS_TIME }
  match choose_frame s1 with
  | none => none
  | some (s2, frame_to_use) =>
    match idx vpn NUM_VIRTUAL_PAGES, idx frame_to_use NUM_PHYSICAL_FRAMES with
    | some v, some f =>
      update_tlb
        { s2 with
          page_table := Function.update s2.page_table v ⟨true, frame_to_use⟩
          is_frame_free := Function.update s2.is_frame_free f false
          frame_to_vpn_map := Function.update s2.frame_to_vpn_map f vpn }
        vpn frame_to_use
    | _, _ => none

/-- Lines 151-159: the TLB probe; the frame of the first matching valid slot. -/
def tlb_lookup (tlb : Nat → TLBEntry) (vpn : Int) : Option Int :=
  ((List.range TLB_ENTRIES).find?
      (fun i => (tlb i).valid && decide ((tlb i).vpn = vpn))).map
    (fun i => (tlb i).frame_number)

/-- Line 143: `int vpn = virtual_address >> OFFSET_BITS`. -/
def vpn_of (virtual_address : Nat) : Nat := virtual_address >>> OFFSET_BITS

/-- Line 144: `int offset = virtual_address & OFFSET_MASK`. -/
def offset_of (virtual_address : Nat) : Nat := virtual_address &&& OFFSET_MASK

/-- Lines 176-179: compose the physical address and charge the final memory
access. `frame_number << OFFSET_BITS` is a shift of an `int`: undefined for a
negative value or when the result does not fit. -/
def finish (s : State) (frame_number : Int) (offset : Nat) : Option Translation :=
  if 0 ≤ frame_number ∧ frame_number * 2 ^ OFFSET_BITS < 2 ^ 31 then
    some { state := { s with total_access_time := s.total_access_time + MEMORY_ACCESS_TIME }
           frame_number := frame_number
           physical_address := (frame_number.toNat <<< OFFSET_BITS) ||| offset }
  else none

/-- Lines 139-180. -/
def translate_address (s : State) (virtual_address : Nat) : Option Translation :=
  let s := { s with total_accesses := s.total_accesses + 1 }
  let vpn : Int := (vpn_of virtual_address : Nat)
  let offset := offset_of virtual_address
  let s := { s with total_access_time := s.total_access_time + TLB_ACCESS_TIME }
  match tlb_lookup s.tlb vpn with
  | some frame_number =>
    finish { s with tlb_hits := s.tlb_hits + 1 } frame_number offset
  | none =>
    let s := { s with
      tlb_misses := s.tlb_misses + 1
      total_access_time := s.total_access_time + MEMORY_ACCESS_TIME }
    match idx vpn NUM_VIRTUAL_PAGES with
    | none => none
    | some v =>
      if (s.page_table v).valid then
        let frame_number := (s.page_table v).frame_number
        match update_tlb s vpn frame_number with
        | none => none
        | some s => finish s frame_number offset
      else
        match handle_page_fault s vpn with
        | none => none
        | some s => finish s (s.page_table v).frame_number offset

/-- The loop of `main` (lines 80-82) over the addresses read from the file:
the state after the whole trace and the result of every translation. -/
def run (s : State) : List Nat → Option (State × List Translation)
  | [] => some (s, [])
  | a :: rest =>
    match translate_address s a with
    | none => none
    | some t =>
      match run t.state rest with
      | none => none
      | some (s', ts) => some (s', t :: ts)

/-- Number of frames marked used. -/
def used_frames (s : State) : Nat :=
  (List.range NUM_PHYSICAL_FRAMES).countP (fun f => !s.is_frame_free f)

/-- Number of valid page-table entries. -/
def valid_pages (s : State) : Nat :=
  (List.range NUM_VIRTUAL_PAGES).countP (fun v => (s.page_table v).valid)

/-- States reachable from `initialize_system` by translating addresses of the
configured width (below `2 ^ 16`). -/
def Reachable (s : State) : Prop :=
  ∃ trace : List Nat, (∀ a ∈ trace, a < 2 ^ 16) ∧
    ∃ ts, run initialize_system trace = some (s, ts)

end NivelUnico

namespace Multinivel

/-! ## Parameters (`simulador_multinivel.c`, lines 9-32) -/

@[simp] def VIRTUAL_ADDRESS_BITS : Nat := 32
@[simp] def PAGE_SIZE : Nat := 4096
@[simp] def OFFSET_BITS : Nat := 12
@[simp] def PT_INDEX_BITS : Nat := 10
@[simp] def PD_INDEX_BITS : Nat := 10
@[simp] def OFFSET_MASK : Nat := 0xFFF
@[simp] def PT_INDEX_MASK : Nat := 0x3FF
@[simp] def PD_INDEX_MASK : Nat := 0x3FF
@[simp] def NUM_PD_ENTRIES : Nat := 1 <<< PD_INDEX_BITS
@[simp] def NUM_PT_ENTRIES : Nat := 1 <<< PT_INDEX_BITS
@[simp] def PHYSICAL_MEMORY_SIZE : Nat := 64 * 1024
@[simp] def NUM_PHYSICAL_FRAMES : Nat := PHYSICAL_MEMORY_SIZE / PAGE_SIZE
@[simp] def TLB_ENTRIES : Nat := 4
@[simp] def TLB_ACCESS_TIME : Nat := 1
@[simp] def MEMORY_ACCESS_TIME : Nat := 100
@[simp] def DISK_ACCESS_TIME : Nat := 50000

/-! ## Data structures and global state (lines 38-65) -/

structure PageTableEntry where
  valid : Bool
  frame_number : Int

/-- The `page_table` pointer is `none` for `NULL` and otherwise the number of
the block `malloc` returned (its position in `State.heap`). -/
structure PageDirectoryEntry where
  valid : Bool
  page_table : Option Nat

structure TLBEntry where
  valid : Bool
  vpn : Int
  frame_number : Int

/-- The globals, and the heap: `heap p` is the contents of block `p`, and
`allocated` counts the blocks handed out by `malloc` so far, so the next
`malloc` returns block `allocated`. -/
structure State where
  page_directory : Nat → PageDirectoryEntry
  heap : Nat → Nat → PageTableEntry
  allocated : Nat
  tlb : Nat → TLBEntry
  is_frame_free : Nat → Bool
  frame_to_vpn_map : Nat → Int
  fifo_victim_frame_ptr : Int
  tlb_victim_entry_ptr : Int
  total_accesses : Nat
  tlb_hits : Nat
  tlb_misses : Nat
  page_faults : Nat
  total_access_time : Nat

structure Translation where
  state : State
  frame_number : Int
  physical_address : Nat

/-- The state after `initialize_system` (lines 106-119). `memory` is the
indeterminate contents of the blocks `malloc` will return. -/
def initialize_system (memory : Nat → Nat → PageTableEntry) : State where
  page_directory := fun _ => ⟨false, none⟩
  heap := memory
  allocated := 0
  tlb := fun _ => ⟨false, 0, 0⟩
  is_frame_free := fun _ => true
  frame_to_vpn_map := fun _ => -1
  fifo_victim_frame_ptr := 0
  tlb_victim_entry_ptr := 0
  total_accesses := 0
  tlb_hits := 0
  tlb_misses := 0
  page_faults := 0
  total_access_time := 0

/-- Lines 121-126. -/
def find_free_frame (is_frame_free : Nat → Bool) : Int :=
  match (List.range NUM_PHYSICAL_FRAMES).find? (fun i => is_frame_free i) with
  | some i => (i : Int)
  | none => -1

/-- Lines 128-133. -/
def update_tlb (s : State) (vpn frame_number : Int) : Option State :=
  match idx s.tlb_victim_entry_ptr TLB_ENTRIES with
  | none => none
  | some p =>
    some { s with
      tlb := Function.update s.tlb p ⟨true, vpn, frame_number⟩
      tlb_victim_entry_ptr := (s.tlb_victim_entry_ptr + 1) % (TLB_ENTRIES : Int) }

/-- Lines 140-151: create the second-level table of `pd_index` when the
directory entry is invalid. `malloc` is taken to succeed (on failure the
program exits); it leaves the `frame_number` fields of the block as they
were and the loop clears every `valid`. -/
def create_table (s : State) (pd_index : Int) : Option State :=
  match idx pd_index NUM_PD_ENTRIES with
  | none => none
  | some d =>
    if (s.page_directory d).valid then some s
    else
      let p := s.allocated
      some { s with
        allocated := p + 1
        heap := Function.update s.heap p (fun i => { s.heap p i with valid := false })
        page_directory := Function.update s.page_directory d ⟨true, some p⟩ }

/-- Reduction of an integer to the range of a 32-bit `int`. -/
def wrap32 (x : Int) : Int := (x + 2 ^ 31) % 2 ^ 32 - 2 ^ 31

/-- Line 159: `(old_vpn * PAGE_SIZE) >> (OFFSET_BITS + PT_INDEX_BITS)`. -/
def old_pd_index_of (old_vpn : Int) : Int :=
  wrap32 (old_vpn * (PAGE_SIZE : Int)) >>> (OFFSET_BITS + PT_INDEX_BITS)

/-- Line 160: `((old_vpn * PAGE_SIZE) >> OFFSET_BITS) & PT_INDEX_MASK`. -/
def old_pt_index_of (old_vpn : Int) : Int :=
  Int.land (wrap32 (old_vpn * (PAGE_SIZE : Int)) >>> OFFSET_BITS) (PT_INDEX_MASK : Int)

/-- Lines 153-162: the frame the faulting page is loaded into, and the state
after the victim (if any) has been invalidated. -/
def choose_frame (s : State) : Option (State × Int) :=
  let frame_to_use := find_free_frame s.is_frame_free
  if frame_to_use = -1 then
    let frame_to_use := s.fifo_victim_frame_ptr
    match idx frame_to_use NUM_PHYSICAL_FRAMES with
    | none => none
    | some f =>
      let old_vpn := s.frame_to_vpn_map f
      match idx (old_pd_index_of old_vpn) NUM_PD_ENTRIES with
      | none => none
      | some od =>
        match (s.page_directory od).page_table, idx (old_pt_index_of old_vpn) NUM_PT_ENTRIES with
        | some p, some oj =>
          some ({ s with
                  fifo_victim_frame_ptr :=
                    (s.fifo_victim_frame_ptr + 1) % (NUM_PHYSICAL_FRAMES : Int)
                  heap :=
                    Function.update s.heap p
                      (Function.update (s.heap p) oj { s.heap p oj with valid := false }) },
                frame_to_use)
        | _, _ => none
  else some (s, frame_to_use)

/-- Lines 135-171. -/
def handle_page_fault (s : State) (vpn pd_index pt_index : Int) : Option State :=
  let s1 := { s with
    page_faults := s.page_faults + 1
    total_access_time := s.total_access_time + DISK_ACCESS_TIME }
  match create_table s1 pd_index with
  | none => none
  | some s2 =>
    match choose_frame s2 with
    | none => none
    | some (s3, frame_to_use) =>
      match idx pd_index NUM_PD_ENTRIES, idx pt_index NUM_PT_ENTRIES,
          idx frame_to_use NUM_PHYSICAL_FRAMES with
      | some d, some j, some f =>
        match (s3.page_directory d).page_table with
        | none => none
        | some p =>
          update_tlb
            { s3 with
              heap := Function.update s3.heap p
                (Function.update (s3.heap p) j ⟨true, frame_to_use⟩)
              is_frame_free := Function.update s3.is_frame_free f false
              frame_to_vpn_map := Function.update s3.frame_to_vpn_map f vpn }
            vpn frame_to_use
      | _, _, _ => none

/-- Lines 187-195: the TLB probe; the frame of the first matching valid slot. -/
def tlb_lookup (tlb : Nat → TLBEntry) (vpn : Int) : Option Int :=
  ((List.range TLB_ENTRIES).find?
      (fun i => (tlb i).valid && decide ((tlb i).vpn = vpn))).map
    (fun i => (tlb i).frame_number)

/-- Line 177: `int offset = virtual_address & OFFSET_MASK`. -/
def offset_of (virtual_address : Nat) : Nat := virtual_address &&& OFFSET_MASK

/-- Line 178: `int pt_index = (virtual_address >> OFFSET_BITS) & PT_INDEX_MASK`. -/
def pt_index_of (virtual_address : Nat) : Nat :=
  (virtual_address >>> OFFSET_BITS) &&& PT_INDEX_MASK

/-- Line 179. -/
def pd_index_of (virtual_address : Nat) : Nat :=
  (virtual_address >>> (OFFSET_BITS + PT_INDEX_BITS)) &&& PD_INDEX_MASK

/-- Line 180: `int vpn = virtual_address >> OFFSET_BITS`. -/
def vpn_of (virtual_address : Nat) : Nat := virtual_address >>> OFFSET_BITS

/-- Lines 219-222: compose the physical address and charge the final memory
access. `frame_number << OFFSET_BITS` is a shift of an `int`: undefined for a
negative value or when the result does not fit. -/
def finish (s : State) (frame_number : Int) (offset : Nat) : Option Translation :=
  if 0 ≤ frame_number ∧ frame_number * 2 ^ OFFSET_BITS < 2 ^ 31 then
    some { state := { s with total_access_time := s.total_access_time + MEMORY_ACCESS_TIME }
           frame_number := frame_number
           physical_address := (frame_number.toNat <<< OFFSET_BITS) ||| offset }
  else none

/-- Lines 173-223. -/
def translate_address (s : State) (virtual_address : Nat) : Option Translation :=
  let s := { s with total_accesses := s.total_accesses + 1 }
  let offset := offset_of virtual_address
  let pt_index : Int := (pt_index_of virtual_address : Nat)
  let pd_index : Int := (pd_index_of virtual_address : Nat)
  let vpn : Int := (vpn_of virtual_address : Nat)
  let s := { s with total_access_time := s.total_access_time + TLB_ACCESS_TIME }
  match tlb_lookup s.tlb vpn with
  | some frame_number =>
    finish { s with tlb_hits := s.tlb_hits + 1 } frame_number offset
  | none =>
    let s := { s with
      tlb_misses := s.tlb_misses + 1
      total_access_time := s.total_access_time + MEMORY_ACCESS_TIME }
    match idx pd_index NUM_PD_ENTRIES with
    | none => none
    | some d =>
      if !(s.page_directory d).valid then
        match handle_page_fault s vpn pd_index pt_index with
        | none => none
        | some s =>
          match (s.page_directory d).page_table, idx pt_index NUM_PT_ENTRIES with
          | some p, some j => finish s (s.heap p j).frame_number offset
          | _, _ => none
      else
        let s := { s with total_access_time := s.total_access_time + MEMORY_ACCESS_TIME }
        match (s.page_directory d).page_table, idx pt_index NUM_PT_ENTRIES with
        | some p, some j =>
          if (s.heap p j).valid then
            let frame_number := (s.heap p j).frame_number
            match update_tlb s vpn frame_number with
            | none => none
            | some s => finish s frame_number offset
          else
            match handle_page_fault s vpn pd_index pt_index with
            | none => none
            | some s => finish s (s.heap p j).frame_number offset
        | _, _ => none

/-- The loop of `main` (lines 93-95) over the addresses read from the file:
the state after the whole trace and the result of every translation. -/
def run (s : State) : List Nat → Option (State × List Translation)
  | [] => some (s, [])
  | a :: rest =>
    match translate_address s a with
    | none => none
    | some t =>
      match run t.state rest with
      | none => none
      | some (s', ts) => some (s', t :: ts)

/-- Number of frames marked used. -/
def used_frames (s : State) : Nat :=
  (List.range NUM_PHYSICAL_FRAMES).countP (fun f => !s.is_frame_free f)

/-- Number of valid entries in the second-level table of directory entry `d`
(0 when the directory entry is invalid). -/
def valid_in_table (s : State) (d : Nat) : Nat :=
  if (s.page_directory d).valid then
    match (s.page_directory d).page_table with
    | some p => (List.range NUM_PT_ENTRIES).countP (fun j => (s.heap p j).valid)
    | none => 0
  else 0

/-- Number of valid page-table entries over the tables of all valid
directory entries. -/
def valid_pages (s : State) : Nat :=
  ((List.range NUM_PD_ENTRIES).map (valid_in_table s)).sum

/-- Number of valid directory entries. -/
def valid_directory_entries (s : State) : Nat :=
  (List.range NUM_PD_ENTRIES).countP (fun d => (s.page_directory d).valid)

end Multinivel

namespace NivelUnico

/-! ## Invariant and explicit post-states of the single-level program -/

/-- Consistency of frame allocator, page table and TLB in the states the
program reaches. -/
structure Inv (s : State) : Prop where
  free_iff : ∀ f, f < 16 → (s.is_frame_free f = true ↔ s.page_faults ≤ f)
  fifo : s.fifo_victim_frame_ptr = (((s.page_faults - 16) % 16 : Nat) : Int)
  used_map : ∀ f, f < 16 → s.is_frame_free f = false →
    ∃ v : Nat, v < 256 ∧ s.frame_to_vpn_map f = (v : Int) ∧
      (s.page_table v).valid = true ∧ (s.page_table v).frame_number = (f : Int)
  valid_pt : ∀ v, v < 256 → (s.page_table v).valid = true →
    ∃ f : Nat, f < 16 ∧ (s.page_table v).frame_number = (f : Int) ∧
      s.is_frame_free f = false ∧ s.frame_to_vpn_map f = (v : Int)
  tlb_ptr : 0 ≤ s.tlb_victim_entry_ptr ∧ s.tlb_victim_entry_ptr < 4
  tlb_ok : ∀ i, i < 4 → (s.tlb i).valid = true →
    0 ≤ (s.tlb i).vpn ∧ (s.tlb i).vpn < 256 ∧
      0 ≤ (s.tlb i).frame_number ∧ (s.tlb i).frame_number < 16
  tlb_nodup : ∀ i j, i < 4 → j < 4 → (s.tlb i).valid = true → (s.tlb j).valid = true →
    (s.tlb i).vpn = (s.tlb j).vpn → i = j
  counters : s.tlb_hits + s.tlb_misses = s.total_accesses

/-- State after a translation that hits in the TLB. -/
def after_hit (s : State) : State :=
  { s with
    total_accesses := s.total_accesses + 1
    tlb_hits := s.tlb_hits + 1
    total_access_time := s.total_access_time + TLB_ACCESS_TIME + MEMORY_ACCESS_TIME }

/-- State after a translation of page `v` that misses in the TLB and finds
the page-table entry valid. -/
def after_table_hit (s : State) (v : Nat) : State :=
  { s with
    total_accesses := s.total_accesses + 1
    tlb_misses := s.tlb_misses + 1
    total_access_time :=
      s.total_access_time + TLB_ACCESS_TIME + MEMORY_ACCESS_TIME + MEMORY_ACCESS_TIME
    tlb := Function.update s.tlb s.tlb_victim_entry_ptr.toNat
      ⟨true, (v : Int), (s.page_table v).frame_number⟩
    tlb_victim_entry_ptr := (s.tlb_victim_entry_ptr + 1) % (TLB_ENTRIES : Int) }

/-- Page table after the victim of a page fault has been invalidated: no
victim while a frame is free. -/
def evicted_table (s : State) : Nat → PageTableEntry :=
  if s.page_faults < 16 then s.page_table
  else
    Function.update s.page_table (s.frame_to_vpn_map (s.page_faults % 16)).toNat
      { s.page_table (s.frame_to_vpn_map (s.page_faults % 16)).toNat with valid := false }

/-- State after a translation of page `v` that page-faults. -/
def after_fault (s : State) (v : Nat) : State where
  page_table := Function.update (evicted_table s) v ⟨true, ((s.page_faults % 16 : Nat) : Int)⟩
  tlb := Function.update s.tlb s.tlb_victim_entry_ptr.toNat
    ⟨true, (v : Int), ((s.page_faults % 16 : Nat) : Int)⟩
  is_frame_free := Function.update s.is_frame_free (s.page_faults % 16) false
  frame_to_vpn_map := Function.update s.frame_to_vpn_map (s.page_faults % 16) (v : Int)
  fifo_victim_frame_ptr :=
    if s.page_faults < 16 then s.fifo_victim_frame_ptr
    else (s.fifo_victim_frame_ptr + 1) % (NUM_PHYSICAL_FRAMES : Int)
  tlb_victim_entry_ptr := (s.tlb_victim_entry_ptr + 1) % (TLB_ENTRIES : Int)
  total_accesses := s.total_accesses + 1
  tlb_hits := s.tlb_hits
  tlb_misses := s.tlb_misses + 1
  page_faults := s.page_faults + 1
  total_access_time :=
    s.total_access_time + TLB_ACCESS_TIME + MEMORY_ACCESS_TIME + DISK_ACCESS_TIME
      + MEMORY_ACCESS_TIME

/-- Every page with a valid page-table entry or a valid TLB slot is one of
the pages `vs` translated so far. -/
def Seen (vs : List Nat) (s : State) : Prop :=
  (∀ v, v < 256 → (s.page_table v).valid = true → v ∈ vs) ∧
  (∀ i, i < 4 → (s.tlb i).valid = true → ∃ v ∈ vs, (s.tlb i).vpn = (v : Int))

/-- State after page faults on the pages of the addresses of a trace, one
after the other. -/
def fault_all (s : State) : List Nat → State
  | [] => s
  | a :: rest => fault_all (after_fault s (vpn_of a)) rest

/-- Results of the translations of a trace in which every translation
page-faults. -/
def fault_results (s : State) : List Nat → List Translation
  | [] => []
  | a :: rest =>
    ⟨after_fault s (vpn_of a), ((s.page_faults % 16 : Nat) : Int),
      ((s.page_faults % 16) <<< OFFSET_BITS) ||| offset_of a⟩ ::
      fault_results (after_fault s (vpn_of a)) rest

/-- Agreement of the TLB with the page table as far as the program keeps it:
a valid TLB slot whose page is valid in the page table names the frame of the
page-table entry, and while no page has been evicted (`page_faults ≤ 16`) the
page of every valid TLB slot is valid in the page table. -/
def TlbAgrees (s : State) : Prop :=
  (∀ i, i < 4 → (s.tlb i).valid = true → (s.page_table (s.tlb i).vpn.toNat).valid = true →
    (s.page_table (s.tlb i).vpn.toNat).frame_number = (s.tlb i).frame_number) ∧
  (s.page_faults ≤ 16 → ∀ i, i < 4 → (s.tlb i).valid = true →
    (s.page_table (s.tlb i).vpn.toNat).valid = true)

end NivelUnico

namespace Multinivel

/-! ## Invariant and explicit post-states of the two-level program -/

/-- The block directory entry `d` points to (block 0 for `NULL`). -/
def table_ptr (s : State) (d : Nat) : Nat := ((s.page_directory d).page_table).getD 0

/-- Consistency of frame allocator, directory, second-level tables and TLB
in the states the program reaches. A page number `v` has directory index
`v / 1024` and table index `v % 1024`. -/
structure Inv (s : State) : Prop where
  free_iff : ∀ f, f < 16 → (s.is_frame_free f = true ↔ s.page_faults ≤ f)
  fifo : s.fifo_victim_frame_ptr = (((s.page_faults - 16) % 16 : Nat) : Int)
  dir_ptr : ∀ d, d < 1024 → (s.page_directory d).valid = true →
    ∃ p, (s.page_directory d).page_table = some p ∧ p < s.allocated
  dir_inj : ∀ d d', d < 1024 → d' < 1024 → (s.page_directory d).valid = true →
    (s.page_directory d').valid = true → table_ptr s d = table_ptr s d' → d = d'
  used_map : ∀ f, f < 16 → s.is_frame_free f = false →
    ∃ v : Nat, v < 2 ^ 20 ∧ s.frame_to_vpn_map f = (v : Int) ∧
      (s.page_directory (v / 1024)).valid = true ∧
      (s.heap (table_ptr s (v / 1024)) (v % 1024)).valid = true ∧
      (s.heap (table_ptr s (v / 1024)) (v % 1024)).frame_number = (f : Int)
  valid_pt : ∀ d j, d < 1024 → j < 1024 → (s.page_directory d).valid = true →
    (s.heap (table_ptr s d) j).valid = true →
    ∃ f : Nat, f < 16 ∧ (s.heap (table_ptr s d) j).frame_number = (f : Int) ∧
      s.is_frame_free f = false ∧ s.frame_to_vpn_map f = ((d * 1024 + j : Nat) : Int)
  tlb_ptr : 0 ≤ s.tlb_victim_entry_ptr ∧ s.tlb_victim_entry_ptr < 4
  tlb_ok : ∀ i, i < 4 → (s.tlb i).valid = true →
    0 ≤ (s.tlb i).vpn ∧ (s.tlb i).vpn < 2 ^ 20 ∧
      0 ≤ (s.tlb i).frame_number ∧ (s.tlb i).frame_number < 16
  tlb_nodup : ∀ i j, i < 4 → j < 4 → (s.tlb i).valid = true → (s.tlb j).valid = true →
    (s.tlb i).vpn = (s.tlb j).vpn → i = j
  counters : s.tlb_hits + s.tlb_misses = s.total_accesses

/-- Every page held in a frame has a number below `2 ^ 19`, so that
`old_vpn * PAGE_SIZE` fits an `int`. -/
def Low (s : State) : Prop :=
  ∀ f, f < 16 → s.is_frame_free f = false → s.frame_to_vpn_map f < 2 ^ 19

/-- State after a translation that hits in the TLB. -/
def after_hit (s : State) : State :=
  { s with
    total_accesses := s.total_accesses + 1
    tlb_hits := s.tlb_hits + 1
    total_access_time := s.total_access_time + TLB_ACCESS_TIME + MEMORY_ACCESS_TIME }

/-- State after a translation of page `v` that misses in the TLB and finds
directory entry and page-table entry valid, the latter with frame `fr`. -/
def after_table_hit (s : State) (v : Nat) (fr : Int) : State :=
  { s with
    total_accesses := s.total_accesses + 1
    tlb_misses := s.tlb_misses + 1
    total_access_time :=
      s.total_access_time + TLB_ACCESS_TIME + MEMORY_ACCESS_TIME + MEMORY_ACCESS_TIME
        + MEMORY_ACCESS_TIME
    tlb := Function.update s.tlb s.tlb_victim_entry_ptr.toNat ⟨true, (v : Int), fr⟩
    tlb_victim_entry_ptr := (s.tlb_victim_entry_ptr + 1) % (TLB_ENTRIES : Int) }

/-- State once directory entry `d` has a second-level table: unchanged when
the entry is valid, and with a fresh block otherwise. -/
def with_table (s : State) (d : Nat) : State :=
  { s with
    allocated := if (s.page_directory d).valid then s.allocated else s.allocated + 1
    heap :=
      if (s.page_directory d).valid then s.heap
      else Function.update s.heap s.allocated
        (fun i => { s.heap s.allocated i with valid := false })
    page_directory :=
      if (s.page_directory d).valid then s.page_directory
      else Function.update s.page_directory d ⟨true, some s.allocated⟩ }

/-- Heap after the victim of a page fault has been invalidated: no victim
while a frame is free. -/
def evicted_heap (s : State) : Nat → Nat → PageTableEntry :=
  if s.page_faults < 16 then s.heap
  else
    Function.update s.heap
      (table_ptr s ((s.frame_to_vpn_map (s.page_faults % 16)).toNat / 1024))
      (Function.update
        (s.heap (table_ptr s ((s.frame_to_vpn_map (s.page_faults % 16)).toNat / 1024)))
        ((s.frame_to_vpn_map (s.page_faults % 16)).toNat % 1024)
        { s.heap (table_ptr s ((s.frame_to_vpn_map (s.page_faults % 16)).toNat / 1024))
            ((s.frame_to_vpn_map (s.page_faults % 16)).toNat % 1024) with valid := false })

/-- State after a page fault on address `a` whose directory entry has a
table; `total_access_time` is left as it was. -/
def load (s : State) (a : Nat) : State :=
  { s with
    heap := Function.update (evicted_heap s) (table_ptr s (pd_index_of a))
      (Function.update (evicted_heap s (table_ptr s (pd_index_of a))) (pt_index_of a)
        ⟨true, ((s.page_faults % 16 : Nat) : Int)⟩)
    tlb := Function.update s.tlb s.tlb_victim_entry_ptr.toNat
      ⟨true, (vpn_of a : Int), ((s.page_faults % 16 : Nat) : Int)⟩
    is_frame_free := Function.update s.is_frame_free (s.page_faults % 16) false
    frame_to_vpn_map := Function.update s.frame_to_vpn_map (s.page_faults % 16) (vpn_of a : Int)
    fifo_victim_frame_ptr :=
      if s.page_faults < 16 then s.fifo_victim_frame_ptr
      else (s.fifo_victim_frame_ptr + 1) % (NUM_PHYSICAL_FRAMES : Int)
    tlb_victim_entry_ptr := (s.tlb_victim_entry_ptr + 1) % (TLB_ENTRIES : Int)
    total_accesses := s.total_accesses + 1
    tlb_misses := s.tlb_misses + 1
    page_faults := s.page_faults + 1 }

/-- State after a translation of `a` that page-faults: the table of the
directory entry is created when missing, and the walk is charged one memory
access when the directory entry is invalid and two when it is valid. -/
def after_fault (s : State) (a : Nat) : State :=
  { load (with_table s (pd_index_of a)) a with
    total_access_time :=
      if (s.page_directory (pd_index_of a)).valid then
        s.total_access_time + TLB_ACCESS_TIME + MEMORY_ACCESS_TIME + MEMORY_ACCESS_TIME
          + DISK_ACCESS_TIME + MEMORY_ACCESS_TIME
      else
        s.total_access_time + TLB_ACCESS_TIME + MEMORY_ACCESS_TIME + DISK_ACCESS_TIME
          + MEMORY_ACCESS_TIME }

/-- States reachable from `initialize_system` by translating 32-bit
addresses. -/
def Reachable (s : State) : Prop :=
  ∃ (memory : Nat → Nat → PageTableEntry) (addrs : List Nat), (∀ a ∈ addrs, a < 2 ^ 32) ∧
    ∃ ts, run (initialize_system memory) addrs = some (s, ts)

/-- How one step may change the page directory: not at all, or by making
the invalid entry `d` valid with the block `malloc` returns next. -/
def DirStep (s s' : State) (d : Nat) : Prop :=
  (s'.page_directory = s.page_directory ∧ s'.allocated = s.allocated) ∨
  (d < 1024 ∧ (s.page_directory d).valid = false ∧
    s'.page_directory = Function.update s.page_directory d ⟨true, some s.allocated⟩ ∧
    s'.allocated = s.allocated + 1)

/-- The counters other than `total_access_time` agree in two states. -/
def SameCounters (s s' : State) : Prop :=
  s'.total_accesses = s.total_accesses ∧ s'.tlb_hits = s.tlb_hits ∧
    s'.tlb_misses = s.tlb_misses ∧ s'.page_faults = s.page_faults

end Multinivel

/-! # Generic lemmas -/

theorem idx_natCast {k n : Nat} (h : k < n) : idx (k : Int) n = some k := by
  unfold idx
  have h1 : (0 : Int) ≤ (k : Int) ∧ (k : Int) < (n : Int) := ⟨by omega, by omega⟩
  rw [if_pos h1]
  simp

theorem idx_eq_some_iff {i : Int} {n k : Nat} :
    idx i n = some k ↔ i = (k : Int) ∧ k < n := by
  unfold idx
  constructor
  · intro h
    split at h
    · rename_i hc
      have hk : i.toNat = k := by simpa using h
      omega
    · exact absurd h (by simp)
  · rintro ⟨rfl, hk⟩
    have h1 : (0 : Int) ≤ (k : Int) ∧ (k : Int) < (n : Int) := ⟨by omega, by omega⟩
    rw [if_pos h1]
    simp

theorem idx_eq_none_iff {i : Int} {n : Nat} :
    idx i n = none ↔ (i < 0 ∨ (n : Int) ≤ i) := by
  unfold idx
  constructor
  · intro h
    split at h
    · exact absurd h (by simp)
    · omega
  · intro h
    have h1 : ¬ ((0 : Int) ≤ i ∧ i < (n : Int)) := by omega
    rw [if_neg h1]

/-- The loop `for i in 0..n: if p i return i` stops at the least index
satisfying `p`. -/
theorem find_range_least (p : Nat → Bool) (n k : Nat) (hk : k < n) (hpk : p k = true)
    (hlt : ∀ j, j < k → p j = false) : (List.range n).find? p = some k := by
  induction n with
  | zero => omega
  | succ n ih =>
    rw [List.range_succ, List.find?_append]
    by_cases hkn : k < n
    · rw [ih hkn]; rfl
    · have hkeq : k = n := by omega
      subst hkeq
      have hnone : (List.range k).find? p = none := by
        rw [List.find?_eq_none]
        intro x hx
        have := hlt x (List.mem_range.mp hx)
        simp [this]
      rw [hnone]
      simp [List.find?, hpk]

theorem find_range_none (p : Nat → Bool) (n : Nat) (h : ∀ j, j < n → p j = false) :
    (List.range n).find? p = none := by
  rw [List.find?_eq_none]
  intro x hx
  have := h x (List.mem_range.mp hx)
  simp [this]

theorem find_range_some (p : Nat → Bool) (n k : Nat) (h : (List.range n).find? p = some k) :
    k < n ∧ p k = true ∧ ∀ j, j < k → p j = false := by
  induction n with
  | zero => simp at h
  | succ n ih =>
    rw [List.range_succ, List.find?_append] at h
    cases hf : (List.range n).find? p with
    | some k' =>
      rw [hf] at h
      have hk : k' = k := by simpa using h
      subst hk
      obtain ⟨h1, h2, h3⟩ := ih hf
      exact ⟨by omega, h2, h3⟩
    | none =>
      rw [hf] at h
      have hn : p n = true ∧ n = k := by
        by_cases hp : p n = true
        · simp [List.find?, hp] at h
          exact ⟨hp, h⟩
        · simp [List.find?, hp] at h
      obtain ⟨hp, rfl⟩ := hn
      refine ⟨by omega, hp, ?_⟩
      intro j hj
      rw [List.find?_eq_none] at hf
      have := hf j (List.mem_range.mpr hj)
      simpa using this

theorem countP_range_eq_card (p : Nat → Bool) (n : Nat) :
    (List.range n).countP p = ((Finset.range n).filter (fun i => p i = true)).card := by
  rw [Finset.card_def, Finset.filter_val, Finset.range_val, ← Multiset.countP_eq_card_filter]
  show _ = Multiset.countP (fun i => p i = true) (↑(List.range n) : Multiset Nat)
  rw [Multiset.coe_countP]
  congr 1
  funext i
  simp

theorem unico_roundtrip (a : Nat) :
    (NivelUnico.vpn_of a <<< NivelUnico.OFFSET_BITS) ||| NivelUnico.offset_of a = a := by
  unfold NivelUnico.vpn_of NivelUnico.offset_of
  have h255 : NivelUnico.OFFSET_MASK = 2 ^ 8 - 1 := by simp
  rw [h255]
  simp only [NivelUnico.OFFSET_BITS]
  apply Nat.eq_of_testBit_eq
  intro i
  simp only [Nat.testBit_or, Nat.testBit_shiftLeft, Nat.testBit_shiftRight, Nat.testBit_and,
    Nat.testBit_two_pow_sub_one]
  by_cases h : i < 8
  · simp [h, Nat.not_le.mpr h]
  · have h' : 8 ≤ i := Nat.le_of_not_lt h
    simp [h, h', Nat.add_sub_cancel' h']

theorem multi_roundtrip (a : Nat) (ha : a < 2 ^ 32) :
    ((Multinivel.pd_index_of a <<< (Multinivel.OFFSET_BITS + Multinivel.PT_INDEX_BITS)) |||
      (Multinivel.pt_index_of a <<< Multinivel.OFFSET_BITS)) ||| Multinivel.offset_of a = a := by
  unfold Multinivel.pd_index_of Multinivel.pt_index_of Multinivel.offset_of
  have h1 : Multinivel.PT_INDEX_MASK = 2 ^ 10 - 1 := by simp
  have h2 : Multinivel.OFFSET_MASK = 2 ^ 12 - 1 := by simp
  have h3 : Multinivel.PD_INDEX_MASK = 2 ^ 10 - 1 := by simp
  rw [h1, h2, h3]
  simp only [Multinivel.OFFSET_BITS, Multinivel.PT_INDEX_BITS]
  apply Nat.eq_of_testBit_eq
  intro i
  simp only [Nat.testBit_or, Nat.testBit_shiftLeft, Nat.testBit_shiftRight, Nat.testBit_and,
    Nat.testBit_two_pow_sub_one]
  by_cases h32 : 32 ≤ i
  · have : a.testBit i = false :=
      Nat.testBit_lt_two_pow (lt_of_lt_of_le ha (Nat.pow_le_pow_right (by norm_num) h32))
    have e1 : ¬ (i - 22 < 10) := by omega
    have e2 : ¬ (i - 12 < 10) := by omega
    have e3 : ¬ (i < 12) := by omega
    simp [this, e1, e2, e3]
  · by_cases h22 : 22 ≤ i
    · have e1 : (i - 22 < 10) := by omega
      have e2 : ¬ (i - 12 < 10) := by omega
      have e3 : ¬ (i < 12) := by omega
      simp [h22, e1, e2, e3, Nat.add_sub_cancel' h22]
    · by_cases h12 : 12 ≤ i
      · have e2 : (i - 12 < 10) := by omega
        have e3 : ¬ (i < 12) := by omega
        simp [h22, h12, e2, e3, Nat.add_sub_cancel' h12]
      · have e3 : (i < 12) := by omega
        simp [h22, h12, e3]

theorem countP_range_update_true (p p' : Nat → Bool) (n d : Nat) (hd : d < n)
    (h0 : p d = false) (h1 : p' d = true) (hne : ∀ i, i ≠ d → p' i = p i) :
    (List.range n).countP p' = (List.range n).countP p + 1 := by
  rw [countP_range_eq_card, countP_range_eq_card]
  have hins : (Finset.range n).filter (fun i => p' i = true) =
      insert d ((Finset.range n).filter (fun i => p i = true)) := by
    ext i
    simp only [Finset.mem_filter, Finset.mem_range, Finset.mem_insert]
    constructor
    · rintro ⟨hi, hp⟩
      by_cases hid : i = d
      · exact Or.inl hid
      · exact Or.inr ⟨hi, by rw [← hne i hid]; exact hp⟩
    · rintro (rfl | ⟨hi, hp⟩)
      · exact ⟨hd, h1⟩
      · have hid : i ≠ d := by
          intro he; subst he; rw [h0] at hp; exact absurd hp (by simp)
        exact ⟨hi, by rw [hne i hid]; exact hp⟩
  rw [hins, Finset.card_insert_of_not_mem]
  simp [h0]

theorem countP_range_false (p : Nat → Bool) (n : Nat) (h : ∀ i, i < n → p i = false) :
    (List.range n).countP p = 0 := by
  rw [List.countP_eq_zero]
  intro i hi
  simp [h i (List.mem_range.mp hi)]

theorem countP_range_single (p : Nat → Bool) (n d : Nat) (hd : d < n)
    (h : ∀ i, i < n → (p i = true ↔ i = d)) : (List.range n).countP p = 1 := by
  have h1 : p d = true := (h d hd).mpr rfl
  have := countP_range_update_true (fun i => if i = d then false else p i) p n d hd
    (by simp) h1 (by intro i hi; simp [hi])
  rw [this, countP_range_false]
  intro i hi
  by_cases hid : i = d
  · simp [hid]
  · simp only [hid, if_false]
    cases hp : p i
    · rfl
    · exact absurd ((h i hi).mp hp) hid

theorem countP_range_congr (p p' : Nat → Bool) (n : Nat) (h : ∀ i, i < n → p' i = p i) :
    (List.range n).countP p' = (List.range n).countP p := by
  apply List.countP_congr
  intro i hi
  rw [h i (List.mem_range.mp hi)]

theorem sum_map_range_eq (f : Nat → Nat) (n : Nat) :
    ((List.range n).map f).sum = ∑ d in Finset.range n, f d := by
  induction n with
  | zero => simp
  | succ n ih =>
    rw [List.range_succ, List.map_append, List.sum_append, ih, Finset.sum_range_succ]
    simp

theorem shiftLeft_or_eq_add (f off k : Nat) (h : off < 2 ^ k) :
    (f <<< k) ||| off = f * 2 ^ k + off := by
  rw [Nat.shiftLeft_eq, Nat.mul_comm, ← Nat.mul_add_lt_is_or h]

theorem countP_range_lt (n m : Nat) :
    (List.range m).countP (fun i => decide (i < n)) = min n m := by
  induction m with
  | zero => simp
  | succ m ih =>
    rw [List.range_succ, List.countP_append, ih]
    by_cases h : m < n
    · simp [h]; omega
    · simp [h]; omega

/-! # Single-level program: steps, invariant, runs -/

namespace NivelUnico

theorem tlb_lookup_eq_none {tlb : Nat → TLBEntry} {vpn : Int} :
    tlb_lookup tlb vpn = none ↔
      ∀ i, i < 4 → ¬ ((tlb i).valid = true ∧ (tlb i).vpn = vpn) := by
  unfold tlb_lookup
  rw [Option.map_eq_none', List.find?_eq_none]
  constructor
  · intro h i hi
    have := h i (List.mem_range.mpr (by simpa using hi))
    simpa using this
  · intro h i hi
    have := h i (by simpa using List.mem_range.mp hi)
    simpa using this

theorem tlb_lookup_eq_some {tlb : Nat → TLBEntry} {vpn fr : Int} (h : tlb_lookup tlb vpn = some fr) :
    ∃ i, i < 4 ∧ (tlb i).valid = true ∧ (tlb i).vpn = vpn ∧
      (tlb i).frame_number = fr ∧
      ∀ j, j < i → ¬ ((tlb j).valid = true ∧ (tlb j).vpn = vpn) := by
  unfold tlb_lookup at h
  rw [Option.map_eq_some'] at h
  obtain ⟨i, hi, hfr⟩ := h
  obtain ⟨h1, h2, h3⟩ := find_range_some _ _ _ hi
  refine ⟨i, by simpa using h1, ?_, ?_, hfr, ?_⟩
  · simp at h2; exact h2.1
  · simp at h2; exact h2.2
  · intro j hj
    have := h3 j hj
    simpa using this

theorem tlb_lookup_of_slot {tlb : Nat → TLBEntry} {vpn : Int} {i : Nat} (hi : i < 4)
    (hv : (tlb i).valid = true) (hvpn : (tlb i).vpn = vpn)
    (hlt : ∀ j, j < i → ¬ ((tlb j).valid = true ∧ (tlb j).vpn = vpn)) :
    tlb_lookup tlb vpn = some (tlb i).frame_number := by
  unfold tlb_lookup
  rw [find_range_least _ _ i (by simpa using hi)]
  · rfl
  · simp [hv, hvpn]
  · intro j hj
    have := hlt j hj
    simpa using this

theorem vpn_of_lt {a : Nat} (ha : a < 2 ^ 16) : vpn_of a < 256 := by
  unfold vpn_of
  simp only [OFFSET_BITS, Nat.shiftRight_eq_div_pow]
  omega

theorem offset_of_lt (a : Nat) : offset_of a < 256 := by
  unfold offset_of
  have h : OFFSET_MASK = 2 ^ 8 - 1 := by simp
  rw [h, Nat.and_pow_two_sub_one_eq_mod]
  omega

theorem inv_initialize_system : Inv initialize_system where
  free_iff := by intro f _; simp [initialize_system]
  fifo := by simp [initialize_system]
  used_map := by intro f _ h; simp [initialize_system] at h
  valid_pt := by intro v _ h; simp [initialize_system] at h
  tlb_ptr := by simp [initialize_system]
  tlb_ok := by intro i _ h; simp [initialize_system] at h
  tlb_nodup := by intro i j _ _ h; simp [initialize_system] at h
  counters := by simp [initialize_system]

/-- Under the invariant the frame a page fault uses is `page_faults % 16`:
the lowest free frame while one is free, the FIFO pointer afterwards. -/
theorem find_free_frame_eq {s : State} (hI : Inv s) :
    find_free_frame s.is_frame_free = if s.page_faults < 16 then (s.page_faults : Int) else -1 := by
  unfold find_free_frame
  split_ifs with h
  · rw [find_range_least _ _ s.page_faults (by simpa using h)]
    · exact (hI.free_iff _ h).mpr (le_refl _)
    · intro j hj
      have := hI.free_iff j (by omega)
      cases hf : s.is_frame_free j
      · rfl
      · have := this.mp hf; omega
  · rw [find_range_none]
    intro j hj
    have hj' : j < 16 := by simpa using hj
    have := hI.free_iff j hj'
    cases hf : s.is_frame_free j
    · rfl
    · have := this.mp hf; omega

theorem translate_hit {s : State} {a : Nat} {fr : Int}
    (hl : tlb_lookup s.tlb (vpn_of a : Nat) = some fr) (h0 : 0 ≤ fr) (h1 : fr < 16) :
    translate_address s a =
      some ⟨after_hit s, fr, (fr.toNat <<< OFFSET_BITS) ||| offset_of a⟩ := by
  unfold translate_address
  simp only []
  rw [hl]
  simp only [finish]
  rw [if_pos ⟨h0, by simp only [OFFSET_BITS]; omega⟩]
  rfl

theorem update_tlb_eq {s : State} (h : 0 ≤ s.tlb_victim_entry_ptr ∧ s.tlb_victim_entry_ptr < 4)
    (vpn fr : Int) :
    update_tlb s vpn fr = some { s with
      tlb := Function.update s.tlb s.tlb_victim_entry_ptr.toNat ⟨true, vpn, fr⟩
      tlb_victim_entry_ptr := (s.tlb_victim_entry_ptr + 1) % (TLB_ENTRIES : Int) } := by
  unfold update_tlb
  have : idx s.tlb_victim_entry_ptr TLB_ENTRIES = some s.tlb_victim_entry_ptr.toNat := by
    rw [idx_eq_some_iff]; simp only [TLB_ENTRIES]; omega
  rw [this]

theorem translate_table_hit {s : State} {a : Nat} (hI : Inv s) (ha : a < 2 ^ 16)
    (hl : tlb_lookup s.tlb (vpn_of a : Nat) = none)
    (hv : (s.page_table (vpn_of a)).valid = true) :
    translate_address s a =
      some ⟨after_table_hit s (vpn_of a), (s.page_table (vpn_of a)).frame_number,
        ((s.page_table (vpn_of a)).frame_number.toNat <<< OFFSET_BITS) ||| offset_of a⟩ := by
  obtain ⟨f, hf, hfr, -, -⟩ := hI.valid_pt _ (vpn_of_lt ha) hv
  unfold translate_address
  simp only []
  rw [hl]
  simp only []
  rw [idx_natCast (by simpa using vpn_of_lt ha)]
  simp only [hv, if_true]
  rw [update_tlb_eq (by exact hI.tlb_ptr)]
  simp only [finish]
  rw [if_pos ⟨by omega, by simp only [OFFSET_BITS]; omega⟩]
  rfl

theorem fifo_eq {s : State} (hI : Inv s) (h : ¬ s.page_faults < 16) :
    s.fifo_victim_frame_ptr = ((s.page_faults % 16 : Nat) : Int) := by
  rw [hI.fifo]
  have : (s.page_faults - 16) % 16 = s.page_faults % 16 := by omega
  rw [this]

theorem translate_fault {s : State} {a : Nat} (hI : Inv s) (ha : a < 2 ^ 16)
    (hl : tlb_lookup s.tlb (vpn_of a : Nat) = none)
    (hv : (s.page_table (vpn_of a)).valid = false) :
    translate_address s a =
      some ⟨after_fault s (vpn_of a), ((s.page_faults % 16 : Nat) : Int),
        ((s.page_faults % 16) <<< OFFSET_BITS) ||| offset_of a⟩ := by
  have hlt : s.page_faults % 16 < 16 := Nat.mod_lt _ (by norm_num)
  unfold translate_address
  simp only []
  rw [hl]
  simp only []
  rw [idx_natCast (by simpa using vpn_of_lt ha)]
  simp only [hv, Bool.false_eq_true, if_false]
  unfold handle_page_fault choose_frame
  simp only []
  rw [find_free_frame_eq hI]
  by_cases hpf : s.page_faults < 16
  · have hmod : s.page_faults % 16 = s.page_faults := Nat.mod_eq_of_lt hpf
    rw [if_pos hpf]
    have hne : ¬ ((s.page_faults : Int) = -1) := by omega
    rw [if_neg hne]
    simp only []
    rw [idx_natCast (by simpa using vpn_of_lt ha), idx_natCast (by simpa using hpf)]
    simp only []
    rw [update_tlb_eq (by exact hI.tlb_ptr)]
    simp only [finish, Function.update_same]
    rw [if_pos ⟨by omega, by simp only [OFFSET_BITS]; omega⟩]
    simp only [after_fault, evicted_table, if_pos hpf, hmod, Int.toNat_ofNat]
  · rw [if_neg hpf]
    simp only [if_true]
    have hfifo := fifo_eq hI hpf
    rw [hfifo, idx_natCast (by simpa using hlt)]
    simp only []
    have hused : s.is_frame_free (s.page_faults % 16) = false := by
      cases hf : s.is_frame_free (s.page_faults % 16)
      · rfl
      · have := (hI.free_iff _ hlt).mp hf; omega
    obtain ⟨v0, hv0, hmap, -, -⟩ := hI.used_map _ hlt hused
    rw [hmap, idx_natCast (by simpa using hv0)]
    simp only []
    rw [idx_natCast (by simpa using vpn_of_lt ha), idx_natCast (by simpa using hlt)]
    simp only []
    rw [update_tlb_eq (by exact hI.tlb_ptr)]
    simp only [finish, Function.update_same]
    rw [if_pos ⟨by omega, by simp only [OFFSET_BITS]; omega⟩]
    simp only [after_fault, evicted_table, if_neg hpf, hmap, hfifo, Int.toNat_ofNat]

theorem inv_after_hit {s : State} (hI : Inv s) : Inv (after_hit s) where
  free_iff := hI.free_iff
  fifo := hI.fifo
  used_map := hI.used_map
  valid_pt := hI.valid_pt
  tlb_ptr := hI.tlb_ptr
  tlb_ok := hI.tlb_ok
  tlb_nodup := hI.tlb_nodup
  counters := by have := hI.counters; simp only [after_hit]; omega

theorem tlb_ptr_step (p : Int) :
    0 ≤ (p + 1) % ((TLB_ENTRIES : Nat) : Int) ∧ (p + 1) % ((TLB_ENTRIES : Nat) : Int) < 4 := by
  simp only [TLB_ENTRIES]; omega

theorem toNat_lt_four {p : Int} (h : 0 ≤ p ∧ p < 4) : p.toNat < 4 := by omega

/-- Installing a TLB entry for a page that no valid slot holds keeps the TLB
part of the invariant. -/
theorem tlb_install {s : State} (hI : Inv s) {v : Nat} {fr : Int} (hv : v < 256)
    (h0 : 0 ≤ fr) (h1 : fr < 16)
    (hl : tlb_lookup s.tlb (v : Int) = none) :
    (∀ i, i < 4 →
      (Function.update s.tlb s.tlb_victim_entry_ptr.toNat ⟨true, (v : Int), fr⟩ i).valid = true →
      0 ≤ (Function.update s.tlb s.tlb_victim_entry_ptr.toNat ⟨true, (v : Int), fr⟩ i).vpn ∧
      (Function.update s.tlb s.tlb_victim_entry_ptr.toNat ⟨true, (v : Int), fr⟩ i).vpn < 256 ∧
      0 ≤ (Function.update s.tlb s.tlb_victim_entry_ptr.toNat
            ⟨true, (v : Int), fr⟩ i).frame_number ∧
      (Function.update s.tlb s.tlb_victim_entry_ptr.toNat
            ⟨true, (v : Int), fr⟩ i).frame_number < 16) ∧
    (∀ i j, i < 4 → j < 4 →
      (Function.update s.tlb s.tlb_victim_entry_ptr.toNat ⟨true, (v : Int), fr⟩ i).valid = true →
      (Function.update s.tlb s.tlb_victim_entry_ptr.toNat ⟨true, (v : Int), fr⟩ j).valid = true →
      (Function.update s.tlb s.tlb_victim_entry_ptr.toNat ⟨true, (v : Int), fr⟩ i).vpn =
        (Function.update s.tlb s.tlb_victim_entry_ptr.toNat ⟨true, (v : Int), fr⟩ j).vpn →
      i = j) := by
  rw [tlb_lookup_eq_none] at hl
  constructor
  · intro i hi
    rw [Function.update_apply]
    split_ifs with h
    · intro _; simp only; omega
    · exact hI.tlb_ok i hi
  · intro i j hi hj
    rw [Function.update_apply, Function.update_apply]
    split_ifs with h h' h'
    · intro _ _ _; omega
    · intro _ hvj hvpn
      exact absurd ⟨hvj, hvpn.symm⟩ (hl j hj)
    · intro hvi _ hvpn
      exact absurd ⟨hvi, hvpn⟩ (hl i hi)
    · exact hI.tlb_nodup i j hi hj

theorem inv_after_table_hit {s : State} (hI : Inv s) {v : Nat} (hv : v < 256)
    (hl : tlb_lookup s.tlb (v : Int) = none) (hval : (s.page_table v).valid = true) :
    Inv (after_table_hit s v) := by
  obtain ⟨f, hf, hfr, -, -⟩ := hI.valid_pt v hv hval
  have ht := @tlb_install s hI v (s.page_table v).frame_number hv (by omega) (by omega) hl
  exact {
    free_iff := hI.free_iff
    fifo := hI.fifo
    used_map := hI.used_map
    valid_pt := hI.valid_pt
    tlb_ptr := tlb_ptr_step _
    tlb_ok := ht.1
    tlb_nodup := ht.2
    counters := by have := hI.counters; simp only [after_table_hit]; omega }

theorem evicted_table_apply {s : State} (hI : Inv s) (v : Nat) :
    evicted_table s v =
      if 16 ≤ s.page_faults ∧ s.frame_to_vpn_map (s.page_faults % 16) = (v : Int)
      then { s.page_table v with valid := false } else s.page_table v := by
  have hlt : s.page_faults % 16 < 16 := Nat.mod_lt _ (by norm_num)
  unfold evicted_table
  by_cases hpf : s.page_faults < 16
  · rw [if_pos hpf, if_neg (by omega)]
  · rw [if_neg hpf]
    have hused : s.is_frame_free (s.page_faults % 16) = false := by
      cases hf : s.is_frame_free (s.page_faults % 16)
      · rfl
      · have := (hI.free_iff _ hlt).mp hf; omega
    obtain ⟨v0, hv0, hmap, -, -⟩ := hI.used_map _ hlt hused
    rw [hmap, Int.toNat_ofNat, Function.update_apply]
    by_cases hvv : v = v0
    · subst hvv
      rw [if_pos rfl, if_pos ⟨by omega, rfl⟩]
    · rw [if_neg hvv, if_neg]
      intro h; apply hvv; omega

theorem inv_after_fault {s : State} (hI : Inv s) {v : Nat} (hv : v < 256)
    (hl : tlb_lookup s.tlb (v : Int) = none) (hval : (s.page_table v).valid = false) :
    Inv (after_fault s v) := by
  have hlt : s.page_faults % 16 < 16 := Nat.mod_lt _ (by norm_num)
  have ht := @tlb_install s hI v ((s.page_faults % 16 : Nat) : Int) hv (by omega) (by omega) hl
  -- the frame used is free before the fault, or its page is the victim
  have hfree_or : s.page_faults < 16 → s.is_frame_free (s.page_faults % 16) = true := by
    intro h
    exact (hI.free_iff _ hlt).mpr (by rw [Nat.mod_eq_of_lt h])
  have hused_of : ∀ f, f < 16 → 16 ≤ s.page_faults → s.is_frame_free f = false := by
    intro f hf h
    cases hfr : s.is_frame_free f
    · rfl
    · have := (hI.free_iff _ hf).mp hfr; omega
  exact {
    free_iff := by
      intro f hf
      simp only [after_fault, Function.update_apply]
      have := hI.free_iff f hf
      split_ifs with h
      · subst h; simp; omega
      · rw [this]
        by_cases hpf : s.page_faults < 16
        · rw [Nat.mod_eq_of_lt hpf] at h; omega
        · omega
    fifo := by
      simp only [after_fault]
      split_ifs with hpf
      · rw [hI.fifo]
        have h1 : (s.page_faults - 16) % 16 = 0 := by omega
        have h2 : (s.page_faults + 1 - 16) % 16 = 0 := by omega
        rw [h1, h2]
      · rw [hI.fifo]; simp only [NUM_PHYSICAL_FRAMES, PHYSICAL_MEMORY_SIZE, PAGE_SIZE]; omega
    used_map := by
      intro f hf
      simp only [after_fault, Function.update_apply]
      split_ifs with h
      · intro _
        refine ⟨v, hv, rfl, ?_⟩
        simp [h]
      · intro hfr
        obtain ⟨v0, hv0, hmap, hval0, hfr0⟩ := hI.used_map f hf hfr
        refine ⟨v0, hv0, hmap, ?_⟩
        have hne : v0 ≠ v := by
          intro he; subst he; rw [hval] at hval0; exact absurd hval0 (by simp)
        rw [if_neg hne, evicted_table_apply hI, if_neg]
        · exact ⟨hval0, hfr0⟩
        · rintro ⟨h16, hm⟩
          obtain ⟨v1, hv1, hmap1, hval1, hfr1⟩ := hI.used_map _ hlt (hused_of _ hlt h16)
          have : v1 = v0 := by omega
          subst this
          rw [hfr0] at hfr1
          apply h; omega
    valid_pt := by
      intro v' hv'
      simp only [after_fault, Function.update_apply]
      split_ifs with h
      · intro _
        subst h
        exact ⟨s.page_faults % 16, hlt, rfl, by simp, by simp⟩
      · rw [evicted_table_apply hI]
        split_ifs with hev
        · intro hc; simp at hc
        · intro hval'
          obtain ⟨f0, hf0, hfr0, hfree0, hmap0⟩ := hI.valid_pt v' hv' hval'
          have hne : f0 ≠ s.page_faults % 16 := by
            intro he
            by_cases hpf : s.page_faults < 16
            · have := hfree_or hpf
              rw [← he, hfree0] at this; exact absurd this (by simp)
            · apply hev
              exact ⟨by omega, by rw [← he]; exact hmap0⟩
          refine ⟨f0, hf0, hfr0, ?_, ?_⟩
          · rw [if_neg hne]; exact hfree0
          · rw [if_neg hne]; exact hmap0
    tlb_ptr := tlb_ptr_step _
    tlb_ok := ht.1
    tlb_nodup := ht.2
    counters := by have := hI.counters; simp only [after_fault]; omega }

/-- The three outcomes of one translation in a state satisfying the
invariant, each with its explicit post-state. -/
theorem translate_cases {s : State} (hI : Inv s) {a : Nat} (ha : a < 2 ^ 16) :
    (∃ fr, tlb_lookup s.tlb (vpn_of a : Nat) = some fr ∧ 0 ≤ fr ∧ fr < 16 ∧
      translate_address s a =
        some ⟨after_hit s, fr, (fr.toNat <<< OFFSET_BITS) ||| offset_of a⟩) ∨
    (tlb_lookup s.tlb (vpn_of a : Nat) = none ∧ (s.page_table (vpn_of a)).valid = true ∧
      translate_address s a =
        some ⟨after_table_hit s (vpn_of a), (s.page_table (vpn_of a)).frame_number,
          ((s.page_table (vpn_of a)).frame_number.toNat <<< OFFSET_BITS) ||| offset_of a⟩) ∨
    (tlb_lookup s.tlb (vpn_of a : Nat) = none ∧ (s.page_table (vpn_of a)).valid = false ∧
      translate_address s a =
        some ⟨after_fault s (vpn_of a), ((s.page_faults % 16 : Nat) : Int),
          ((s.page_faults % 16) <<< OFFSET_BITS) ||| offset_of a⟩) := by
  cases hl : tlb_lookup s.tlb (vpn_of a : Nat) with
  | some fr =>
    left
    obtain ⟨i, hi, hv, -, hfr, -⟩ := tlb_lookup_eq_some hl
    have := hI.tlb_ok i hi hv
    rw [hfr] at this
    exact ⟨fr, rfl, this.2.2.1, this.2.2.2, translate_hit hl this.2.2.1 this.2.2.2⟩
  | none =>
    right
    cases hv : (s.page_table (vpn_of a)).valid with
    | true => left; exact ⟨rfl, rfl, translate_table_hit hI ha hl hv⟩
    | false => right; exact ⟨rfl, rfl, translate_fault hI ha hl hv⟩

theorem translate_inv {s : State} (hI : Inv s) {a : Nat} (ha : a < 2 ^ 16) :
    ∃ t, translate_address s a = some t ∧ Inv t.state := by
  rcases translate_cases hI ha with ⟨fr, -, -, -, h⟩ | ⟨hl, hv, h⟩ | ⟨hl, hv, h⟩
  · exact ⟨_, h, inv_after_hit hI⟩
  · exact ⟨_, h, inv_after_table_hit hI (vpn_of_lt ha) hl hv⟩
  · exact ⟨_, h, inv_after_fault hI (vpn_of_lt ha) hl hv⟩

theorem run_cons_some {s : State} {a : Nat} {rest : List Nat} {t : Translation}
    {s' : State} {ts : List Translation}
    (h1 : translate_address s a = some t) (h2 : run t.state rest = some (s', ts)) :
    run s (a :: rest) = some (s', t :: ts) := by
  simp only [run, h1, h2]

theorem run_cons_inv {s : State} {a : Nat} {rest : List Nat} {s' : State}
    {ts : List Translation} (h : run s (a :: rest) = some (s', ts)) :
    ∃ t ts', translate_address s a = some t ∧ run t.state rest = some (s', ts') ∧
      ts = t :: ts' := by
  simp only [run] at h
  cases h1 : translate_address s a with
  | none => rw [h1] at h; simp at h
  | some t =>
    rw [h1] at h
    simp only at h
    cases h2 : run t.state rest with
    | none => rw [h2] at h; simp at h
    | some r =>
      obtain ⟨s2, ts2⟩ := r
      rw [h2] at h
      simp only [Option.some.injEq, Prod.mk.injEq] at h
      exact ⟨t, ts2, rfl, by rw [h2, h.1], h.2.symm⟩

theorem run_append {s : State} (l1 l2 : List Nat) {s1 s2 : State}
    {ts1 ts2 : List Translation}
    (h1 : run s l1 = some (s1, ts1)) (h2 : run s1 l2 = some (s2, ts2)) :
    run s (l1 ++ l2) = some (s2, ts1 ++ ts2) := by
  induction l1 generalizing s ts1 with
  | nil =>
    simp only [run, Option.some.injEq, Prod.mk.injEq] at h1
    obtain ⟨rfl, rfl⟩ := h1
    simpa using h2
  | cons a rest ih =>
    obtain ⟨t, ts', ht, hr, rfl⟩ := run_cons_inv h1
    rw [List.cons_append, List.cons_append]
    exact run_cons_some ht (ih hr)

theorem run_append_inv {s : State} (l1 l2 : List Nat) {s2 : State} {ts : List Translation}
    (h : run s (l1 ++ l2) = some (s2, ts)) :
    ∃ s1 ts1 ts2, run s l1 = some (s1, ts1) ∧ run s1 l2 = some (s2, ts2) ∧
      ts = ts1 ++ ts2 := by
  induction l1 generalizing s ts with
  | nil => exact ⟨s, [], ts, rfl, by simpa using h, rfl⟩
  | cons a rest ih =>
    rw [List.cons_append] at h
    obtain ⟨t, ts', ht, hr, rfl⟩ := run_cons_inv h
    obtain ⟨s1, ts1, ts2, h1, h2, rfl⟩ := ih hr
    exact ⟨s1, t :: ts1, ts2, run_cons_some ht h1, h2, rfl⟩

/-- A trace of in-width addresses runs to completion from any state that
satisfies the invariant, and the invariant holds at the end. -/
theorem run_inv {s : State} (hI : Inv s) (trace : List Nat) (hw : ∀ a ∈ trace, a < 2 ^ 16) :
    ∃ s' ts, run s trace = some (s', ts) ∧ Inv s' ∧ ts.length = trace.length := by
  induction trace generalizing s with
  | nil => exact ⟨s, [], rfl, hI, rfl⟩
  | cons a rest ih =>
    obtain ⟨t, ht, hIt⟩ := translate_inv hI (hw a (List.mem_cons_self _ _))
    obtain ⟨s', ts, hr, hI', hlen⟩ := ih hIt (fun b hb => hw b (List.mem_cons_of_mem _ hb))
    exact ⟨s', t :: ts, run_cons_some ht hr, hI', by simp [hlen]⟩

theorem run_inv_of_eq {s s' : State} {ts : List Translation} (hI : Inv s) {trace : List Nat}
    (hw : ∀ a ∈ trace, a < 2 ^ 16) (h : run s trace = some (s', ts)) : Inv s' := by
  obtain ⟨s2, ts2, hr, hI2, -⟩ := run_inv hI trace hw
  rw [h] at hr
  simp only [Option.some.injEq, Prod.mk.injEq] at hr
  rw [hr.1]; exact hI2

theorem reachable_inv {s : State} (h : Reachable s) : Inv s := by
  obtain ⟨trace, hw, ts, hr⟩ := h
  exact run_inv_of_eq inv_initialize_system hw hr

theorem reachable_init : Reachable initialize_system := ⟨[], by simp, [], rfl⟩

theorem reachable_step {s : State} (h : Reachable s) {a : Nat} (ha : a < 2 ^ 16)
    {t : Translation} (ht : translate_address s a = some t) : Reachable t.state := by
  obtain ⟨trace, hw, ts, hr⟩ := h
  refine ⟨trace ++ [a], ?_, ts ++ [t], ?_⟩
  · intro b hb
    rcases List.mem_append.mp hb with h | h
    · exact hw b h
    · simp at h; subst h; exact ha
  · exact run_append trace [a] hr (run_cons_some ht rfl)

theorem used_eq_valid {s : State} (hI : Inv s) : used_frames s = valid_pages s := by
  unfold used_frames valid_pages
  rw [countP_range_eq_card, countP_range_eq_card]
  apply Finset.card_bij (fun f _ => (s.frame_to_vpn_map f).toNat)
  · intro f hf
    simp only [Finset.mem_filter, Finset.mem_range, Bool.not_eq_true'] at hf ⊢
    obtain ⟨v, hv, hmap, hval, -⟩ := hI.used_map f (by simpa using hf.1) hf.2
    rw [hmap, Int.toNat_ofNat]
    exact ⟨by simpa using hv, hval⟩
  · intro f1 hf1 f2 hf2 heq
    simp only [Finset.mem_filter, Finset.mem_range, Bool.not_eq_true'] at hf1 hf2
    obtain ⟨v1, hv1, hmap1, hval1, hfr1⟩ := hI.used_map f1 (by simpa using hf1.1) hf1.2
    obtain ⟨v2, hv2, hmap2, hval2, hfr2⟩ := hI.used_map f2 (by simpa using hf2.1) hf2.2
    rw [hmap1, hmap2, Int.toNat_ofNat, Int.toNat_ofNat] at heq
    subst heq
    omega
  · intro v hv
    simp only [Finset.mem_filter, Finset.mem_range] at hv
    obtain ⟨f, hf, hfr, hfree, hmap⟩ := hI.valid_pt v (by simpa using hv.1) hv.2
    refine ⟨f, ?_, ?_⟩
    · simp only [Finset.mem_filter, Finset.mem_range, Bool.not_eq_true']
      exact ⟨by simpa using hf, hfree⟩
    · rw [hmap, Int.toNat_ofNat]

/-- After a translation of `a`, the TLB probe for the page of `a` finds the
frame that translation returned. -/
theorem lookup_after_install {tlb : Nat → TLBEntry} {v fr p : Int}
    (hl : tlb_lookup tlb v = none) (hp : 0 ≤ p ∧ p < 4) :
    tlb_lookup (Function.update tlb p.toNat ⟨true, v, fr⟩) v = some fr := by
  rw [tlb_lookup_eq_none] at hl
  have := @tlb_lookup_of_slot (Function.update tlb p.toNat ⟨true, v, fr⟩) v
    p.toNat (by omega) (by simp) (by simp) (by
      intro j hj
      rw [Function.update_noteq (by omega)]
      exact hl j (by omega))
  simpa using this

theorem translate_twice {s : State} (hI : Inv s) {a : Nat} (ha : a < 2 ^ 16) :
    ∃ t1 t2, translate_address s a = some t1 ∧ translate_address t1.state a = some t2 ∧
      t2.state = after_hit t1.state ∧
      t2.frame_number = t1.frame_number ∧ t2.physical_address = t1.physical_address := by
  rcases translate_cases hI ha with ⟨fr, hl, h0, h1, h⟩ | ⟨hl, hv, h⟩ | ⟨hl, hv, h⟩
  · refine ⟨_, _, h, translate_hit (s := after_hit s) hl h0 h1, rfl, rfl, rfl⟩
  · obtain ⟨f, hf, hfr, -, -⟩ := hI.valid_pt _ (vpn_of_lt ha) hv
    have hl2 : tlb_lookup (after_table_hit s (vpn_of a)).tlb (vpn_of a : Nat) =
        some (s.page_table (vpn_of a)).frame_number := lookup_after_install hl hI.tlb_ptr
    refine ⟨_, _, h, translate_hit hl2 (by omega) (by omega), rfl, rfl, rfl⟩
  · have hl2 : tlb_lookup (after_fault s (vpn_of a)).tlb (vpn_of a : Nat) =
        some ((s.page_faults % 16 : Nat) : Int) := lookup_after_install hl hI.tlb_ptr
    refine ⟨_, _, h, translate_hit hl2 (by omega) (by omega), rfl, rfl, ?_⟩
    simp only [Int.toNat_ofNat]

theorem seen_initialize_system : Seen [] initialize_system :=
  ⟨by intro v _ h; simp [initialize_system] at h, by intro i _ h; simp [initialize_system] at h⟩

theorem seen_install {vs : List Nat} {tlb : Nat → TLBEntry} {v : Nat} {p : Nat} {fr : Int}
    (h : ∀ i, i < 4 → (tlb i).valid = true → ∃ w ∈ vs, (tlb i).vpn = (w : Int)) :
    ∀ i, i < 4 → (Function.update tlb p ⟨true, (v : Int), fr⟩ i).valid = true →
      ∃ w ∈ vs ++ [v], (Function.update tlb p ⟨true, (v : Int), fr⟩ i).vpn = (w : Int) := by
  intro i hi
  rw [Function.update_apply]
  split_ifs with hp
  · intro _; exact ⟨v, by simp, rfl⟩
  · intro hval
    obtain ⟨w, hw, he⟩ := h i hi hval
    exact ⟨w, by simp [hw], he⟩

theorem seen_after_fault {vs : List Nat} {s : State} (hI : Inv s) (h : Seen vs s) (v : Nat) :
    Seen (vs ++ [v]) (after_fault s v) := by
  refine ⟨?_, seen_install h.2⟩
  intro w hw
  simp only [after_fault, Function.update_apply]
  split_ifs with hwv
  · intro _; simp [hwv]
  · rw [evicted_table_apply hI]
    split_ifs with hev
    · intro hc; simp at hc
    · intro hval; simp [h.1 w hw hval]

/-- A page that has not been translated so far page-faults. -/
theorem fresh_fault {vs : List Nat} {s : State} (h : Seen vs s) {a : Nat}
    (ha : a < 2 ^ 16) (hf : vpn_of a ∉ vs) :
    tlb_lookup s.tlb (vpn_of a : Nat) = none ∧ (s.page_table (vpn_of a)).valid = false := by
  constructor
  · rw [tlb_lookup_eq_none]
    rintro i hi ⟨hval, hvpn⟩
    obtain ⟨w, hw, he⟩ := h.2 i hi hval
    have : w = vpn_of a := by omega
    subst this
    exact hf hw
  · cases hv : (s.page_table (vpn_of a)).valid
    · rfl
    · exact absurd (h.1 _ (vpn_of_lt ha) hv) hf

theorem run_fresh {vs : List Nat} {s : State} (hI : Inv s) (h : Seen vs s) (l : List Nat)
    (hw : ∀ a ∈ l, a < 2 ^ 16) (hd : (l.map vpn_of).Nodup) (hf : ∀ a ∈ l, vpn_of a ∉ vs) :
    run s l = some (fault_all s l, fault_results s l) ∧ Inv (fault_all s l) ∧
      Seen (vs ++ l.map vpn_of) (fault_all s l) := by
  induction l generalizing s vs with
  | nil => exact ⟨rfl, hI, by simpa using h⟩
  | cons a rest ih =>
    have ha := hw a (List.mem_cons_self _ _)
    obtain ⟨hl, hv⟩ := fresh_fault h ha (hf a (List.mem_cons_self _ _))
    have ht := translate_fault hI ha hl hv
    have hI1 := inv_after_fault hI (vpn_of_lt ha) hl hv
    have hS1 := seen_after_fault hI h (vpn_of a)
    rw [List.map_cons, List.nodup_cons] at hd
    obtain ⟨h1, h2, h3⟩ := ih hI1 hS1 (fun b hb => hw b (List.mem_cons_of_mem _ hb)) hd.2
      (by
        intro b hb hmem
        rcases List.mem_append.mp hmem with hm | hm
        · exact hf b (List.mem_cons_of_mem _ hb) hm
        · simp only [List.mem_singleton] at hm
          exact hd.1 (by rw [← hm]; exact List.mem_map_of_mem _ hb))
    refine ⟨run_cons_some ht h1, h2, ?_⟩
    simpa using h3

theorem fault_all_page_faults (s : State) (l : List Nat) :
    (fault_all s l).page_faults = s.page_faults + l.length := by
  induction l generalizing s with
  | nil => rfl
  | cons a rest ih =>
    simp only [fault_all, List.length_cons]
    rw [ih]
    show s.page_faults + 1 + rest.length = _
    omega

theorem fault_results_length (s : State) (l : List Nat) :
    (fault_results s l).length = l.length := by
  induction l generalizing s with
  | nil => rfl
  | cons a rest ih => simp only [fault_results, List.length_cons, ih]

theorem fault_results_get (s : State) (l : List Nat) (i : Nat) (t : Translation)
    (h : (fault_results s l)[i]? = some t) :
    t.frame_number = (((s.page_faults + i) % 16 : Nat) : Int) ∧
      t.state.page_faults = s.page_faults + i + 1 := by
  induction l generalizing s i with
  | nil => simp [fault_results] at h
  | cons a rest ih =>
    cases i with
    | zero =>
      simp only [fault_results, List.getElem?_cons_zero, Option.some.injEq] at h
      subst h
      exact ⟨rfl, rfl⟩
    | succ j =>
      simp only [fault_results, List.getElem?_cons_succ] at h
      obtain ⟨h1, h2⟩ := ih _ j h
      have hp : (after_fault s (vpn_of a)).page_faults = s.page_faults + 1 := rfl
      rw [hp] at h1 h2
      constructor
      · rw [h1]; congr 2; omega
      · omega

/-- A page fault leaves alone the entry of every other page whose frame is
not the one the fault uses. -/
theorem fault_preserves_other {s : State} (hI : Inv s) {w v g : Nat} (hw : w < 256)
    (hval : (s.page_table w).valid = true) (hfr : (s.page_table w).frame_number = (g : Int))
    (hg : g ≠ s.page_faults % 16) (hwv : w ≠ v) :
    (after_fault s v).page_table w = s.page_table w := by
  have hlt : s.page_faults % 16 < 16 := Nat.mod_lt _ (by norm_num)
  show Function.update (evicted_table s) v _ w = _
  rw [Function.update_noteq hwv, evicted_table_apply hI, if_neg]
  rintro ⟨h16, hmap⟩
  have hused : s.is_frame_free (s.page_faults % 16) = false := by
    cases hf : s.is_frame_free (s.page_faults % 16)
    · rfl
    · have := (hI.free_iff _ hlt).mp hf; omega
  obtain ⟨v0, -, hmap0, -, hfr0⟩ := hI.used_map _ hlt hused
  have : v0 = w := by omega
  subst this
  omega

theorem fault_all_preserves {vs : List Nat} {s : State} (hI : Inv s) (h : Seen vs s)
    (l : List Nat) (hw : ∀ a ∈ l, a < 2 ^ 16) (hd : (l.map vpn_of).Nodup)
    (hf : ∀ a ∈ l, vpn_of a ∉ vs) {w g : Nat} (hw256 : w < 256)
    (hval : (s.page_table w).valid = true) (hfr : (s.page_table w).frame_number = (g : Int))
    (hg : ∀ k, k < l.length → (s.page_faults + k) % 16 ≠ g) :
    (fault_all s l).page_table w = s.page_table w := by
  induction l generalizing s vs with
  | nil => rfl
  | cons a rest ih =>
    have ha := hw a (List.mem_cons_self _ _)
    obtain ⟨hl, hv⟩ := fresh_fault h ha (hf a (List.mem_cons_self _ _))
    have hI1 := inv_after_fault hI (vpn_of_lt ha) hl hv
    have hS1 := seen_after_fault hI h (vpn_of a)
    have hwa : w ≠ vpn_of a := by
      intro he; subst he; rw [hval] at hv; exact absurd hv (by simp)
    have hstep : (after_fault s (vpn_of a)).page_table w = s.page_table w :=
      fault_preserves_other hI hw256 hval hfr
        (by have := hg 0 (by simp); simpa using this.symm) hwa
    rw [List.map_cons, List.nodup_cons] at hd
    simp only [fault_all]
    rw [ih hI1 hS1 (fun b hb => hw b (List.mem_cons_of_mem _ hb)) hd.2
      (by
        intro b hb hmem
        rcases List.mem_append.mp hmem with hm | hm
        · exact hf b (List.mem_cons_of_mem _ hb) hm
        · simp only [List.mem_singleton] at hm
          exact hd.1 (by rw [← hm]; exact List.mem_map_of_mem _ hb))
      (by rw [hstep]; exact hval) (by rw [hstep]; exact hfr)
      (by
        intro k hk
        have := hg (k + 1) (by simp; omega)
        have hp : (after_fault s (vpn_of a)).page_faults = s.page_faults + 1 := rfl
        rw [hp]
        intro he; apply this; rw [← he]; congr 1; omega)]
    exact hstep

/-- After at most 16 consecutive page faults on fresh pages, the `i`-th of
them sits in frame `(page_faults + i) % 16`. -/
theorem fault_all_loaded {vs : List Nat} {s : State} (hI : Inv s) (h : Seen vs s)
    (l : List Nat) (hw : ∀ a ∈ l, a < 2 ^ 16) (hd : (l.map vpn_of).Nodup)
    (hf : ∀ a ∈ l, vpn_of a ∉ vs) (hlen : l.length ≤ 16) (i a : Nat) (hi : l[i]? = some a) :
    ((fault_all s l).page_table (vpn_of a)).valid = true ∧
      ((fault_all s l).page_table (vpn_of a)).frame_number =
        (((s.page_faults + i) % 16 : Nat) : Int) := by
  induction l generalizing s vs i with
  | nil => simp at hi
  | cons b rest ih =>
    have hb := hw b (List.mem_cons_self _ _)
    obtain ⟨hl, hv⟩ := fresh_fault h hb (hf b (List.mem_cons_self _ _))
    have hI1 := inv_after_fault hI (vpn_of_lt hb) hl hv
    have hS1 := seen_after_fault hI h (vpn_of b)
    rw [List.map_cons, List.nodup_cons] at hd
    have hf1 : ∀ c ∈ rest, vpn_of c ∉ vs ++ [vpn_of b] := by
      intro c hc hmem
      rcases List.mem_append.mp hmem with hm | hm
      · exact hf c (List.mem_cons_of_mem _ hc) hm
      · simp only [List.mem_singleton] at hm
        exact hd.1 (by rw [← hm]; exact List.mem_map_of_mem _ hc)
    have hw1 : ∀ c ∈ rest, c < 2 ^ 16 := fun c hc => hw c (List.mem_cons_of_mem _ hc)
    have hp : (after_fault s (vpn_of b)).page_faults = s.page_faults + 1 := rfl
    simp only [List.length_cons] at hlen
    cases i with
    | zero =>
      simp only [List.getElem?_cons_zero, Option.some.injEq] at hi
      subst hi
      have h0 : (after_fault s (vpn_of b)).page_table (vpn_of b) =
          ⟨true, ((s.page_faults % 16 : Nat) : Int)⟩ := by
        show Function.update (evicted_table s) (vpn_of b) _ (vpn_of b) = _
        rw [Function.update_same]
      simp only [fault_all]
      rw [fault_all_preserves hI1 hS1 rest hw1 hd.2 hf1 (vpn_of_lt hb) (g := s.page_faults % 16)
        (by rw [h0]) (by rw [h0])
        (by intro k hk; rw [hp]; omega)]
      rw [h0]
      exact ⟨rfl, rfl⟩
    | succ j =>
      simp only [List.getElem?_cons_succ] at hi
      have := ih hI1 hS1 hw1 hd.2 hf1 (by omega) j hi
      simp only [fault_all]
      rw [hp] at this
      have e : (s.page_faults + 1 + j) % 16 = (s.page_faults + (j + 1)) % 16 := by
        congr 1; omega
      rw [e] at this
      exact this

theorem fault_all_append (s : State) (l1 l2 : List Nat) :
    fault_all s (l1 ++ l2) = fault_all (fault_all s l1) l2 := by
  induction l1 generalizing s with
  | nil => rfl
  | cons a rest ih =>
    show fault_all (after_fault s (vpn_of a)) (rest ++ l2) = _
    exact ih _

/-- `update_tlb` leaves `total_accesses`, `tlb_hits` and `tlb_misses` alone. -/
theorem update_tlb_counters {s s' : State} {v f : Int} (h : update_tlb s v f = some s') :
    s'.total_accesses = s.total_accesses ∧ s'.tlb_hits = s.tlb_hits ∧
      s'.tlb_misses = s.tlb_misses := by
  unfold update_tlb at h
  split at h
  · exact absurd h (by simp)
  · simp only [Option.some.injEq] at h; subst h; exact ⟨rfl, rfl, rfl⟩

theorem finish_counters {s : State} {fr : Int} {off : Nat} {t : Translation}
    (h : finish s fr off = some t) :
    t.state.total_accesses = s.total_accesses ∧ t.state.tlb_hits = s.tlb_hits ∧
      t.state.tlb_misses = s.tlb_misses := by
  unfold finish at h
  split at h
  · simp only [Option.some.injEq] at h; subst h; exact ⟨rfl, rfl, rfl⟩
  · exact absurd h (by simp)

theorem choose_frame_counters {s s' : State} {f : Int} (h : choose_frame s = some (s', f)) :
    s'.total_accesses = s.total_accesses ∧ s'.tlb_hits = s.tlb_hits ∧
      s'.tlb_misses = s.tlb_misses := by
  unfold choose_frame at h
  dsimp only at h
  split at h
  · split at h
    · exact absurd h (by simp)
    · split at h
      · exact absurd h (by simp)
      · simp only [Option.some.injEq, Prod.mk.injEq] at h
        obtain ⟨h1, -⟩ := h; subst h1; exact ⟨rfl, rfl, rfl⟩
  · simp only [Option.some.injEq, Prod.mk.injEq] at h
    obtain ⟨h1, -⟩ := h; subst h1; exact ⟨rfl, rfl, rfl⟩

theorem handle_page_fault_counters {s s' : State} {v : Int}
    (h : handle_page_fault s v = some s') :
    s'.total_accesses = s.total_accesses ∧ s'.tlb_hits = s.tlb_hits ∧
      s'.tlb_misses = s.tlb_misses := by
  unfold handle_page_fault at h
  dsimp only at h
  split at h
  · exact absurd h (by simp)
  · rename_i s2 f hc
    have h2 := choose_frame_counters hc
    split at h
    · have h3 := update_tlb_counters h
      exact ⟨h3.1.trans h2.1, h3.2.1.trans h2.2.1, h3.2.2.trans h2.2.2⟩
    · exact absurd h (by simp)

/-- Every call of `translate_address` that returns adds 1 to
`total_accesses` and 1 to exactly one of `tlb_hits` and `tlb_misses`. -/
theorem translate_counters {s : State} {a : Nat} {t : Translation}
    (h : translate_address s a = some t) :
    t.state.total_accesses = s.total_accesses + 1 ∧
      ((t.state.tlb_hits = s.tlb_hits + 1 ∧ t.state.tlb_misses = s.tlb_misses) ∨
       (t.state.tlb_hits = s.tlb_hits ∧ t.state.tlb_misses = s.tlb_misses + 1)) := by
  unfold translate_address at h
  dsimp only at h
  split at h
  · have h1 := finish_counters h
    exact ⟨h1.1, Or.inl ⟨h1.2.1, h1.2.2⟩⟩
  · split at h
    · exact absurd h (by simp)
    · split at h
      · split at h
        · exact absurd h (by simp)
        · rename_i s3 hu
          have h1 := finish_counters h
          have h2 := update_tlb_counters hu
          exact ⟨h1.1.trans h2.1, Or.inr ⟨h1.2.1.trans h2.2.1, h1.2.2.trans h2.2.2⟩⟩
      · split at h
        · exact absurd h (by simp)
        · rename_i s3 hu
          have h1 := finish_counters h
          have h2 := handle_page_fault_counters hu
          exact ⟨h1.1.trans h2.1, Or.inr ⟨h1.2.1.trans h2.2.1, h1.2.2.trans h2.2.2⟩⟩

theorem run_counters {s s' : State} {addrs : List Nat} {ts : List Translation}
    (h : run s addrs = some (s', ts)) :
    s'.total_accesses = s.total_accesses + addrs.length ∧
      s'.tlb_hits + s'.tlb_misses = s.tlb_hits + s.tlb_misses + addrs.length := by
  induction addrs generalizing s ts with
  | nil =>
    simp only [run, Option.some.injEq, Prod.mk.injEq] at h
    rw [← h.1]; exact ⟨rfl, rfl⟩
  | cons a rest ih =>
    obtain ⟨t, ts', ht, hr, -⟩ := run_cons_inv h
    have h1 := translate_counters ht
    have h2 := ih hr
    simp only [List.length_cons]
    omega

/-- An address of `2 ^ 16` or more is not truncated: its page number is 256
or more, no TLB slot holds it, and the page-table access is out of bounds. -/
theorem translate_out_of_width {s : State} (hI : Inv s) {a : Nat} (ha : 2 ^ 16 ≤ a) :
    256 ≤ vpn_of a ∧ translate_address s a = none := by
  have hv : 256 ≤ vpn_of a := by
    unfold vpn_of
    simp only [OFFSET_BITS, Nat.shiftRight_eq_div_pow]
    omega
  refine ⟨hv, ?_⟩
  have hl : tlb_lookup s.tlb (vpn_of a : Nat) = none := by
    rw [tlb_lookup_eq_none]
    rintro i hi ⟨hval, hvpn⟩
    have := hI.tlb_ok i hi hval
    omega
  unfold translate_address
  dsimp only
  rw [hl]
  dsimp only
  rw [idx_eq_none_iff.mpr (Or.inr (by simp only [NUM_VIRTUAL_PAGES, VPN_BITS,
    VIRTUAL_ADDRESS_BITS, OFFSET_BITS]; omega))]

/-- A run from a state satisfying the invariant that has a result consists of
in-width addresses only, and the invariant holds at its end. -/
theorem run_defined {s s' : State} {ts : List Translation} (hI : Inv s) {addrs : List Nat}
    (h : run s addrs = some (s', ts)) : Inv s' ∧ ∀ a ∈ addrs, a < 2 ^ 16 := by
  induction addrs generalizing s ts with
  | nil =>
    simp only [run, Option.some.injEq, Prod.mk.injEq] at h
    rw [← h.1]; exact ⟨hI, by simp⟩
  | cons a rest ih =>
    obtain ⟨t, ts', ht, hr, -⟩ := run_cons_inv h
    have ha : a < 2 ^ 16 := by
      by_contra hc
      rw [(translate_out_of_width hI (by omega)).2] at ht
      exact absurd ht (by simp)
    obtain ⟨t', ht', hIt⟩ := translate_inv hI ha
    rw [ht] at ht'; simp only [Option.some.injEq] at ht'; subst ht'
    obtain ⟨h1, h2⟩ := ih hIt hr
    refine ⟨h1, ?_⟩
    intro b hb
    rcases List.mem_cons.mp hb with rfl | hb
    · exact ha
    · exact h2 b hb

/-- The frame and physical address a translation returns in a state
satisfying the invariant. -/
theorem translate_frame_range {s : State} (hI : Inv s) {a : Nat} (ha : a < 2 ^ 16) :
    ∃ t, translate_address s a = some t ∧ 0 ≤ t.frame_number ∧ t.frame_number < 16 ∧
      t.physical_address = t.frame_number.toNat * 256 + offset_of a ∧
      t.physical_address < 4096 := by
  have hoff := offset_of_lt a
  have key : ∀ fr : Int, 0 ≤ fr → fr < 16 →
      (fr.toNat <<< OFFSET_BITS) ||| offset_of a = fr.toNat * 256 + offset_of a ∧
      (fr.toNat <<< OFFSET_BITS) ||| offset_of a < 4096 := by
    intro fr h0 h1
    have := shiftLeft_or_eq_add fr.toNat (offset_of a) 8 (by omega)
    simp only [OFFSET_BITS]
    rw [this]
    constructor
    · norm_num
    · norm_num; omega
  rcases translate_cases hI ha with ⟨fr, -, h0, h1, h⟩ | ⟨-, hv, h⟩ | ⟨-, -, h⟩
  · exact ⟨_, h, h0, h1, (key fr h0 h1).1, (key fr h0 h1).2⟩
  · obtain ⟨f, hf, hfr, -, -⟩ := hI.valid_pt _ (vpn_of_lt ha) hv
    have h0 : 0 ≤ (s.page_table (vpn_of a)).frame_number := by omega
    have h1 : (s.page_table (vpn_of a)).frame_number < 16 := by omega
    exact ⟨_, h, h0, h1, (key _ h0 h1).1, (key _ h0 h1).2⟩
  · have hlt : s.page_faults % 16 < 16 := Nat.mod_lt _ (by norm_num)
    have h0 : (0 : Int) ≤ ((s.page_faults % 16 : Nat) : Int) := by omega
    have h1 : ((s.page_faults % 16 : Nat) : Int) < 16 := by omega
    have k := key _ h0 h1
    simp only [Int.toNat_ofNat] at k
    exact ⟨_, h, h0, h1, by simpa using k.1, k.2⟩

theorem tlb_agrees_initialize_system : TlbAgrees initialize_system :=
  ⟨fun i _ h => absurd h (by simp [initialize_system]),
    fun _ i _ h => absurd h (by simp [initialize_system])⟩

/-- Installing in the TLB a page and the frame its page-table entry names
keeps the agreement, provided the other slots keep it under the new page
table. -/
theorem tlb_agrees_install {s : State} {pt : Nat → PageTableEntry} {v n : Nat} {fr : Int}
    (p : Nat) (hv : (pt v).valid = true) (hfr : (pt v).frame_number = fr)
    (h1 : ∀ i, i < 4 → i ≠ p → (s.tlb i).valid = true →
      (pt (s.tlb i).vpn.toNat).valid = true →
      (pt (s.tlb i).vpn.toNat).frame_number = (s.tlb i).frame_number)
    (h2 : n ≤ 16 → ∀ i, i < 4 → i ≠ p → (s.tlb i).valid = true →
      (pt (s.tlb i).vpn.toNat).valid = true) :
    (∀ i, i < 4 → (Function.update s.tlb p ⟨true, (v : Int), fr⟩ i).valid = true →
      (pt (Function.update s.tlb p ⟨true, (v : Int), fr⟩ i).vpn.toNat).valid = true →
      (pt (Function.update s.tlb p ⟨true, (v : Int), fr⟩ i).vpn.toNat).frame_number =
        (Function.update s.tlb p ⟨true, (v : Int), fr⟩ i).frame_number) ∧
    (n ≤ 16 → ∀ i, i < 4 → (Function.update s.tlb p ⟨true, (v : Int), fr⟩ i).valid = true →
      (pt (Function.update s.tlb p ⟨true, (v : Int), fr⟩ i).vpn.toNat).valid = true) := by
  constructor
  · intro i hi
    by_cases hip : i = p
    · subst hip
      rw [Function.update_same]
      intro _ _
      simpa using hfr
    · rw [Function.update_noteq hip]
      exact h1 i hi hip
  · intro hn i hi
    by_cases hip : i = p
    · subst hip
      rw [Function.update_same]
      intro _
      simpa using hv
    · rw [Function.update_noteq hip]
      exact h2 hn i hi hip

theorem tlb_agrees_step {s : State} (hI : Inv s) (hA : TlbAgrees s) {a : Nat}
    (ha : a < 2 ^ 16) {t : Translation} (ht : translate_address s a = some t) :
    TlbAgrees t.state := by
  have hv256 := vpn_of_lt ha
  rcases translate_cases hI ha with ⟨fr, -, -, -, h⟩ | ⟨hl, hv, h⟩ | ⟨hl, hv, h⟩
  · rw [h] at ht
    simp only [Option.some.injEq] at ht
    rw [← ht]
    exact hA
  · rw [h] at ht
    simp only [Option.some.injEq] at ht
    rw [← ht]
    exact @tlb_agrees_install s s.page_table (vpn_of a) s.page_faults _
      s.tlb_victim_entry_ptr.toNat hv rfl
      (fun i hi _ => hA.1 i hi) (fun hn i hi _ => hA.2 hn i hi)
  · rw [h] at ht
    simp only [Option.some.injEq] at ht
    rw [← ht]
    have hother : ∀ i, i < 4 → (s.tlb i).valid = true →
        Function.update (evicted_table s) (vpn_of a)
          ⟨true, ((s.page_faults % 16 : Nat) : Int)⟩ (s.tlb i).vpn.toNat =
        evicted_table s (s.tlb i).vpn.toNat := by
      intro i hi hval
      apply Function.update_noteq
      intro hc
      have hok := hI.tlb_ok i hi hval
      refine (tlb_lookup_eq_none.mp hl) i hi ⟨hval, ?_⟩
      rw [← hc, Int.toNat_of_nonneg hok.1]
    refine @tlb_agrees_install s
      (Function.update (evicted_table s) (vpn_of a) ⟨true, ((s.page_faults % 16 : Nat) : Int)⟩)
      (vpn_of a) (s.page_faults + 1) ((s.page_faults % 16 : Nat) : Int)
      s.tlb_victim_entry_ptr.toNat (by rw [Function.update_same])
      (by rw [Function.update_same]) ?_ ?_
    · intro i hi _ hval
      rw [hother i hi hval, evicted_table_apply hI]
      split_ifs with hc
      · intro hf
        exact absurd hf (by simp)
      · exact hA.1 i hi hval
    · intro hn i hi _ hval
      rw [hother i hi hval, evicted_table_apply hI, if_neg (by omega)]
      exact hA.2 (by omega) i hi hval

theorem tlb_agrees_run {s s' : State} {ts : List Translation} (hI : Inv s) (hA : TlbAgrees s)
    {addrs : List Nat} (hw : ∀ a ∈ addrs, a < 2 ^ 16) (h : run s addrs = some (s', ts)) :
    TlbAgrees s' := by
  induction addrs generalizing s ts with
  | nil =>
    simp only [run, Option.some.injEq, Prod.mk.injEq] at h
    rw [← h.1]; exact hA
  | cons a rest ih =>
    obtain ⟨t, ts', ht, hr, -⟩ := run_cons_inv h
    have ha := hw a (List.mem_cons_self _ _)
    obtain ⟨t', ht', hIt⟩ := translate_inv hI ha
    rw [ht] at ht'
    simp only [Option.some.injEq] at ht'
    rw [← ht'] at hIt
    exact ih hIt (tlb_agrees_step hI hA ha ht) (fun b hb => hw b (List.mem_cons_of_mem _ hb)) hr

theorem tlb_agrees_reachable {s : State} (h : Reachable s) : TlbAgrees s := by
  obtain ⟨addrs, hw, ts, hr⟩ := h
  exact tlb_agrees_run inv_initialize_system tlb_agrees_initialize_system hw hr

theorem used_frames_eq_min {s : State} (hI : Inv s) : used_frames s = min s.page_faults 16 := by
  unfold used_frames
  rw [← countP_range_lt s.page_faults 16]
  apply countP_range_congr
  intro f hf
  have h := hI.free_iff f hf
  cases hfree : s.is_frame_free f
  · have : ¬ s.page_faults ≤ f := fun hc => by
      have := h.mpr hc
      rw [hfree] at this
      exact absurd this (by simp)
    simp; omega
  · have := h.mp hfree
    simp; omega

theorem fifo_eq_max {s : State} (hI : Inv s) :
    s.fifo_victim_frame_ptr = max ((s.page_faults : Int) - 16) 0 % 16 := by
  rw [hI.fifo]
  omega

end NivelUnico

/-! # Two-level program: steps, invariant, runs -/

namespace Multinivel

theorem ml_vpn_of_lt {a : Nat} (ha : a < 2 ^ 32) : vpn_of a < 2 ^ 20 := by
  unfold vpn_of
  simp only [OFFSET_BITS, Nat.shiftRight_eq_div_pow]
  omega

theorem ml_pd_index_of_eq {a : Nat} (ha : a < 2 ^ 32) : pd_index_of a = vpn_of a / 1024 := by
  unfold pd_index_of vpn_of
  have h : PD_INDEX_MASK = 2 ^ 10 - 1 := by simp
  rw [h, Nat.and_pow_two_sub_one_eq_mod]
  simp only [OFFSET_BITS, PT_INDEX_BITS, Nat.shiftRight_eq_div_pow]
  omega

theorem ml_pt_index_of_eq (a : Nat) : pt_index_of a = vpn_of a % 1024 := by
  unfold pt_index_of vpn_of
  have h : PT_INDEX_MASK = 2 ^ 10 - 1 := by simp
  rw [h, Nat.and_pow_two_sub_one_eq_mod]

theorem ml_pd_index_of_lt {a : Nat} (ha : a < 2 ^ 32) : pd_index_of a < 1024 := by
  have := ml_vpn_of_lt ha
  rw [ml_pd_index_of_eq ha]; omega

theorem ml_pt_index_of_lt (a : Nat) : pt_index_of a < 1024 := by
  rw [ml_pt_index_of_eq]; omega

theorem ml_offset_of_lt (a : Nat) : offset_of a < 4096 := by
  unfold offset_of
  have h : OFFSET_MASK = 2 ^ 12 - 1 := by simp
  rw [h, Nat.and_pow_two_sub_one_eq_mod]
  omega

theorem wrap32_of_lt {x : Int} (h0 : 0 ≤ x) (h1 : x < 2 ^ 31) : wrap32 x = x := by
  unfold wrap32; omega

theorem old_pd_index_of_low {v : Nat} (hv : v < 2 ^ 19) :
    old_pd_index_of (v : Int) = ((v / 1024 : Nat) : Int) := by
  unfold old_pd_index_of
  simp only [PAGE_SIZE, OFFSET_BITS, PT_INDEX_BITS]
  rw [wrap32_of_lt (by omega) (by omega), Int.shiftRight_eq_div_pow]
  norm_num
  omega

theorem old_pt_index_of_low {v : Nat} (hv : v < 2 ^ 19) :
    old_pt_index_of (v : Int) = ((v % 1024 : Nat) : Int) := by
  unfold old_pt_index_of
  simp only [PAGE_SIZE, OFFSET_BITS, PT_INDEX_MASK]
  rw [wrap32_of_lt (by omega) (by omega), Int.shiftRight_eq_div_pow]
  have h1 : ((v : Int) * ((4096 : Nat) : Int)) / ((2 ^ 12 : Nat) : Int) = (v : Int) := by
    norm_num
  rw [h1]
  show ((v &&& 1023 : Nat) : Int) = _
  have h : (1023 : Nat) = 2 ^ 10 - 1 := by norm_num
  rw [h, Nat.and_pow_two_sub_one_eq_mod]

/-- The defect: for a page number of `2 ^ 19` or more the product
`old_vpn * PAGE_SIZE` leaves the range of `int` and the re-derived directory
index is negative. -/
theorem old_pd_index_of_high {v : Nat} (h0 : 2 ^ 19 ≤ v) (h1 : v < 2 ^ 20) :
    old_pd_index_of (v : Int) < 0 := by
  unfold old_pd_index_of
  simp only [PAGE_SIZE, OFFSET_BITS, PT_INDEX_BITS]
  rw [Int.shiftRight_eq_div_pow]
  unfold wrap32
  norm_num
  omega

theorem ml_lookup_eq_none {tlb : Nat → TLBEntry} {vpn : Int} :
    tlb_lookup tlb vpn = none ↔
      ∀ i, i < 4 → ¬ ((tlb i).valid = true ∧ (tlb i).vpn = vpn) := by
  unfold tlb_lookup
  rw [Option.map_eq_none', List.find?_eq_none]
  constructor
  · intro h i hi
    have := h i (List.mem_range.mpr (by simpa using hi))
    simpa using this
  · intro h i hi
    have := h i (by simpa using List.mem_range.mp hi)
    simpa using this

theorem ml_lookup_eq_some {tlb : Nat → TLBEntry} {vpn fr : Int}
    (h : tlb_lookup tlb vpn = some fr) :
    ∃ i, i < 4 ∧ (tlb i).valid = true ∧ (tlb i).vpn = vpn ∧
      (tlb i).frame_number = fr ∧
      ∀ j, j < i → ¬ ((tlb j).valid = true ∧ (tlb j).vpn = vpn) := by
  unfold tlb_lookup at h
  rw [Option.map_eq_some'] at h
  obtain ⟨i, hi, hfr⟩ := h
  obtain ⟨h1, h2, h3⟩ := find_range_some _ _ _ hi
  refine ⟨i, by simpa using h1, ?_, ?_, hfr, ?_⟩
  · simp at h2; exact h2.1
  · simp at h2; exact h2.2
  · intro j hj
    have := h3 j hj
    simpa using this

theorem ml_lookup_of_slot {tlb : Nat → TLBEntry} {vpn : Int} {i : Nat} (hi : i < 4)
    (hv : (tlb i).valid = true) (hvpn : (tlb i).vpn = vpn)
    (hlt : ∀ j, j < i → ¬ ((tlb j).valid = true ∧ (tlb j).vpn = vpn)) :
    tlb_lookup tlb vpn = some (tlb i).frame_number := by
  unfold tlb_lookup
  rw [find_range_least _ _ i (by simpa using hi)]
  · rfl
  · simp [hv, hvpn]
  · intro j hj
    have := hlt j hj
    simpa using this

theorem ml_inv_initialize_system (memory : Nat → Nat → PageTableEntry) :
    Inv (initialize_system memory) where
  free_iff := by intro f _; simp [initialize_system]
  fifo := by simp [initialize_system]
  dir_ptr := by intro d _ h; simp [initialize_system] at h
  dir_inj := by intro d d' _ _ h; simp [initialize_system] at h
  used_map := by intro f _ h; simp [initialize_system] at h
  valid_pt := by intro d j _ _ h; simp [initialize_system] at h
  tlb_ptr := by simp [initialize_system]
  tlb_ok := by intro i _ h; simp [initialize_system] at h
  tlb_nodup := by intro i j _ _ h; simp [initialize_system] at h
  counters := by simp [initialize_system]

theorem ml_find_free_frame_eq {s : State} (hI : Inv s) :
    find_free_frame s.is_frame_free =
      if s.page_faults < 16 then (s.page_faults : Int) else -1 := by
  unfold find_free_frame
  split_ifs with h
  · rw [find_range_least _ _ s.page_faults (by simpa using h)]
    · exact (hI.free_iff _ h).mpr (le_refl _)
    · intro j hj
      have := hI.free_iff j (by omega)
      cases hf : s.is_frame_free j
      · rfl
      · have := this.mp hf; omega
  · rw [find_range_none]
    intro j hj
    have hj' : j < 16 := by simpa using hj
    have := hI.free_iff j hj'
    cases hf : s.is_frame_free j
    · rfl
    · have := this.mp hf; omega

theorem ml_fifo_eq {s : State} (hI : Inv s) (h : ¬ s.page_faults < 16) :
    s.fifo_victim_frame_ptr = ((s.page_faults % 16 : Nat) : Int) := by
  rw [hI.fifo]
  have : (s.page_faults - 16) % 16 = s.page_faults % 16 := by omega
  rw [this]

theorem ml_used_of_full {s : State} (hI : Inv s) (h : ¬ s.page_faults < 16) {f : Nat}
    (hf : f < 16) : s.is_frame_free f = false := by
  cases hfr : s.is_frame_free f
  · rfl
  · have := (hI.free_iff _ hf).mp hfr; omega

theorem ml_update_tlb_eq {s : State}
    (h : 0 ≤ s.tlb_victim_entry_ptr ∧ s.tlb_victim_entry_ptr < 4) (vpn fr : Int) :
    update_tlb s vpn fr = some { s with
      tlb := Function.update s.tlb s.tlb_victim_entry_ptr.toNat ⟨true, vpn, fr⟩
      tlb_victim_entry_ptr := (s.tlb_victim_entry_ptr + 1) % (TLB_ENTRIES : Int) } := by
  unfold update_tlb
  have : idx s.tlb_victim_entry_ptr TLB_ENTRIES = some s.tlb_victim_entry_ptr.toNat := by
    rw [idx_eq_some_iff]; simp only [TLB_ENTRIES]; omega
  rw [this]

theorem ml_translate_hit {s : State} {a : Nat} {fr : Int}
    (hl : tlb_lookup s.tlb (vpn_of a : Nat) = some fr) (h0 : 0 ≤ fr) (h1 : fr < 16) :
    translate_address s a =
      some ⟨after_hit s, fr, (fr.toNat <<< OFFSET_BITS) ||| offset_of a⟩ := by
  unfold translate_address
  dsimp only
  rw [hl]
  simp only [finish]
  rw [if_pos ⟨h0, by simp only [OFFSET_BITS]; omega⟩]
  rfl

theorem ml_table_ptr_eq {s : State} {d p : Nat} (h : (s.page_directory d).page_table = some p) :
    table_ptr s d = p := by
  unfold table_ptr; rw [h]; rfl

set_option maxRecDepth 100000 in
theorem ml_translate_table_hit {s : State} {a : Nat} (hI : Inv s) (ha : a < 2 ^ 32)
    (hl : tlb_lookup s.tlb (vpn_of a : Nat) = none)
    (hd : (s.page_directory (pd_index_of a)).valid = true)
    (hv : (s.heap (table_ptr s (pd_index_of a)) (pt_index_of a)).valid = true) :
    translate_address s a =
      some ⟨after_table_hit s (vpn_of a)
          (s.heap (table_ptr s (pd_index_of a)) (pt_index_of a)).frame_number,
        (s.heap (table_ptr s (pd_index_of a)) (pt_index_of a)).frame_number,
        ((s.heap (table_ptr s (pd_index_of a)) (pt_index_of a)).frame_number.toNat
          <<< OFFSET_BITS) ||| offset_of a⟩ := by
  obtain ⟨f, hf, hfr, -, -⟩ := hI.valid_pt _ _ (ml_pd_index_of_lt ha) (ml_pt_index_of_lt a) hd hv
  obtain ⟨p, hp, -⟩ := hI.dir_ptr _ (ml_pd_index_of_lt ha) hd
  have hptr := ml_table_ptr_eq hp
  rw [hptr] at hv hfr ⊢
  unfold translate_address
  dsimp only
  rw [hl]
  dsimp only
  rw [idx_natCast (by simpa using ml_pd_index_of_lt ha)]
  simp only [hd, Bool.not_true, Bool.false_eq_true, if_false, hp]
  rw [idx_natCast (by simpa using ml_pt_index_of_lt a)]
  simp only [hv, if_true]
  rw [ml_update_tlb_eq (by exact hI.tlb_ptr)]
  simp only [finish]
  rw [if_pos ⟨by omega, by simp only [OFFSET_BITS]; omega⟩]
  rfl

theorem ml_create_table_eq (X : State) {d : Nat} (hd : d < 1024) :
    create_table X (d : Int) = some (with_table X d) := by
  unfold create_table
  rw [idx_natCast (by simpa using hd)]
  dsimp only
  unfold with_table
  split_ifs with h
  · rfl
  · rfl

theorem ml_choose_frame_free {X : State} {n : Nat}
    (hfind : find_free_frame X.is_frame_free = (n : Int)) : choose_frame X = some (X, (n : Int)) := by
  unfold choose_frame
  dsimp only
  rw [hfind, if_neg (by omega)]

theorem ml_choose_frame_evict {X : State} {f v0 p0 : Nat}
    (hfind : find_free_frame X.is_frame_free = -1) (hf : f < 16)
    (hfifo : X.fifo_victim_frame_ptr = (f : Int)) (hmap : X.frame_to_vpn_map f = (v0 : Int))
    (hv0 : v0 < 2 ^ 19) (hp0 : (X.page_directory (v0 / 1024)).page_table = some p0) :
    choose_frame X =
      some ({ X with
              fifo_victim_frame_ptr :=
                (X.fifo_victim_frame_ptr + 1) % (NUM_PHYSICAL_FRAMES : Int)
              heap := Function.update X.heap p0
                (Function.update (X.heap p0) (v0 % 1024)
                  { X.heap p0 (v0 % 1024) with valid := false }) },
            (f : Int)) := by
  unfold choose_frame
  dsimp only
  rw [hfind, if_pos rfl, hfifo, idx_natCast (by simpa using hf)]
  dsimp only
  rw [hmap, old_pd_index_of_low hv0, old_pt_index_of_low hv0,
    idx_natCast (by simp only [NUM_PD_ENTRIES, PD_INDEX_BITS]; omega)]
  dsimp only
  rw [hp0, idx_natCast (by simp only [NUM_PT_ENTRIES, PT_INDEX_BITS]; omega)]

/-- The defect seen from `choose_frame`: evicting a page whose number is
`2 ^ 19` or more indexes the directory with a negative number. -/
theorem ml_choose_frame_high {X : State} {f v0 : Nat}
    (hfind : find_free_frame X.is_frame_free = -1) (hf : f < 16)
    (hfifo : X.fifo_victim_frame_ptr = (f : Int)) (hmap : X.frame_to_vpn_map f = (v0 : Int))
    (h0 : 2 ^ 19 ≤ v0) (h1 : v0 < 2 ^ 20) : choose_frame X = none := by
  unfold choose_frame
  dsimp only
  rw [hfind, if_pos rfl, hfifo, idx_natCast (by simpa using hf)]
  dsimp only
  rw [hmap, idx_eq_none_iff.mpr (Or.inl (old_pd_index_of_high h0 h1))]

theorem ml_with_table_of_valid {s : State} {d : Nat} (h : (s.page_directory d).valid = true) :
    with_table s d = s := by
  unfold with_table
  simp only [h, if_true]

theorem ml_with_table_dir {s : State} {d : Nat} (h : (s.page_directory d).valid = false) :
    (with_table s d).page_directory =
      Function.update s.page_directory d ⟨true, some s.allocated⟩ := by
  show (if (s.page_directory d).valid = true then _ else _) = _
  rw [if_neg (by simp [h])]

theorem ml_with_table_heap {s : State} {d : Nat} (h : (s.page_directory d).valid = false) :
    (with_table s d).heap =
      Function.update s.heap s.allocated
        (fun i => { s.heap s.allocated i with valid := false }) := by
  show (if (s.page_directory d).valid = true then _ else _) = _
  rw [if_neg (by simp [h])]

theorem ml_with_table_allocated {s : State} {d : Nat}
    (h : (s.page_directory d).valid = false) :
    (with_table s d).allocated = s.allocated + 1 := by
  show (if (s.page_directory d).valid = true then _ else _) = _
  rw [if_neg (by simp [h])]

theorem ml_table_ptr_lt {s : State} (hI : Inv s) {d : Nat} (hd : d < 1024)
    (hv : (s.page_directory d).valid = true) :
    (s.page_directory d).page_table = some (table_ptr s d) ∧ table_ptr s d < s.allocated := by
  obtain ⟨p, hp, hlt⟩ := hI.dir_ptr d hd hv
  rw [ml_table_ptr_eq hp]
  exact ⟨hp, hlt⟩

/-- Facts about the state once the table of `d` exists: the directory entry
is valid, and entries, pointers and blocks of the valid directory entries of
`s` are unchanged. -/
theorem ml_with_table_facts {s : State} (hI : Inv s) {d : Nat} (hd : d < 1024) :
    ((with_table s d).page_directory d).valid = true ∧
    (∀ d', d' < 1024 → (s.page_directory d').valid = true →
      (with_table s d).page_directory d' = s.page_directory d' ∧
      table_ptr (with_table s d) d' = table_ptr s d' ∧
      (with_table s d).heap (table_ptr s d') = s.heap (table_ptr s d')) ∧
    (∀ d', ((with_table s d).page_directory d').valid = true →
      (s.page_directory d').valid = true ∨
      (d' = d ∧ (s.page_directory d).valid = false ∧
        table_ptr (with_table s d) d = s.allocated ∧
        ∀ j, ((with_table s d).heap s.allocated j).valid = false)) := by
  by_cases hv : (s.page_directory d).valid = true
  · rw [ml_with_table_of_valid hv]
    exact ⟨hv, fun d' _ _ => ⟨rfl, rfl, rfl⟩, fun d' h => Or.inl h⟩
  · have hv : (s.page_directory d).valid = false := by simpa using hv
    refine ⟨?_, ?_, ?_⟩
    · rw [ml_with_table_dir hv, Function.update_same]
    · intro d' hd' hv'
      have hne : d' ≠ d := by
        intro he; subst he; rw [hv] at hv'; exact absurd hv' (by simp)
      have h1 : (with_table s d).page_directory d' = s.page_directory d' := by
        rw [ml_with_table_dir hv, Function.update_noteq hne]
      refine ⟨h1, ?_, ?_⟩
      · unfold table_ptr; rw [h1]
      · have := (ml_table_ptr_lt hI hd' hv').2
        rw [ml_with_table_heap hv, Function.update_noteq (by omega)]
    · intro d' hv'
      by_cases hne : d' = d
      · right
        subst hne
        refine ⟨rfl, hv, ?_, ?_⟩
        · unfold table_ptr
          rw [ml_with_table_dir hv, Function.update_same]; rfl
        · intro j
          rw [ml_with_table_heap hv, Function.update_same]
      · left
        rw [ml_with_table_dir hv, Function.update_noteq hne] at hv'
        exact hv'

theorem ml_inv_with_table {s : State} (hI : Inv s) {d : Nat} (hd : d < 1024) :
    Inv (with_table s d) := by
  by_cases hv : (s.page_directory d).valid = true
  · rw [ml_with_table_of_valid hv]; exact hI
  · have hv : (s.page_directory d).valid = false := by simpa using hv
    obtain ⟨hvalid, hold, hnew⟩ := ml_with_table_facts hI hd
    exact {
      free_iff := hI.free_iff
      fifo := hI.fifo
      dir_ptr := by
        intro d' hd' hv'
        rw [ml_with_table_allocated hv]
        rcases hnew d' hv' with h | ⟨rfl, -, -, -⟩
        · obtain ⟨p, hp, hlt⟩ := hI.dir_ptr d' hd' h
          exact ⟨p, by rw [(hold d' hd' h).1]; exact hp, by omega⟩
        · exact ⟨s.allocated, by rw [ml_with_table_dir hv, Function.update_same], by omega⟩
      dir_inj := by
        intro d1 d2 hd1 hd2 hv1 hv2 hp
        rcases hnew d1 hv1 with h1 | ⟨rfl, -, hp1, -⟩ <;>
          rcases hnew d2 hv2 with h2 | ⟨rfl, -, hp2, -⟩
        · rw [(hold d1 hd1 h1).2.1, (hold d2 hd2 h2).2.1] at hp
          exact hI.dir_inj d1 d2 hd1 hd2 h1 h2 hp
        · rw [(hold d1 hd1 h1).2.1, hp2] at hp
          have := (ml_table_ptr_lt hI hd1 h1).2
          omega
        · rw [(hold d2 hd2 h2).2.1, hp1] at hp
          have := (ml_table_ptr_lt hI hd2 h2).2
          omega
        · rfl
      used_map := by
        intro f hf hfree
        obtain ⟨v, hv20, hmap, hdv, hval, hfr⟩ := hI.used_map f hf hfree
        have hd' : v / 1024 < 1024 := by omega
        obtain ⟨h1, h2, h3⟩ := hold _ hd' hdv
        exact ⟨v, hv20, hmap, by rw [h1]; exact hdv, by rw [h2, h3]; exact hval,
          by rw [h2, h3]; exact hfr⟩
      valid_pt := by
        intro d' j hd' hj hv' hval
        rcases hnew d' hv' with h | ⟨rfl, -, hp, hall⟩
        · obtain ⟨h1, h2, h3⟩ := hold _ hd' h
          rw [h2, h3] at hval ⊢
          exact hI.valid_pt d' j hd' hj h hval
        · rw [hp, hall j] at hval
          exact absurd hval (by simp)
      tlb_ptr := hI.tlb_ptr
      tlb_ok := hI.tlb_ok
      tlb_nodup := hI.tlb_nodup
      counters := hI.counters }

theorem ml_vpn_split {a : Nat} (ha : a < 2 ^ 32) :
    vpn_of a = pd_index_of a * 1024 + pt_index_of a := by
  rw [ml_pd_index_of_eq ha, ml_pt_index_of_eq]; omega

theorem ml_evicted_heap_apply {s : State} (hI : Inv s) {d j : Nat} (hd : d < 1024)
    (hj : j < 1024) (hv : (s.page_directory d).valid = true) :
    evicted_heap s (table_ptr s d) j =
      if 16 ≤ s.page_faults ∧ s.frame_to_vpn_map (s.page_faults % 16) = ((d * 1024 + j : Nat) : Int)
      then { s.heap (table_ptr s d) j with valid := false } else s.heap (table_ptr s d) j := by
  have hlt : s.page_faults % 16 < 16 := Nat.mod_lt _ (by norm_num)
  unfold evicted_heap
  by_cases hpf : s.page_faults < 16
  · rw [if_pos hpf, if_neg (by omega)]
  · rw [if_neg hpf]
    obtain ⟨v0, hv0, hmap, hdv0, -, -⟩ := hI.used_map _ hlt (ml_used_of_full hI hpf hlt)
    rw [hmap, Int.toNat_ofNat]
    by_cases hsame : v0 = d * 1024 + j
    · have e1 : v0 / 1024 = d := by omega
      have e2 : v0 % 1024 = j := by omega
      rw [e1, e2, Function.update_same, Function.update_same, if_pos ⟨by omega, by omega⟩]
    · rw [if_neg (by intro h; apply hsame; omega)]
      by_cases hd' : v0 / 1024 = d
      · rw [hd', Function.update_same, Function.update_noteq (by omega)]
      · rw [Function.update_noteq]
        intro hp
        exact hd' (hI.dir_inj _ _ (by omega) hd hdv0 hv hp.symm)

theorem ml_load_heap_apply {s : State} (hI : Inv s) {a : Nat} (ha : a < 2 ^ 32)
    (hda : (s.page_directory (pd_index_of a)).valid = true) {d j : Nat} (hd : d < 1024)
    (_hj : j < 1024) (hv : (s.page_directory d).valid = true) :
    (load s a).heap (table_ptr s d) j =
      if d = pd_index_of a ∧ j = pt_index_of a then ⟨true, ((s.page_faults % 16 : Nat) : Int)⟩
      else evicted_heap s (table_ptr s d) j := by
  show Function.update (evicted_heap s) (table_ptr s (pd_index_of a)) _ (table_ptr s d) j = _
  by_cases hsame : d = pd_index_of a ∧ j = pt_index_of a
  · rw [if_pos hsame, hsame.1, hsame.2, Function.update_same, Function.update_same]
  · rw [if_neg hsame]
    by_cases hd' : d = pd_index_of a
    · rw [← hd', Function.update_same, Function.update_noteq]
      intro hj'; exact hsame ⟨hd', hj'⟩
    · rw [Function.update_noteq]
      intro hp
      exact hd' (hI.dir_inj _ _ hd (ml_pd_index_of_lt ha) hv hda hp)

theorem ml_tlb_ptr_step (p : Int) :
    0 ≤ (p + 1) % ((TLB_ENTRIES : Nat) : Int) ∧ (p + 1) % ((TLB_ENTRIES : Nat) : Int) < 4 := by
  simp only [TLB_ENTRIES]; omega

/-- Installing a TLB entry for a page that no valid slot holds keeps the TLB
part of the invariant. -/
theorem ml_tlb_install {s : State} (hI : Inv s) {v : Nat} {fr : Int} (hv : v < 2 ^ 20)
    (h0 : 0 ≤ fr) (h1 : fr < 16)
    (hl : tlb_lookup s.tlb (v : Int) = none) :
    (∀ i, i < 4 →
      (Function.update s.tlb s.tlb_victim_entry_ptr.toNat ⟨true, (v : Int), fr⟩ i).valid = true →
      0 ≤ (Function.update s.tlb s.tlb_victim_entry_ptr.toNat ⟨true, (v : Int), fr⟩ i).vpn ∧
      (Function.update s.tlb s.tlb_victim_entry_ptr.toNat ⟨true, (v : Int), fr⟩ i).vpn
        < 2 ^ 20 ∧
      0 ≤ (Function.update s.tlb s.tlb_victim_entry_ptr.toNat
            ⟨true, (v : Int), fr⟩ i).frame_number ∧
      (Function.update s.tlb s.tlb_victim_entry_ptr.toNat
            ⟨true, (v : Int), fr⟩ i).frame_number < 16) ∧
    (∀ i j, i < 4 → j < 4 →
      (Function.update s.tlb s.tlb_victim_entry_ptr.toNat ⟨true, (v : Int), fr⟩ i).valid = true →
      (Function.update s.tlb s.tlb_victim_entry_ptr.toNat ⟨true, (v : Int), fr⟩ j).valid = true →
      (Function.update s.tlb s.tlb_victim_entry_ptr.toNat ⟨true, (v : Int), fr⟩ i).vpn =
        (Function.update s.tlb s.tlb_victim_entry_ptr.toNat ⟨true, (v : Int), fr⟩ j).vpn →
      i = j) := by
  rw [ml_lookup_eq_none] at hl
  constructor
  · intro i hi
    rw [Function.update_apply]
    split_ifs with h
    · intro _; simp only; omega
    · exact hI.tlb_ok i hi
  · intro i j hi hj
    rw [Function.update_apply, Function.update_apply]
    split_ifs with h h' h'
    · intro _ _ _; omega
    · intro _ hvj hvpn
      exact absurd ⟨hvj, hvpn.symm⟩ (hl j hj)
    · intro hvi _ hvpn
      exact absurd ⟨hvi, hvpn⟩ (hl i hi)
    · exact hI.tlb_nodup i j hi hj

theorem ml_inv_after_hit {s : State} (hI : Inv s) : Inv (after_hit s) where
  free_iff := hI.free_iff
  fifo := hI.fifo
  dir_ptr := hI.dir_ptr
  dir_inj := hI.dir_inj
  used_map := hI.used_map
  valid_pt := hI.valid_pt
  tlb_ptr := hI.tlb_ptr
  tlb_ok := hI.tlb_ok
  tlb_nodup := hI.tlb_nodup
  counters := by have := hI.counters; simp only [after_hit]; omega

theorem ml_inv_after_table_hit {s : State} (hI : Inv s) {v : Nat} {fr : Int}
    (hv : v < 2 ^ 20) (h0 : 0 ≤ fr) (h1 : fr < 16)
    (hl : tlb_lookup s.tlb (v : Int) = none) : Inv (after_table_hit s v fr) := by
  have ht := @ml_tlb_install s hI v fr hv h0 h1 hl
  exact {
    free_iff := hI.free_iff
    fifo := hI.fifo
    dir_ptr := hI.dir_ptr
    dir_inj := hI.dir_inj
    used_map := hI.used_map
    valid_pt := hI.valid_pt
    tlb_ptr := ml_tlb_ptr_step _
    tlb_ok := ht.1
    tlb_nodup := ht.2
    counters := by have := hI.counters; simp only [after_table_hit]; omega }

theorem ml_inv_load {s : State} (hI : Inv s) {a : Nat} (ha : a < 2 ^ 32)
    (hda : (s.page_directory (pd_index_of a)).valid = true)
    (hl : tlb_lookup s.tlb (vpn_of a : Nat) = none)
    (hval : (s.heap (table_ptr s (pd_index_of a)) (pt_index_of a)).valid = false) :
    Inv (load s a) := by
  have hlt : s.page_faults % 16 < 16 := Nat.mod_lt _ (by norm_num)
  have hd0 := ml_pd_index_of_lt ha
  have hj0 := ml_pt_index_of_lt a
  have hsplit := ml_vpn_split ha
  have ht := @ml_tlb_install s hI (vpn_of a) ((s.page_faults % 16 : Nat) : Int) (ml_vpn_of_lt ha)
    (by omega) (by omega) hl
  have hfree_or : s.page_faults < 16 → s.is_frame_free (s.page_faults % 16) = true := by
    intro h
    exact (hI.free_iff _ hlt).mpr (by rw [Nat.mod_eq_of_lt h])
  have hptr : ∀ d, table_ptr (load s a) d = table_ptr s d := fun d => rfl
  have hdir : (load s a).page_directory = s.page_directory := rfl
  exact {
    free_iff := by
      intro f hf
      simp only [load, Function.update_apply]
      have := hI.free_iff f hf
      split_ifs with h
      · subst h; simp; omega
      · rw [this]
        by_cases hpf : s.page_faults < 16
        · rw [Nat.mod_eq_of_lt hpf] at h; omega
        · omega
    fifo := by
      simp only [load]
      split_ifs with hpf
      · rw [hI.fifo]
        have h1 : (s.page_faults - 16) % 16 = 0 := by omega
        have h2 : (s.page_faults + 1 - 16) % 16 = 0 := by omega
        rw [h1, h2]
      · rw [hI.fifo]; simp only [NUM_PHYSICAL_FRAMES, PHYSICAL_MEMORY_SIZE, PAGE_SIZE]; omega
    dir_ptr := hI.dir_ptr
    dir_inj := hI.dir_inj
    used_map := by
      intro f hf
      rw [hdir]
      simp only [hptr]
      show Function.update s.is_frame_free (s.page_faults % 16) false f = false →
        ∃ v : Nat, v < 2 ^ 20 ∧
          Function.update s.frame_to_vpn_map (s.page_faults % 16) (vpn_of a : Int) f = (v : Int) ∧
          _
      rw [Function.update_apply, Function.update_apply]
      split_ifs with h
      · intro _
        refine ⟨vpn_of a, ml_vpn_of_lt ha, rfl, ?_⟩
        have e1 : vpn_of a / 1024 = pd_index_of a := by omega
        have e2 : vpn_of a % 1024 = pt_index_of a := by omega
        rw [e1, e2, ml_load_heap_apply hI ha hda hd0 hj0 hda, if_pos ⟨rfl, rfl⟩]
        exact ⟨hda, rfl, by rw [h]⟩
      · intro hfr
        obtain ⟨v0, hv0, hmap, hdv0, hval0, hfr0⟩ := hI.used_map f hf hfr
        refine ⟨v0, hv0, hmap, hdv0, ?_⟩
        have hd' : v0 / 1024 < 1024 := by omega
        have hj' : v0 % 1024 < 1024 := by omega
        rw [ml_load_heap_apply hI ha hda hd' hj' hdv0, if_neg, ml_evicted_heap_apply hI hd' hj' hdv0,
          if_neg]
        · exact ⟨hval0, hfr0⟩
        · rintro ⟨h16, hm⟩
          obtain ⟨v1, hv1, hmap1, -, -, hfr1⟩ :=
            hI.used_map _ hlt (ml_used_of_full hI (by omega) hlt)
          have : v1 = v0 := by omega
          subst this
          rw [hfr0] at hfr1
          apply h; omega
        · rintro ⟨e1, e2⟩
          rw [e1, e2, hval] at hval0
          exact absurd hval0 (by simp)
    valid_pt := by
      intro d j hd hj
      rw [hdir]
      simp only [hptr]
      intro hdv
      rw [ml_load_heap_apply hI ha hda hd hj hdv]
      split_ifs with h
      · intro _
        refine ⟨s.page_faults % 16, hlt, rfl, ?_, ?_⟩
        · show Function.update s.is_frame_free (s.page_faults % 16) false _ = false
          rw [Function.update_same]
        · show Function.update s.frame_to_vpn_map (s.page_faults % 16) (vpn_of a : Int) _ = _
          rw [Function.update_same, hsplit, h.1, h.2]
      · rw [ml_evicted_heap_apply hI hd hj hdv]
        split_ifs with hev
        · intro hc; simp at hc
        · intro hval'
          obtain ⟨f0, hf0, hfr0, hfree0, hmap0⟩ := hI.valid_pt d j hd hj hdv hval'
          have hne : f0 ≠ s.page_faults % 16 := by
            intro he
            by_cases hpf : s.page_faults < 16
            · have := hfree_or hpf
              rw [← he, hfree0] at this; exact absurd this (by simp)
            · apply hev
              exact ⟨by omega, by rw [← he]; exact hmap0⟩
          refine ⟨f0, hf0, hfr0, ?_, ?_⟩
          · show Function.update s.is_frame_free (s.page_faults % 16) false f0 = false
            rw [Function.update_noteq hne]; exact hfree0
          · show Function.update s.frame_to_vpn_map (s.page_faults % 16) (vpn_of a : Int) f0 = _
            rw [Function.update_noteq hne]; exact hmap0
    tlb_ptr := ml_tlb_ptr_step _
    tlb_ok := ht.1
    tlb_nodup := ht.2
    counters := by have := hI.counters; simp only [load]; omega }

theorem ml_with_table_counters (s : State) (d ta tm tt pf : Nat) :
    with_table { s with
        total_accesses := ta
        tlb_misses := tm
        page_faults := pf
        total_access_time := tt } d =
      { with_table s d with
        total_accesses := ta
        tlb_misses := tm
        page_faults := pf
        total_access_time := tt } := rfl

theorem ml_wt_fields (s : State) (d : Nat) :
    (with_table s d).page_faults = s.page_faults ∧
    (with_table s d).frame_to_vpn_map = s.frame_to_vpn_map ∧
    (with_table s d).is_frame_free = s.is_frame_free ∧
    (with_table s d).tlb = s.tlb ∧
    (with_table s d).tlb_victim_entry_ptr = s.tlb_victim_entry_ptr ∧
    (with_table s d).fifo_victim_frame_ptr = s.fifo_victim_frame_ptr ∧
    (with_table s d).total_accesses = s.total_accesses ∧
    (with_table s d).tlb_hits = s.tlb_hits ∧
    (with_table s d).tlb_misses = s.tlb_misses ∧
    (with_table s d).total_access_time = s.total_access_time :=
  ⟨rfl, rfl, rfl, rfl, rfl, rfl, rfl, rfl, rfl, rfl⟩

set_option maxRecDepth 100000 in
theorem ml_handle_page_fault_eq {s : State} (hI : Inv s) {a : Nat} (ha : a < 2 ^ 32)
    (hlow : ¬ s.page_faults < 16 → s.frame_to_vpn_map (s.page_faults % 16) < 2 ^ 19)
    (ta tm tt : Nat) :
    handle_page_fault
        { s with total_accesses := ta, tlb_misses := tm, total_access_time := tt }
        (vpn_of a : Nat) (pd_index_of a : Nat) (pt_index_of a : Nat) =
      some { load (with_table s (pd_index_of a)) a with
        total_accesses := ta
        tlb_misses := tm
        total_access_time := tt + DISK_ACCESS_TIME } := by
  have hlt : s.page_faults % 16 < 16 := Nat.mod_lt _ (by norm_num)
  have hd0 := ml_pd_index_of_lt ha
  have hj0 := ml_pt_index_of_lt a
  have hIT := ml_inv_with_table hI hd0
  obtain ⟨hTv, hold, -⟩ := ml_with_table_facts hI hd0
  obtain ⟨hTp, -⟩ := ml_table_ptr_lt hIT hd0 hTv
  have hfind := ml_find_free_frame_eq hI
  unfold handle_page_fault
  dsimp only
  rw [ml_create_table_eq _ hd0, ml_with_table_counters]
  dsimp only
  by_cases hpf : s.page_faults < 16
  · have hmod : s.page_faults % 16 = s.page_faults := Nat.mod_eq_of_lt hpf
    rw [if_pos hpf] at hfind
    rw [ml_choose_frame_free (by exact hfind)]
    dsimp only
    rw [idx_natCast (by simpa using hd0), idx_natCast (by simpa using hj0),
      idx_natCast (by simpa using hpf)]
    dsimp only
    rw [hTp]
    dsimp only
    rw [ml_update_tlb_eq (by exact hI.tlb_ptr)]
    obtain ⟨w1, w2, w3, w4, w5, w6, w7, w8, w9, w10⟩ := ml_wt_fields s (pd_index_of a)
    simp only [load, evicted_heap, w1, w2, w3, w4, w5, w6, w7, w8, w9, w10, if_pos hpf, hmod]
  · rw [if_neg hpf] at hfind
    have hfifo := ml_fifo_eq hI hpf
    obtain ⟨v0, hv0, hmap, hdv0, -, -⟩ := hIT.used_map _ hlt (ml_used_of_full hI hpf hlt)
    have hmap' : s.frame_to_vpn_map (s.page_faults % 16) = (v0 : Int) := hmap
    have hv19 : v0 < 2 ^ 19 := by have := hlow hpf; omega
    obtain ⟨hp0, -⟩ := ml_table_ptr_lt hIT (by omega : v0 / 1024 < 1024) hdv0
    rw [ml_choose_frame_evict (by exact hfind) hlt (by exact hfifo) (by exact hmap') hv19
      (by exact hp0)]
    dsimp only
    rw [idx_natCast (by simpa using hd0), idx_natCast (by simpa using hj0),
      idx_natCast (by simpa using hlt)]
    dsimp only
    rw [hTp]
    dsimp only
    rw [ml_update_tlb_eq (by exact hI.tlb_ptr)]
    obtain ⟨w1, w2, w3, w4, w5, w6, w7, w8, w9, w10⟩ := ml_wt_fields s (pd_index_of a)
    simp only [load, evicted_heap, w1, w2, w3, w4, w5, w6, w7, w8, w9, w10, if_neg hpf, hmap',
      Int.toNat_ofNat]

set_option maxRecDepth 100000 in
theorem ml_handle_page_fault_high {s : State} (hI : Inv s) {a : Nat} (ha : a < 2 ^ 32)
    (hpf : ¬ s.page_faults < 16)
    (hhigh : 2 ^ 19 ≤ s.frame_to_vpn_map (s.page_faults % 16)) (ta tm tt : Nat) :
    handle_page_fault
        { s with total_accesses := ta, tlb_misses := tm, total_access_time := tt }
        (vpn_of a : Nat) (pd_index_of a : Nat) (pt_index_of a : Nat) = none := by
  have hlt : s.page_faults % 16 < 16 := Nat.mod_lt _ (by norm_num)
  have hd0 := ml_pd_index_of_lt ha
  have hfind := ml_find_free_frame_eq hI
  rw [if_neg hpf] at hfind
  have hfifo := ml_fifo_eq hI hpf
  obtain ⟨v0, hv0, hmap, -, -, -⟩ := hI.used_map _ hlt (ml_used_of_full hI hpf hlt)
  unfold handle_page_fault
  dsimp only
  rw [ml_create_table_eq _ hd0, ml_with_table_counters]
  dsimp only
  rw [ml_choose_frame_high (by exact hfind) hlt (by exact hfifo) (by exact hmap)
    (by omega) hv0]

theorem ml_load_frame (s : State) (a : Nat) :
    ((load s a).heap (table_ptr s (pd_index_of a)) (pt_index_of a)).frame_number =
      ((s.page_faults % 16 : Nat) : Int) := by
  show (Function.update (evicted_heap s) _ _ _ _).frame_number = _
  rw [Function.update_same, Function.update_same]

set_option maxRecDepth 100000 in
theorem ml_translate_fault_new {s : State} {a : Nat} (hI : Inv s) (ha : a < 2 ^ 32)
    (hl : tlb_lookup s.tlb (vpn_of a : Nat) = none)
    (hdv : (s.page_directory (pd_index_of a)).valid = false)
    (hlow : ¬ s.page_faults < 16 → s.frame_to_vpn_map (s.page_faults % 16) < 2 ^ 19) :
    translate_address s a =
      some ⟨after_fault s a, ((s.page_faults % 16 : Nat) : Int),
        ((s.page_faults % 16) <<< OFFSET_BITS) ||| offset_of a⟩ := by
  have hlt : s.page_faults % 16 < 16 := Nat.mod_lt _ (by norm_num)
  have hd0 := ml_pd_index_of_lt ha
  have hj0 := ml_pt_index_of_lt a
  have hIT := ml_inv_with_table hI hd0
  obtain ⟨hTv, -, -⟩ := ml_with_table_facts hI hd0
  obtain ⟨hTp, -⟩ := ml_table_ptr_lt hIT hd0 hTv
  have hTp2 : ((load (with_table s (pd_index_of a)) a).page_directory
      (pd_index_of a)).page_table =
      some (table_ptr (with_table s (pd_index_of a)) (pd_index_of a)) := hTp
  have hfr := ml_load_frame (with_table s (pd_index_of a)) a
  have hpf' : (with_table s (pd_index_of a)).page_faults = s.page_faults := rfl
  rw [hpf'] at hfr
  unfold translate_address
  dsimp only
  rw [hl]
  dsimp only
  rw [idx_natCast (by simpa using hd0)]
  simp only [hdv, Bool.not_false, if_true]
  rw [ml_handle_page_fault_eq hI ha hlow]
  dsimp only
  rw [hTp2, idx_natCast (by simpa using hj0)]
  dsimp only
  rw [hfr]
  simp only [finish]
  rw [if_pos ⟨by omega, by simp only [OFFSET_BITS]; omega⟩]
  simp only [after_fault, hdv, Bool.false_eq_true, if_false, Int.toNat_ofNat]
  rfl

set_option maxRecDepth 100000 in
theorem ml_translate_fault_old {s : State} {a : Nat} (hI : Inv s) (ha : a < 2 ^ 32)
    (hl : tlb_lookup s.tlb (vpn_of a : Nat) = none)
    (hdv : (s.page_directory (pd_index_of a)).valid = true)
    (hv : (s.heap (table_ptr s (pd_index_of a)) (pt_index_of a)).valid = false)
    (hlow : ¬ s.page_faults < 16 → s.frame_to_vpn_map (s.page_faults % 16) < 2 ^ 19) :
    translate_address s a =
      some ⟨after_fault s a, ((s.page_faults % 16 : Nat) : Int),
        ((s.page_faults % 16) <<< OFFSET_BITS) ||| offset_of a⟩ := by
  have hlt : s.page_faults % 16 < 16 := Nat.mod_lt _ (by norm_num)
  have hd0 := ml_pd_index_of_lt ha
  have hj0 := ml_pt_index_of_lt a
  obtain ⟨hp, -⟩ := ml_table_ptr_lt hI hd0 hdv
  have hfr := ml_load_frame (with_table s (pd_index_of a)) a
  have hpf' : (with_table s (pd_index_of a)).page_faults = s.page_faults := rfl
  rw [hpf', ml_with_table_of_valid hdv] at hfr
  unfold translate_address
  dsimp only
  rw [hl]
  dsimp only
  rw [idx_natCast (by simpa using hd0)]
  simp only [hdv, Bool.not_true, Bool.false_eq_true, if_false]
  rw [hp, idx_natCast (by simpa using hj0)]
  simp only [hv, Bool.false_eq_true, if_false]
  rw [ml_handle_page_fault_eq hI ha hlow]
  dsimp only
  rw [ml_with_table_of_valid hdv, hfr]
  simp only [finish]
  rw [if_pos ⟨by omega, by simp only [OFFSET_BITS]; omega⟩]
  simp only [after_fault, hdv, if_true, Int.toNat_ofNat, ml_with_table_of_valid hdv]
  rfl

set_option maxRecDepth 100000 in
theorem ml_translate_fault_none {s : State} {a : Nat} (hI : Inv s) (ha : a < 2 ^ 32)
    (hl : tlb_lookup s.tlb (vpn_of a : Nat) = none)
    (hv : (s.page_directory (pd_index_of a)).valid = true →
      (s.heap (table_ptr s (pd_index_of a)) (pt_index_of a)).valid = false)
    (hpf : ¬ s.page_faults < 16)
    (hhigh : 2 ^ 19 ≤ s.frame_to_vpn_map (s.page_faults % 16)) :
    translate_address s a = none := by
  have hd0 := ml_pd_index_of_lt ha
  have hj0 := ml_pt_index_of_lt a
  unfold translate_address
  dsimp only
  rw [hl]
  dsimp only
  rw [idx_natCast (by simpa using hd0)]
  by_cases hdv : (s.page_directory (pd_index_of a)).valid = true
  · obtain ⟨hp, -⟩ := ml_table_ptr_lt hI hd0 hdv
    simp only [hdv, Bool.not_true, Bool.false_eq_true, if_false]
    rw [hp, idx_natCast (by simpa using hj0)]
    simp only [hv hdv, Bool.false_eq_true, if_false]
    rw [ml_handle_page_fault_high hI ha hpf hhigh]
  · have hdv : (s.page_directory (pd_index_of a)).valid = false := by simpa using hdv
    simp only [hdv, Bool.not_false, if_true]
    rw [ml_handle_page_fault_high hI ha hpf hhigh]

theorem ml_inv_time {s : State} (hI : Inv s) (t : Nat) :
    Inv { s with total_access_time := t } where
  free_iff := hI.free_iff
  fifo := hI.fifo
  dir_ptr := hI.dir_ptr
  dir_inj := hI.dir_inj
  used_map := hI.used_map
  valid_pt := hI.valid_pt
  tlb_ptr := hI.tlb_ptr
  tlb_ok := hI.tlb_ok
  tlb_nodup := hI.tlb_nodup
  counters := hI.counters

theorem ml_inv_after_fault {s : State} (hI : Inv s) {a : Nat} (ha : a < 2 ^ 32)
    (hl : tlb_lookup s.tlb (vpn_of a : Nat) = none)
    (hv : (s.page_directory (pd_index_of a)).valid = true →
      (s.heap (table_ptr s (pd_index_of a)) (pt_index_of a)).valid = false) :
    Inv (after_fault s a) := by
  have hd0 := ml_pd_index_of_lt ha
  have hIT := ml_inv_with_table hI hd0
  obtain ⟨hTv, -, hnew⟩ := ml_with_table_facts hI hd0
  have hpte : ((with_table s (pd_index_of a)).heap
      (table_ptr (with_table s (pd_index_of a)) (pd_index_of a)) (pt_index_of a)).valid
        = false := by
    rcases hnew _ hTv with h | ⟨-, -, hp, hall⟩
    · rw [ml_with_table_of_valid h]; exact hv h
    · rw [hp]; exact hall _
  exact ml_inv_time (ml_inv_load hIT ha hTv hl hpte) _

/-- The outcomes of one translation of a 32-bit address in a state
satisfying the invariant, each with its explicit post-state; a page fault
that must evict a page numbered `2 ^ 19` or more has no defined result. -/
theorem ml_translate_cases {s : State} (hI : Inv s) {a : Nat} (ha : a < 2 ^ 32) :
    (∃ fr, tlb_lookup s.tlb (vpn_of a : Nat) = some fr ∧ 0 ≤ fr ∧ fr < 16 ∧
      translate_address s a =
        some ⟨after_hit s, fr, (fr.toNat <<< OFFSET_BITS) ||| offset_of a⟩) ∨
    (tlb_lookup s.tlb (vpn_of a : Nat) = none ∧
      (s.page_directory (pd_index_of a)).valid = true ∧
      (s.heap (table_ptr s (pd_index_of a)) (pt_index_of a)).valid = true ∧
      Inv (after_table_hit s (vpn_of a)
          (s.heap (table_ptr s (pd_index_of a)) (pt_index_of a)).frame_number) ∧
      translate_address s a =
        some ⟨after_table_hit s (vpn_of a)
            (s.heap (table_ptr s (pd_index_of a)) (pt_index_of a)).frame_number,
          (s.heap (table_ptr s (pd_index_of a)) (pt_index_of a)).frame_number,
          ((s.heap (table_ptr s (pd_index_of a)) (pt_index_of a)).frame_number.toNat
            <<< OFFSET_BITS) ||| offset_of a⟩) ∨
    (tlb_lookup s.tlb (vpn_of a : Nat) = none ∧
      ((s.page_directory (pd_index_of a)).valid = true →
        (s.heap (table_ptr s (pd_index_of a)) (pt_index_of a)).valid = false) ∧
      Inv (after_fault s a) ∧
      ((¬ s.page_faults < 16 → s.frame_to_vpn_map (s.page_faults % 16) < 2 ^ 19) →
        translate_address s a =
          some ⟨after_fault s a, ((s.page_faults % 16 : Nat) : Int),
            ((s.page_faults % 16) <<< OFFSET_BITS) ||| offset_of a⟩) ∧
      (¬ (¬ s.page_faults < 16 → s.frame_to_vpn_map (s.page_faults % 16) < 2 ^ 19) →
        translate_address s a = none)) := by
  cases hl : tlb_lookup s.tlb (vpn_of a : Nat) with
  | some fr =>
    left
    obtain ⟨i, hi, hv, -, hfr, -⟩ := ml_lookup_eq_some hl
    have := hI.tlb_ok i hi hv
    rw [hfr] at this
    exact ⟨fr, rfl, this.2.2.1, this.2.2.2, ml_translate_hit hl this.2.2.1 this.2.2.2⟩
  | none =>
    right
    by_cases hdv : (s.page_directory (pd_index_of a)).valid = true
    · by_cases hv : (s.heap (table_ptr s (pd_index_of a)) (pt_index_of a)).valid = true
      · left
        obtain ⟨f, hf, hfr, -, -⟩ :=
          hI.valid_pt _ _ (ml_pd_index_of_lt ha) (ml_pt_index_of_lt a) hdv hv
        exact ⟨rfl, hdv, hv,
          ml_inv_after_table_hit hI (ml_vpn_of_lt ha) (by omega) (by omega) hl,
          ml_translate_table_hit hI ha hl hdv hv⟩
      · right
        have hv : (s.heap (table_ptr s (pd_index_of a)) (pt_index_of a)).valid = false := by
          simpa using hv
        refine ⟨rfl, fun _ => hv, ml_inv_after_fault hI ha hl (fun _ => hv),
          fun hlow => ml_translate_fault_old hI ha hl hdv hv hlow, ?_⟩
        intro hn
        have hpf : ¬ s.page_faults < 16 := fun h => hn (fun h' => absurd h h')
        exact ml_translate_fault_none hI ha hl (fun _ => hv) hpf
          (by by_contra hc; exact hn (fun _ => by omega))
    · right
      have hdv' : (s.page_directory (pd_index_of a)).valid = false := by simpa using hdv
      refine ⟨rfl, fun h => absurd h hdv, ml_inv_after_fault hI ha hl (fun h => absurd h hdv),
        fun hlow => ml_translate_fault_new hI ha hl hdv' hlow, ?_⟩
      intro hn
      have hpf : ¬ s.page_faults < 16 := fun h => hn (fun h' => absurd h h')
      exact ml_translate_fault_none hI ha hl (fun h => absurd h hdv) hpf
        (by by_contra hc; exact hn (fun _ => by omega))

/-- Every defined translation of a 32-bit address preserves the invariant. -/
theorem ml_translate_inv {s : State} (hI : Inv s) {a : Nat} (ha : a < 2 ^ 32)
    {t : Translation} (ht : translate_address s a = some t) : Inv t.state := by
  rcases ml_translate_cases hI ha with ⟨fr, -, -, -, h⟩ | ⟨-, -, -, hI', h⟩ | ⟨-, -, hI', h1, h2⟩
  · rw [h] at ht; simp only [Option.some.injEq] at ht; subst ht
    exact ml_inv_after_hit hI
  · rw [h] at ht; simp only [Option.some.injEq] at ht; subst ht
    exact hI'
  · by_cases hlow : ¬ s.page_faults < 16 → s.frame_to_vpn_map (s.page_faults % 16) < 2 ^ 19
    · rw [h1 hlow] at ht; simp only [Option.some.injEq] at ht; subst ht
      exact hI'
    · rw [h2 hlow] at ht; exact absurd ht (by simp)

theorem ml_low_initialize_system (memory : Nat → Nat → PageTableEntry) :
    Low (initialize_system memory) := by
  intro f _ h; simp [initialize_system] at h

/-- A translation of an address below `2 ^ 31` is defined in every state
that satisfies the invariant and holds only pages below `2 ^ 19`, and it
keeps both properties. -/
theorem ml_translate_low {s : State} (hI : Inv s) (hL : Low s) {a : Nat} (ha : a < 2 ^ 31) :
    ∃ t, translate_address s a = some t ∧ Inv t.state ∧ Low t.state := by
  have ha32 : a < 2 ^ 32 := by omega
  have hlt : s.page_faults % 16 < 16 := Nat.mod_lt _ (by norm_num)
  rcases ml_translate_cases hI ha32 with ⟨fr, -, -, -, h⟩ | ⟨-, -, -, hI', h⟩ |
      ⟨-, -, hI', h1, -⟩
  · exact ⟨_, h, ml_inv_after_hit hI, hL⟩
  · exact ⟨_, h, hI', hL⟩
  · refine ⟨_, h1 (fun hpf => hL _ hlt (ml_used_of_full hI hpf hlt)), hI', ?_⟩
    intro f hf
    show Function.update s.is_frame_free (s.page_faults % 16) false f = false →
      Function.update s.frame_to_vpn_map (s.page_faults % 16) (vpn_of a : Int) f < 2 ^ 19
    rw [Function.update_apply, Function.update_apply]
    split_ifs with h
    · intro _
      have : vpn_of a < 2 ^ 19 := by
        unfold vpn_of
        simp only [OFFSET_BITS, Nat.shiftRight_eq_div_pow]
        omega
      omega
    · exact hL f hf

theorem ml_update_tlb_frame {s s' : State} {v f : Int} (h : update_tlb s v f = some s') :
    SameCounters s s' ∧ s'.page_directory = s.page_directory ∧ s'.allocated = s.allocated := by
  unfold update_tlb at h
  split at h
  · exact absurd h (by simp)
  · simp only [Option.some.injEq] at h; subst h; exact ⟨⟨rfl, rfl, rfl, rfl⟩, rfl, rfl⟩

theorem ml_finish_frame {s : State} {fr : Int} {off : Nat} {t : Translation}
    (h : finish s fr off = some t) :
    SameCounters s t.state ∧ t.state.page_directory = s.page_directory ∧
      t.state.allocated = s.allocated := by
  unfold finish at h
  split at h
  · simp only [Option.some.injEq] at h; subst h; exact ⟨⟨rfl, rfl, rfl, rfl⟩, rfl, rfl⟩
  · exact absurd h (by simp)

theorem ml_choose_frame_frame {s s' : State} {f : Int} (h : choose_frame s = some (s', f)) :
    SameCounters s s' ∧ s'.page_directory = s.page_directory ∧ s'.allocated = s.allocated := by
  unfold choose_frame at h
  dsimp only at h
  split at h
  · split at h
    · exact absurd h (by simp)
    · split at h
      · exact absurd h (by simp)
      · split at h
        · simp only [Option.some.injEq, Prod.mk.injEq] at h
          obtain ⟨h1, -⟩ := h; subst h1; exact ⟨⟨rfl, rfl, rfl, rfl⟩, rfl, rfl⟩
        · exact absurd h (by simp)
  · simp only [Option.some.injEq, Prod.mk.injEq] at h
    obtain ⟨h1, -⟩ := h; subst h1; exact ⟨⟨rfl, rfl, rfl, rfl⟩, rfl, rfl⟩

theorem ml_create_table_frame {s s' : State} {d : Nat} (hd : d < 1024)
    (h : create_table s (d : Int) = some s') : SameCounters s s' ∧ DirStep s s' d := by
  rw [ml_create_table_eq s hd] at h
  simp only [Option.some.injEq] at h
  subst h
  refine ⟨⟨rfl, rfl, rfl, rfl⟩, ?_⟩
  by_cases hv : (s.page_directory d).valid = true
  · left; rw [ml_with_table_of_valid hv]; exact ⟨rfl, rfl⟩
  · have hv : (s.page_directory d).valid = false := by simpa using hv
    right
    exact ⟨hd, hv, ml_with_table_dir hv, ml_with_table_allocated hv⟩

theorem ml_handle_page_fault_frame {s s' : State} {v : Int} {d j : Nat} (hd : d < 1024)
    (h : handle_page_fault s v (d : Int) (j : Int) = some s') :
    s'.total_accesses = s.total_accesses ∧ s'.tlb_hits = s.tlb_hits ∧
      s'.tlb_misses = s.tlb_misses ∧ s'.page_faults = s.page_faults + 1 ∧
      DirStep s s' d := by
  unfold handle_page_fault at h
  dsimp only at h
  split at h
  · exact absurd h (by simp)
  · rename_i s2 hc
    obtain ⟨hc1, hc2⟩ := ml_create_table_frame hd hc
    split at h
    · exact absurd h (by simp)
    · rename_i s3 f hch
      obtain ⟨hch1, hch2, hch3⟩ := ml_choose_frame_frame hch
      split at h
      · split at h
        · exact absurd h (by simp)
        · obtain ⟨hu1, hu2, hu3⟩ := ml_update_tlb_frame h
          dsimp only at hu1 hu2 hu3
          obtain ⟨a1, a2, a3, a4⟩ := hc1
          obtain ⟨b1, b2, b3, b4⟩ := hch1
          obtain ⟨c1, c2, c3, c4⟩ := hu1
          dsimp only at a1 a2 a3 a4 c1 c2 c3 c4
          refine ⟨by omega, by omega, by omega, by omega, ?_⟩
          rcases hc2 with ⟨e1, e2⟩ | ⟨e0, e1, e2, e3⟩
          · left
            exact ⟨by rw [hu2, hch2, e1], by rw [hu3, hch3, e2]⟩
          · right
            exact ⟨e0, e1, by rw [hu2, hch2, e2], by rw [hu3, hch3, e3]⟩
      · exact absurd h (by simp)

set_option maxRecDepth 100000 in
/-- Every call of `translate_address` that returns adds 1 to
`total_accesses` and 1 to exactly one of `tlb_hits` and `tlb_misses`; it
leaves `page_faults` alone or adds 1 to it, and it changes the directory only
by creating, during a page fault, the table of the directory index of its
address. -/
theorem ml_translate_frame {s : State} {a : Nat} (ha : a < 2 ^ 32) {t : Translation}
    (h : translate_address s a = some t) :
    t.state.total_accesses = s.total_accesses + 1 ∧
      ((t.state.tlb_hits = s.tlb_hits + 1 ∧ t.state.tlb_misses = s.tlb_misses) ∨
       (t.state.tlb_hits = s.tlb_hits ∧ t.state.tlb_misses = s.tlb_misses + 1)) ∧
      ((t.state.page_faults = s.page_faults ∧
          t.state.page_directory = s.page_directory ∧ t.state.allocated = s.allocated) ∨
       (t.state.page_faults = s.page_faults + 1 ∧ DirStep s t.state (pd_index_of a))) := by
  have hd0 := ml_pd_index_of_lt ha
  unfold translate_address at h
  dsimp only at h
  split at h
  · obtain ⟨⟨h1, h2, h3, h4⟩, h5, h6⟩ := ml_finish_frame h
    exact ⟨h1, Or.inl ⟨h2, h3⟩, Or.inl ⟨h4, h5, h6⟩⟩
  · rw [idx_natCast (by simpa using hd0)] at h
    dsimp only at h
    split at h
    · split at h
      · exact absurd h (by simp)
      · rename_i s3 hu
        obtain ⟨g1, g2, g3, g4, g5⟩ := ml_handle_page_fault_frame hd0 hu
        split at h
        · obtain ⟨⟨h1, h2, h3, h4⟩, h5, h6⟩ := ml_finish_frame h
          dsimp only at g1 g2 g3 g4
          refine ⟨by omega, Or.inr ⟨by omega, by omega⟩, Or.inr ⟨by omega, ?_⟩⟩
          rcases g5 with ⟨e1, e2⟩ | ⟨e0, e1, e2, e3⟩
          · left; exact ⟨by rw [h5, e1], by rw [h6, e2]⟩
          · right; exact ⟨e0, e1, by rw [h5, e2], by rw [h6, e3]⟩
        · exact absurd h (by simp)
    · split at h
      · split at h
        · split at h
          · exact absurd h (by simp)
          · rename_i s3 hu
            obtain ⟨⟨h1, h2, h3, h4⟩, h5, h6⟩ := ml_finish_frame h
            obtain ⟨⟨u1, u2, u3, u4⟩, u5, u6⟩ := ml_update_tlb_frame hu
            dsimp only at u1 u2 u3 u4 u5 u6
            exact ⟨by omega, Or.inr ⟨by omega, by omega⟩,
              Or.inl ⟨by omega, by rw [h5, u5], by rw [h6, u6]⟩⟩
        · split at h
          · exact absurd h (by simp)
          · rename_i s3 hu
            obtain ⟨g1, g2, g3, g4, g5⟩ := ml_handle_page_fault_frame hd0 hu
            obtain ⟨⟨h1, h2, h3, h4⟩, h5, h6⟩ := ml_finish_frame h
            dsimp only at g1 g2 g3 g4
            refine ⟨by omega, Or.inr ⟨by omega, by omega⟩, Or.inr ⟨by omega, ?_⟩⟩
            rcases g5 with ⟨e1, e2⟩ | ⟨e0, e1, e2, e3⟩
            · left; exact ⟨by rw [h5, e1], by rw [h6, e2]⟩
            · right; exact ⟨e0, e1, by rw [h5, e2], by rw [h6, e3]⟩
      · exact absurd h (by simp)

theorem ml_run_cons_some {s : State} {a : Nat} {rest : List Nat} {t : Translation}
    {s' : State} {ts : List Translation}
    (h1 : translate_address s a = some t) (h2 : run t.state rest = some (s', ts)) :
    run s (a :: rest) = some (s', t :: ts) := by
  simp only [run, h1, h2]

theorem ml_run_cons_inv {s : State} {a : Nat} {rest : List Nat} {s' : State}
    {ts : List Translation} (h : run s (a :: rest) = some (s', ts)) :
    ∃ t ts', translate_address s a = some t ∧ run t.state rest = some (s', ts') ∧
      ts = t :: ts' := by
  simp only [run] at h
  cases h1 : translate_address s a with
  | none => rw [h1] at h; simp at h
  | some t =>
    rw [h1] at h
    simp only at h
    cases h2 : run t.state rest with
    | none => rw [h2] at h; simp at h
    | some r =>
      obtain ⟨s2, ts2⟩ := r
      rw [h2] at h
      simp only [Option.some.injEq, Prod.mk.injEq] at h
      exact ⟨t, ts2, rfl, by rw [h2, h.1], h.2.symm⟩

theorem ml_run_cons_none {s : State} {a : Nat} {rest : List Nat} {t : Translation}
    (h1 : translate_address s a = some t) (h2 : run t.state rest = none) :
    run s (a :: rest) = none := by
  simp only [run, h1, h2]

/-- Every defined run of 32-bit addresses preserves the invariant. -/
theorem ml_run_inv {s s' : State} {ts : List Translation} (hI : Inv s) {addrs : List Nat}
    (hw : ∀ a ∈ addrs, a < 2 ^ 32) (h : run s addrs = some (s', ts)) : Inv s' := by
  induction addrs generalizing s ts with
  | nil =>
    simp only [run, Option.some.injEq, Prod.mk.injEq] at h
    rw [← h.1]; exact hI
  | cons a rest ih =>
    obtain ⟨t, ts', ht, hr, -⟩ := ml_run_cons_inv h
    exact ih (ml_translate_inv hI (hw a (List.mem_cons_self _ _)) ht)
      (fun b hb => hw b (List.mem_cons_of_mem _ hb)) hr

/-- A trace of addresses below `2 ^ 31` runs to completion. -/
theorem ml_run_low {s : State} (hI : Inv s) (hL : Low s) (addrs : List Nat)
    (hw : ∀ a ∈ addrs, a < 2 ^ 31) :
    ∃ s' ts, run s addrs = some (s', ts) ∧ Inv s' ∧ Low s' ∧ ts.length = addrs.length := by
  induction addrs generalizing s with
  | nil => exact ⟨s, [], rfl, hI, hL, rfl⟩
  | cons a rest ih =>
    obtain ⟨t, ht, hIt, hLt⟩ := ml_translate_low hI hL (hw a (List.mem_cons_self _ _))
    obtain ⟨s', ts, hr, hI', hL', hlen⟩ :=
      ih hIt hLt (fun b hb => hw b (List.mem_cons_of_mem _ hb))
    exact ⟨s', t :: ts, ml_run_cons_some ht hr, hI', hL', by simp [hlen]⟩

theorem ml_reachable_inv {s : State} (h : Reachable s) : Inv s := by
  obtain ⟨memory, addrs, hw, ts, hr⟩ := h
  exact ml_run_inv (ml_inv_initialize_system memory) hw hr

theorem ml_reachable_init (memory : Nat → Nat → PageTableEntry) :
    Reachable (initialize_system memory) := ⟨memory, [], by simp, [], rfl⟩

theorem ml_run_counters {s s' : State} {addrs : List Nat} {ts : List Translation}
    (hw : ∀ a ∈ addrs, a < 2 ^ 32) (h : run s addrs = some (s', ts)) :
    s'.total_accesses = s.total_accesses + addrs.length ∧
      s'.tlb_hits + s'.tlb_misses = s.tlb_hits + s.tlb_misses + addrs.length := by
  induction addrs generalizing s ts with
  | nil =>
    simp only [run, Option.some.injEq, Prod.mk.injEq] at h
    rw [← h.1]; exact ⟨rfl, rfl⟩
  | cons a rest ih =>
    obtain ⟨t, ts', ht, hr, -⟩ := ml_run_cons_inv h
    have h1 := ml_translate_frame (hw a (List.mem_cons_self _ _)) ht
    have h2 := ih (fun b hb => hw b (List.mem_cons_of_mem _ hb)) hr
    simp only [List.length_cons]
    omega

theorem ml_dir_count_step {s s' : State} {d : Nat} (h : DirStep s s' d)
    (hc : valid_directory_entries s = s.allocated) :
    valid_directory_entries s' = s'.allocated := by
  unfold valid_directory_entries at hc ⊢
  rcases h with ⟨h1, h2⟩ | ⟨hd, hv, h1, h2⟩
  · rw [h1, h2]; exact hc
  · rw [h2, ← hc]
    apply countP_range_update_true _ _ _ d (by simpa using hd) hv
    · rw [h1, Function.update_same]
    · intro i hi
      rw [h1, Function.update_noteq hi]

theorem ml_dir_count_translate {s : State} {a : Nat} (ha : a < 2 ^ 32) {t : Translation}
    (h : translate_address s a = some t) (hc : valid_directory_entries s = s.allocated) :
    valid_directory_entries t.state = t.state.allocated := by
  rcases (ml_translate_frame ha h).2.2 with ⟨-, h1, h2⟩ | ⟨-, h1⟩
  · exact ml_dir_count_step (d := 0) (Or.inl ⟨h1, h2⟩) hc
  · exact ml_dir_count_step h1 hc

theorem ml_dir_count_run {s s' : State} {addrs : List Nat} {ts : List Translation}
    (hw : ∀ a ∈ addrs, a < 2 ^ 32) (h : run s addrs = some (s', ts))
    (hc : valid_directory_entries s = s.allocated) :
    valid_directory_entries s' = s'.allocated := by
  induction addrs generalizing s ts with
  | nil =>
    simp only [run, Option.some.injEq, Prod.mk.injEq] at h
    rw [← h.1]; exact hc
  | cons a rest ih =>
    obtain ⟨t, ts', ht, hr, -⟩ := ml_run_cons_inv h
    exact ih (fun b hb => hw b (List.mem_cons_of_mem _ hb)) hr
      (ml_dir_count_translate (hw a (List.mem_cons_self _ _)) ht hc)

theorem ml_dir_count_init (memory : Nat → Nat → PageTableEntry) :
    valid_directory_entries (initialize_system memory) = (initialize_system memory).allocated := by
  unfold valid_directory_entries
  rw [countP_range_false]
  · rfl
  · intro i _; rfl

/-- What a defined translation does to a directory entry: a valid entry is
left as it is, and an invalid entry becomes valid only when it is the entry
of the translated address and the translation page-faults. -/
theorem ml_dir_entry_step {s : State} {a : Nat} (ha : a < 2 ^ 32) {t : Translation}
    (h : translate_address s a = some t) (d : Nat) :
    ((s.page_directory d).valid = true → t.state.page_directory d = s.page_directory d) ∧
    ((s.page_directory d).valid = false → (t.state.page_directory d).valid = true →
      d = pd_index_of a ∧ t.state.page_faults = s.page_faults + 1 ∧
      (t.state.page_directory d).page_table = some s.allocated) := by
  rcases (ml_translate_frame ha h).2.2 with ⟨-, h1, -⟩ | ⟨hpf, ⟨h1, -⟩ | ⟨-, hv, h1, -⟩⟩
  · rw [h1]
    exact ⟨fun _ => rfl, fun h0 h1' => by rw [h0] at h1'; exact absurd h1' (by simp)⟩
  · rw [h1]
    exact ⟨fun _ => rfl, fun h0 h1' => by rw [h0] at h1'; exact absurd h1' (by simp)⟩
  · rw [h1]
    constructor
    · intro hd
      rw [Function.update_noteq]
      intro he; subst he; rw [hv] at hd; exact absurd hd (by simp)
    · intro h0 h1'
      by_cases he : d = pd_index_of a
      · subst he
        rw [Function.update_same]
        exact ⟨rfl, hpf, rfl⟩
      · rw [Function.update_noteq he, h0] at h1'
        exact absurd h1' (by simp)

/-- The state after the first translation from the initial state. -/
theorem ml_first_translation (memory : Nat → Nat → PageTableEntry) {a : Nat}
    (ha : a < 2 ^ 32) :
    translate_address (initialize_system memory) a =
        some ⟨after_fault (initialize_system memory) a, 0,
          (0 <<< OFFSET_BITS) ||| offset_of a⟩ ∧
      Inv (after_fault (initialize_system memory) a) ∧
      (after_fault (initialize_system memory) a).page_directory =
        Function.update (fun _ => ⟨false, none⟩) (pd_index_of a) ⟨true, some 0⟩ ∧
      (after_fault (initialize_system memory) a).allocated = 1 ∧
      (after_fault (initialize_system memory) a).page_faults = 1 ∧
      table_ptr (after_fault (initialize_system memory) a) (pd_index_of a) = 0 ∧
      (after_fault (initialize_system memory) a).heap 0 (pt_index_of a) = ⟨true, 0⟩ ∧
      (∀ j, j ≠ pt_index_of a →
        ((after_fault (initialize_system memory) a).heap 0 j).valid = false) ∧
      (after_fault (initialize_system memory) a).is_frame_free =
        Function.update (fun _ => true) 0 false := by
  have hI := ml_inv_initialize_system memory
  have hl : tlb_lookup (initialize_system memory).tlb (vpn_of a : Nat) = none := by
    rw [ml_lookup_eq_none]
    rintro i - ⟨h, -⟩
    simp [initialize_system] at h
  have hdv : ((initialize_system memory).page_directory (pd_index_of a)).valid = false := rfl
  have hd0 := ml_pd_index_of_lt ha
  have ht := ml_translate_fault_new hI ha hl hdv (fun h => absurd (show (0 : Nat) < 16 by norm_num) h)
  have hdir := ml_with_table_dir hdv
  have hheap := ml_with_table_heap hdv
  have hptr : table_ptr (with_table (initialize_system memory) (pd_index_of a))
      (pd_index_of a) = 0 := by
    unfold table_ptr; rw [hdir, Function.update_same]; rfl
  have hev : evicted_heap (with_table (initialize_system memory) (pd_index_of a)) =
      (with_table (initialize_system memory) (pd_index_of a)).heap := by
    unfold evicted_heap
    exact if_pos (by show (0 : Nat) < 16; norm_num)
  have hheap1 : (after_fault (initialize_system memory) a).heap =
      Function.update (with_table (initialize_system memory) (pd_index_of a)).heap 0
        (Function.update ((with_table (initialize_system memory) (pd_index_of a)).heap 0)
          (pt_index_of a) ⟨true, 0⟩) := by
    show Function.update (evicted_heap _) (table_ptr _ _) _ = _
    rw [hev, hptr]
    rfl
  refine ⟨ht, ml_inv_after_fault hI ha hl (fun h => by rw [hdv] at h; exact absurd h (by simp)),
    hdir, ml_with_table_allocated hdv, rfl, ?_, ?_, ?_, rfl⟩
  · exact hptr
  · rw [hheap1, Function.update_same, Function.update_same]
  · intro j hj
    rw [hheap1, Function.update_same, Function.update_noteq hj, hheap]
    show (Function.update memory 0 _ 0 j).valid = false
    rw [Function.update_same]

/-- While a frame is free, a translation of an address whose directory entry
is valid leaves the directory, the allocation count and the other valid
entries of that table as they are. -/
theorem ml_translation_same_dir {s : State} (hI : Inv s) (hpf : s.page_faults < 16)
    {b : Nat} (hb : b < 2 ^ 32) (hdv : (s.page_directory (pd_index_of b)).valid = true)
    {j : Nat} (hj : j < 1024)
    (hval : (s.heap (table_ptr s (pd_index_of b)) j).valid = true) :
    ∃ t, translate_address s b = some t ∧ t.state.page_directory = s.page_directory ∧
      t.state.allocated = s.allocated ∧
      t.state.heap (table_ptr s (pd_index_of b)) j = s.heap (table_ptr s (pd_index_of b)) j := by
  have hd0 := ml_pd_index_of_lt hb
  rcases ml_translate_cases hI hb with ⟨fr, -, -, -, h⟩ | ⟨-, -, -, -, h⟩ | ⟨-, hv, -, h1, -⟩
  · exact ⟨_, h, rfl, rfl, rfl⟩
  · exact ⟨_, h, rfl, rfl, rfl⟩
  · refine ⟨_, h1 (fun h => absurd hpf h), ?_, ?_, ?_⟩
    · show (with_table s (pd_index_of b)).page_directory = _
      rw [ml_with_table_of_valid hdv]
    · show (with_table s (pd_index_of b)).allocated = _
      rw [ml_with_table_of_valid hdv]
    · show (load (with_table s (pd_index_of b)) b).heap _ _ = _
      rw [ml_with_table_of_valid hdv, ml_load_heap_apply hI hb hdv hd0 hj hdv, if_neg,
        ml_evicted_heap_apply hI hd0 hj hdv, if_neg (by omega)]
      rintro ⟨-, he⟩
      rw [he, hv hdv] at hval
      exact absurd hval (by simp)

theorem ml_valid_in_table_eq_card {s : State} (hI : Inv s) {d : Nat} (hd : d < 1024) :
    valid_in_table s d =
      ((Finset.range 1024).filter (fun j => (s.page_directory d).valid = true ∧
        (s.heap (table_ptr s d) j).valid = true)).card := by
  unfold valid_in_table
  by_cases hv : (s.page_directory d).valid = true
  · obtain ⟨hp, -⟩ := ml_table_ptr_lt hI hd hv
    rw [if_pos hv, hp]
    dsimp only
    rw [countP_range_eq_card]
    simp only [NUM_PT_ENTRIES, PT_INDEX_BITS, hv, true_and]
    rfl
  · rw [if_neg hv]
    simp [hv]

/-- The page held by a used frame identifies the frame: used frames and valid
page-table entries are in bijection. -/
theorem ml_card_frames_pages {s : State} (hI : Inv s) (n m : Nat) (hn : n = 16) (hm : m = 1024) :
    ((Finset.range n).filter (fun f => (!s.is_frame_free f) = true)).card =
     ((Finset.range m).sigma (fun d => (Finset.range m).filter
        (fun j => (s.page_directory d).valid = true ∧
          (s.heap (table_ptr s d) j).valid = true))).card := by
  apply Finset.card_bij
    (fun f _ => (⟨(s.frame_to_vpn_map f).toNat / 1024, (s.frame_to_vpn_map f).toNat % 1024⟩ :
      (_ : Nat) × Nat))
  · intro f hf
    simp only [Finset.mem_filter, Finset.mem_range, Bool.not_eq_true'] at hf
    obtain ⟨v, hv, hmap, hdv, hval, -⟩ := hI.used_map f (by omega) hf.2
    rw [hmap, Int.toNat_ofNat]
    simp only [Finset.mem_sigma, Finset.mem_filter, Finset.mem_range]
    exact ⟨by omega, by omega, hdv, hval⟩
  · intro f1 hf1 f2 hf2 heq
    simp only [Finset.mem_filter, Finset.mem_range, Bool.not_eq_true'] at hf1 hf2
    obtain ⟨v1, hv1, hmap1, -, -, hfr1⟩ := hI.used_map f1 (by omega) hf1.2
    obtain ⟨v2, hv2, hmap2, -, -, hfr2⟩ := hI.used_map f2 (by omega) hf2.2
    rw [hmap1, hmap2, Int.toNat_ofNat, Int.toNat_ofNat] at heq
    simp only [Sigma.mk.inj_iff, heq_eq_eq] at heq
    have : v1 = v2 := by omega
    subst this
    omega
  · rintro ⟨d, j⟩ hdj
    simp only [Finset.mem_sigma, Finset.mem_filter, Finset.mem_range] at hdj
    obtain ⟨hd, hj, hdv, hval⟩ := hdj
    obtain ⟨f, hf, -, hfree, hmap⟩ := hI.valid_pt d j (by omega) (by omega) hdv hval
    refine ⟨f, ?_, ?_⟩
    · simp only [Finset.mem_filter, Finset.mem_range, Bool.not_eq_true']
      exact ⟨by omega, hfree⟩
    · rw [hmap, Int.toNat_ofNat]
      simp only [Sigma.mk.inj_iff, heq_eq_eq]
      constructor <;> omega

/-- In a state satisfying the invariant the number of used frames equals the
number of valid page-table entries over all valid directory entries. -/
theorem ml_used_eq_valid {s : State} (hI : Inv s) : used_frames s = valid_pages s := by
  unfold used_frames valid_pages
  rw [countP_range_eq_card, sum_map_range_eq]
  have h1 : ∑ d in Finset.range NUM_PD_ENTRIES, valid_in_table s d =
      ∑ d in Finset.range NUM_PD_ENTRIES, ((Finset.range 1024).filter
        (fun j => (s.page_directory d).valid = true ∧
          (s.heap (table_ptr s d) j).valid = true)).card := by
    apply Finset.sum_congr rfl
    intro d hd
    exact ml_valid_in_table_eq_card hI (by simpa using hd)
  rw [h1, ← Finset.card_sigma]
  exact ml_card_frames_pages hI NUM_PHYSICAL_FRAMES 1024 (by simp) rfl

/-- The invariant of the two-level program that the claim is about holds on
every run that has a defined result, and every trace of addresses below
`2 ^ 31` has one. -/
theorem ml_used_eq_valid_run (memory : Nat → Nat → PageTableEntry) (addrs : List Nat) :
    (∀ s ts, (∀ a ∈ addrs, a < 2 ^ 32) →
      run (initialize_system memory) addrs = some (s, ts) → used_frames s = valid_pages s) ∧
    ((∀ a ∈ addrs, a < 2 ^ 31) →
      ∃ s ts, run (initialize_system memory) addrs = some (s, ts) ∧
        used_frames s = valid_pages s) := by
  constructor
  · intro s ts hw h
    exact ml_used_eq_valid (ml_run_inv (ml_inv_initialize_system memory) hw h)
  · intro hw
    obtain ⟨s, ts, h, hI, -, -⟩ := ml_run_low (ml_inv_initialize_system memory)
      (ml_low_initialize_system memory) addrs hw
    exact ⟨s, ts, h, ml_used_eq_valid hI⟩

theorem ml_after_fault_time (s : State) (a : Nat) :
    (after_fault s a).total_access_time =
      if (s.page_directory (pd_index_of a)).valid then s.total_access_time + 50301
      else s.total_access_time + 50201 := by
  show (if (s.page_directory (pd_index_of a)).valid = true then
      s.total_access_time + 1 + 100 + 100 + 50000 + 100
    else s.total_access_time + 1 + 100 + 50000 + 100) = _
  split_ifs <;> omega

theorem ml_translate_frame_range {s : State} (hI : Inv s) {a : Nat} (ha : a < 2 ^ 32)
    {t : Translation} (ht : translate_address s a = some t) :
    0 ≤ t.frame_number ∧ t.frame_number < 16 ∧
      t.physical_address = t.frame_number.toNat * 4096 + offset_of a ∧
      t.physical_address < 65536 := by
  have hoff := ml_offset_of_lt a
  have key : ∀ fr : Int, 0 ≤ fr → fr < 16 →
      (fr.toNat <<< OFFSET_BITS) ||| offset_of a = fr.toNat * 4096 + offset_of a ∧
      (fr.toNat <<< OFFSET_BITS) ||| offset_of a < 65536 := by
    intro fr h0 h1
    have := shiftLeft_or_eq_add fr.toNat (offset_of a) 12 (by omega)
    simp only [OFFSET_BITS]
    rw [this]
    constructor
    · norm_num
    · norm_num; omega
  rcases ml_translate_cases hI ha with ⟨fr, -, h0, h1, h⟩ | ⟨-, hdv, hv, -, h⟩ |
      ⟨-, -, -, g1, g2⟩
  · rw [h] at ht; simp only [Option.some.injEq] at ht; subst ht
    exact ⟨h0, h1, (key fr h0 h1).1, (key fr h0 h1).2⟩
  · rw [h] at ht; simp only [Option.some.injEq] at ht; subst ht
    obtain ⟨f, hf, hfr, -, -⟩ :=
      hI.valid_pt _ _ (ml_pd_index_of_lt ha) (ml_pt_index_of_lt a) hdv hv
    have h0 : 0 ≤ (s.heap (table_ptr s (pd_index_of a)) (pt_index_of a)).frame_number := by
      omega
    have h1 : (s.heap (table_ptr s (pd_index_of a)) (pt_index_of a)).frame_number < 16 := by
      omega
    exact ⟨h0, h1, (key _ h0 h1).1, (key _ h0 h1).2⟩
  · by_cases hlow : ¬ s.page_faults < 16 → s.frame_to_vpn_map (s.page_faults % 16) < 2 ^ 19
    · rw [g1 hlow] at ht; simp only [Option.some.injEq] at ht; subst ht
      have hlt : s.page_faults % 16 < 16 := Nat.mod_lt _ (by norm_num)
      have h0 : (0 : Int) ≤ ((s.page_faults % 16 : Nat) : Int) := by omega
      have h1 : ((s.page_faults % 16 : Nat) : Int) < 16 := by omega
      have k := key _ h0 h1
      simp only [Int.toNat_ofNat] at k
      exact ⟨h0, h1, by simpa using k.1, k.2⟩
    · rw [g2 hlow] at ht; exact absurd ht (by simp)

/-- A translation has a defined result when a frame is free or the page in
the victim frame is numbered below `2 ^ 19`. -/
theorem ml_translate_defined {s : State} (hI : Inv s) {a : Nat} (ha : a < 2 ^ 32)
    (hlow : s.page_faults < 16 ∨ s.frame_to_vpn_map (s.page_faults % 16) < 2 ^ 19) :
    ∃ t, translate_address s a = some t := by
  rcases ml_translate_cases hI ha with ⟨fr, -, -, -, h⟩ | ⟨-, -, -, -, h⟩ | ⟨-, -, -, g1, -⟩
  · exact ⟨_, h⟩
  · exact ⟨_, h⟩
  · exact ⟨_, g1 (fun hpf => by rcases hlow with h | h; exact absurd h hpf; exact h)⟩

theorem old_pt_index_of_high {v : Nat} (_h0 : 2 ^ 19 ≤ v) (h1 : v < 2 ^ 20) :
    old_pt_index_of (v : Int) = ((v % 1024 : Nat) : Int) := by
  unfold old_pt_index_of
  simp only [PAGE_SIZE, OFFSET_BITS, PT_INDEX_MASK]
  rw [Int.shiftRight_eq_div_pow]
  have hw : wrap32 ((v : Int) * ((4096 : Nat) : Int)) / ((2 ^ 12 : Nat) : Int) =
      Int.negSucc (2 ^ 20 - (v + 1)) := by
    unfold wrap32
    rw [Int.negSucc_eq]
    norm_num
    omega
  have hland : ∀ m n : Nat, Int.land (Int.negSucc m) (n : Int) = ((Nat.ldiff n m : Nat) : Int) :=
    fun m n => rfl
  rw [hw, hland]
  refine congrArg (Nat.cast : Nat → Int) ?_
  apply Nat.eq_of_testBit_eq
  intro i
  have hm : (1023 : Nat) = 2 ^ 10 - 1 := by norm_num
  have hmod : v % 1024 = v &&& (2 ^ 10 - 1) := by
    rw [Nat.and_pow_two_sub_one_eq_mod]
  rw [Nat.testBit_ldiff, Nat.testBit_two_pow_sub_succ h1, hm, Nat.testBit_two_pow_sub_one,
    hmod, Nat.testBit_and, Nat.testBit_two_pow_sub_one]
  by_cases hi : i < 10
  · have hi' : i < 20 := by omega
    simp [hi, hi']
  · simp [hi]

/-- When the victim's page is numbered below `2 ^ 19` the indices the
eviction path re-derives are those of the victim's own entry, which lies in a
valid directory entry. -/
theorem ml_evict_indices_low {s : State} (hI : Inv s) (hL : Low s)
    (hpf : ¬ s.page_faults < 16) :
    ∃ v : Nat, s.frame_to_vpn_map (s.page_faults % 16) = (v : Int) ∧ v < 2 ^ 19 ∧
      old_pd_index_of (s.frame_to_vpn_map (s.page_faults % 16)) = ((v / 1024 : Nat) : Int) ∧
      old_pt_index_of (s.frame_to_vpn_map (s.page_faults % 16)) = ((v % 1024 : Nat) : Int) ∧
      v / 1024 < 1024 ∧ v % 1024 < 1024 ∧
      (s.page_directory (v / 1024)).valid = true ∧
      (s.page_directory (v / 1024)).page_table = some (table_ptr s (v / 1024)) ∧
      (s.heap (table_ptr s (v / 1024)) (v % 1024)).valid = true := by
  have hlt : s.page_faults % 16 < 16 := Nat.mod_lt _ (by norm_num)
  have hused := ml_used_of_full hI hpf hlt
  obtain ⟨v, hv, hmap, hdv, hval, -⟩ := hI.used_map _ hlt hused
  have hlow := hL _ hlt hused
  have hv19 : v < 2 ^ 19 := by omega
  refine ⟨v, hmap, hv19, ?_, ?_, by omega, by omega, hdv,
    (ml_table_ptr_lt hI (by omega) hdv).1, hval⟩
  · rw [hmap, old_pd_index_of_low hv19]
  · rw [hmap, old_pt_index_of_low hv19]

end Multinivel

/-! # The claims -/

/-- C1: the fields `translate_address` decodes recompose to the address.
Two-level: for every address below `2 ^ 32`,
`(pd_index << 22) | (pt_index << 12) | offset` is the address. Single-level:
for every address below `2 ^ 16`, `(vpn << 8) | offset` is the address. -/
theorem C1_decode_roundtrip :
    (∀ a : Nat, a < 2 ^ 32 →
      ((Multinivel.pd_index_of a <<< 22) ||| (Multinivel.pt_index_of a <<< 12)) |||
        Multinivel.offset_of a = a) ∧
    (∀ a : Nat, a < 2 ^ 16 → (NivelUnico.vpn_of a <<< 8) ||| NivelUnico.offset_of a = a) :=
  ⟨fun a ha => multi_roundtrip a ha, fun a _ => unico_roundtrip a⟩

theorem C1_decode_roundtrip_witness :
    (((Multinivel.pd_index_of 0xDEADBEEF <<< 22) ||| (Multinivel.pt_index_of 0xDEADBEEF <<< 12))
        ||| Multinivel.offset_of 0xDEADBEEF = 0xDEADBEEF) ∧
    ((NivelUnico.vpn_of 0xBEEF <<< 8) ||| NivelUnico.offset_of 0xBEEF = 0xBEEF) :=
  ⟨C1_decode_roundtrip.1 0xDEADBEEF (by norm_num), C1_decode_roundtrip.2 0xBEEF (by norm_num)⟩

namespace NivelUnico

/-- C2: in every reachable state, translating an in-width address twice in a
row makes the second translation a TLB hit (`tlb_hits` grows by exactly 1,
`tlb_misses` and `page_faults` do not change) that returns the frame and the
physical address of the first. From the initial state the trace
`0x0000, 0x0100, 0x0000` ends with two page faults and one TLB hit, and its
first and third translations return the same frame. -/
theorem C2_translate_twice_hits :
    (∀ s : State, Reachable s → ∀ a : Nat, a < 2 ^ 16 →
      ∃ t1 t2, translate_address s a = some t1 ∧ translate_address t1.state a = some t2 ∧
        t2.state.tlb_hits = t1.state.tlb_hits + 1 ∧
        t2.state.tlb_misses = t1.state.tlb_misses ∧
        t2.state.page_faults = t1.state.page_faults ∧
        t2.frame_number = t1.frame_number ∧
        t2.physical_address = t1.physical_address) ∧
    (∃ s t1 t2 t3, run initialize_system [0x0000, 0x0100, 0x0000] = some (s, [t1, t2, t3]) ∧
      t2.state.page_faults = 2 ∧ s.page_faults = 2 ∧ s.tlb_hits = 1 ∧
      t2.state.tlb_hits = 0 ∧ t3.frame_number = t1.frame_number) := by
  constructor
  · intro s hs a ha
    obtain ⟨t1, t2, h1, h2, hst, hfr, hpa⟩ := translate_twice (reachable_inv hs) ha
    refine ⟨t1, t2, h1, h2, ?_, ?_, ?_, hfr, hpa⟩ <;> rw [hst] <;> rfl
  · exact ⟨_, _, _, _, rfl, by decide, by decide, by decide, by decide, by decide⟩

theorem C2_translate_twice_hits_witness :
    Reachable initialize_system ∧ 0x1234 < 2 ^ 16 ∧
    ∃ t1 t2, translate_address initialize_system 0x1234 = some t1 ∧
      translate_address t1.state 0x1234 = some t2 ∧
      t2.state.tlb_hits = t1.state.tlb_hits + 1 ∧
      t2.state.tlb_misses = t1.state.tlb_misses ∧
      t2.state.page_faults = t1.state.page_faults ∧
      t2.frame_number = t1.frame_number ∧
      t2.physical_address = t1.physical_address :=
  ⟨reachable_init, by norm_num,
    C2_translate_twice_hits.1 initialize_system reachable_init 0x1234 (by norm_num)⟩

/-- C3: from the initial state, 17 in-width addresses with pairwise distinct
pages all page-fault (the `i`-th translation leaves `page_faults = i + 1`),
the 17th is loaded into the frame of the first, and afterwards the first
page's entry is invalid, the 17th page is mapped to the frame the first page
occupied, and the 15 pages in between are still valid in the frames they were
loaded into. -/
theorem C3_fifo_victim_is_first_loaded (addrs : List Nat) (hlen : addrs.length = 17)
    (hw : ∀ a ∈ addrs, a < 2 ^ 16) (hd : (addrs.map vpn_of).Nodup) :
    ∃ s ts, run initialize_system addrs = some (s, ts) ∧ ts.length = 17 ∧
      (∀ i t, ts[i]? = some t → t.state.page_faults = i + 1) ∧
      (∀ a0 a16 t0 t16, addrs[0]? = some a0 → addrs[16]? = some a16 →
        ts[0]? = some t0 → ts[16]? = some t16 →
          t16.frame_number = t0.frame_number ∧
          (s.page_table (vpn_of a0)).valid = false ∧
          (s.page_table (vpn_of a16)).valid = true ∧
          (s.page_table (vpn_of a16)).frame_number = t0.frame_number) ∧
      (∀ i a t, 1 ≤ i → i < 16 → addrs[i]? = some a → ts[i]? = some t →
          (s.page_table (vpn_of a)).valid = true ∧
          (s.page_table (vpn_of a)).frame_number = t.frame_number) := by
  obtain ⟨hrun, -, -⟩ := run_fresh inv_initialize_system seen_initialize_system addrs hw hd
    (by simp)
  rcases List.eq_nil_or_concat addrs with hnil | ⟨l, a16, hcat⟩
  · rw [hnil] at hlen; simp at hlen
  rw [List.concat_eq_append] at hcat
  subst hcat
  have hl16 : l.length = 16 := by simpa using hlen
  rw [List.map_append, List.nodup_append] at hd
  obtain ⟨hdl, -, hdisj⟩ := hd
  have hwl : ∀ a ∈ l, a < 2 ^ 16 := fun a ha => hw a (List.mem_append_left _ ha)
  have ha16 : a16 < 2 ^ 16 := hw a16 (by simp)
  obtain ⟨-, hI16, hS16⟩ := run_fresh inv_initialize_system seen_initialize_system l hwl hdl
    (by simp)
  have hpf16 : (fault_all initialize_system l).page_faults = 16 := by
    rw [fault_all_page_faults, hl16]; rfl
  have hloaded : ∀ (i a : Nat), l[i]? = some a →
      ((fault_all initialize_system l).page_table (vpn_of a)).valid = true ∧
      ((fault_all initialize_system l).page_table (vpn_of a)).frame_number = (i : Int) := by
    intro i a hi
    have hilt : i < 16 := by
      have := (List.getElem?_eq_some.mp hi).1; omega
    have := fault_all_loaded inv_initialize_system seen_initialize_system l hwl hdl (by simp)
      (by omega) i a hi
    have h0 : initialize_system.page_faults = 0 := rfl
    rw [h0, Nat.zero_add, Nat.mod_eq_of_lt hilt] at this
    exact this
  have hne16 : ∀ a ∈ l, vpn_of a ≠ vpn_of a16 := by
    intro a ha he
    exact hdisj (List.mem_map_of_mem _ ha) (by simp [he])
  have hfinal : fault_all initialize_system (l ++ [a16]) =
      after_fault (fault_all initialize_system l) (vpn_of a16) := by
    rw [fault_all_append]; rfl
  refine ⟨_, _, hrun, by rw [fault_results_length]; simp [hl16], ?_, ?_, ?_⟩
  · intro i t hi
    have := (fault_results_get _ _ i t hi).2
    rw [this]; show 0 + i + 1 = i + 1; omega
  · intro a0 a16' t0 t16 h0 h16 ht0 ht16
    rw [List.getElem?_append_left (by omega)] at h0
    rw [List.getElem?_append_right (by omega)] at h16
    simp only [hl16, Nat.sub_self, List.getElem?_cons_zero, Option.some.injEq] at h16
    subst h16
    have hf0 := (fault_results_get _ _ 0 t0 ht0).1
    have hf16 := (fault_results_get _ _ 16 t16 ht16).1
    have hz : initialize_system.page_faults = 0 := rfl
    rw [hz] at hf0 hf16
    obtain ⟨hv0, hfr0⟩ := hloaded 0 a0 h0
    have hmem0 : a0 ∈ l := List.getElem?_mem h0
    obtain ⟨f, hf, hfr, -, hmap⟩ := hI16.valid_pt _ (vpn_of_lt (hwl a0 hmem0)) hv0
    have hf0' : f = 0 := by omega
    subst hf0'
    rw [hfinal]
    refine ⟨by rw [hf0, hf16], ?_, ?_, ?_⟩
    · show (Function.update (evicted_table _) (vpn_of a16) _ (vpn_of a0)).valid = false
      rw [Function.update_noteq (hne16 a0 hmem0), evicted_table_apply hI16, if_pos]
      rw [hpf16]; exact ⟨le_refl _, hmap⟩
    · show (Function.update (evicted_table _) (vpn_of a16) _ (vpn_of a16)).valid = true
      rw [Function.update_same]
    · show (Function.update (evicted_table _) (vpn_of a16) _ (vpn_of a16)).frame_number = _
      rw [Function.update_same, hf0, hpf16]
  · intro i a t h1 h16 hi hti
    rw [List.getElem?_append_left (by omega)] at hi
    obtain ⟨hv, hfr⟩ := hloaded i a hi
    have hmem : a ∈ l := List.getElem?_mem hi
    have hft := (fault_results_get _ _ i t hti).1
    have hz : initialize_system.page_faults = 0 := rfl
    rw [hz, Nat.zero_add, Nat.mod_eq_of_lt h16] at hft
    rw [hfinal, fault_preserves_other hI16 (vpn_of_lt (hwl a hmem)) hv hfr
      (by rw [hpf16]; omega) (hne16 a hmem)]
    exact ⟨hv, by rw [hfr, hft]⟩

theorem C3_fifo_victim_is_first_loaded_witness :
    ([0, 256, 512, 768, 1024, 1280, 1536, 1792, 2048, 2304, 2560, 2816, 3072, 3328, 3584,
        3840, 4096].map vpn_of).Nodup ∧
    ∃ s ts, run initialize_system
        [0, 256, 512, 768, 1024, 1280, 1536, 1792, 2048, 2304, 2560, 2816, 3072, 3328, 3584,
          3840, 4096] = some (s, ts) ∧ ts.length = 17 ∧
      (∀ i t, ts[i]? = some t → t.state.page_faults = i + 1) := by
  refine ⟨by decide, ?_⟩
  obtain ⟨s, ts, h1, h2, h3, -, -⟩ := C3_fifo_victim_is_first_loaded
    [0, 256, 512, 768, 1024, 1280, 1536, 1792, 2048, 2304, 2560, 2816, 3072, 3328, 3584,
      3840, 4096] (by decide) (by decide) (by decide)
  exact ⟨s, ts, h1, h2, h3⟩

/-- C5: after every finite trace of in-width addresses, and after every
prefix of it, the number of frames marked used equals the number of valid
page-table entries. -/
theorem C5_used_frames_eq_valid_pages (trace : List Nat) (hw : ∀ a ∈ trace, a < 2 ^ 16) :
    (∃ s ts, run initialize_system trace = some (s, ts) ∧ used_frames s = valid_pages s) ∧
    ∀ k, ∃ s ts, run initialize_system (trace.take k) = some (s, ts) ∧
      used_frames s = valid_pages s := by
  constructor
  · obtain ⟨s, ts, hr, hI, -⟩ := run_inv inv_initialize_system trace hw
    exact ⟨s, ts, hr, used_eq_valid hI⟩
  · intro k
    obtain ⟨s, ts, hr, hI, -⟩ := run_inv inv_initialize_system (trace.take k)
      (fun a ha => hw a (List.mem_of_mem_take ha))
    exact ⟨s, ts, hr, used_eq_valid hI⟩

theorem C5_used_frames_eq_valid_pages_witness :
    (∀ a ∈ [0x0000, 0x0100, 0x0000, 0xFFFF], a < 2 ^ 16) ∧
    (∃ s ts, run initialize_system [0x0000, 0x0100, 0x0000, 0xFFFF] = some (s, ts) ∧
      used_frames s = valid_pages s) :=
  ⟨by decide,
    (C5_used_frames_eq_valid_pages [0x0000, 0x0100, 0x0000, 0xFFFF] (by decide)).1⟩

end NivelUnico

namespace Multinivel

set_option maxRecDepth 1000000 in
/-- C6 (where the code departs from it): the 17 addresses
`0x80000000 + 4096 * i` have 17 distinct pages numbered `2 ^ 19` and up. The
first 16 translations succeed and leave 16 used frames and 16 valid entries,
with page `0x80000` in frame 0. The 17th must evict that page: the directory
index re-derived from `0x80000 * PAGE_SIZE` in `int` arithmetic is `-512`, so
the write that should invalidate the victim's entry is outside the
directory and the run has no defined result. -/
theorem C6_eviction_of_high_page_undefined :
    (∃ s ts, run (initialize_system (fun _ _ => ⟨false, 0⟩))
      [
      2147483648, 2147487744, 2147491840, 2147495936, 2147500032, 2147504128, 2147508224,
      2147512320, 2147516416, 2147520512, 2147524608, 2147528704, 2147532800, 2147536896,
      2147540992, 2147545088
      ] = some (s, ts) ∧
      used_frames s = 16 ∧ valid_pages s = 16 ∧ s.page_faults = 16 ∧
      s.frame_to_vpn_map 0 = 524288 ∧ translate_address s 2147549184 = none) ∧
    old_pd_index_of 524288 = -512 ∧
    idx (old_pd_index_of 524288) NUM_PD_ENTRIES = none ∧
    run (initialize_system (fun _ _ => ⟨false, 0⟩))
      [
      2147483648, 2147487744, 2147491840, 2147495936, 2147500032, 2147504128, 2147508224,
      2147512320, 2147516416, 2147520512, 2147524608, 2147528704, 2147532800, 2147536896,
      2147540992, 2147545088, 2147549184
      ] = none := by
  refine ⟨⟨_, _, rfl, by decide, by decide, by decide, by decide,
    Option.isNone_iff_eq_none.mp (by decide)⟩, by decide, by decide,
    Option.isNone_iff_eq_none.mp (by decide)⟩

end Multinivel

namespace NivelUnico

/-- C7: in every reachable state and for every frame `f` below 16, `f` is
marked free exactly when no valid page-table entry has frame number `f`, and
when `f` is not free `frame_to_vpn_map[f]` is the one page whose valid
page-table entry has frame number `f`. -/
theorem C7_allocator_agrees_with_page_table (s : State) (hs : Reachable s) (f : Nat)
    (hf : f < 16) :
    (s.is_frame_free f = true ↔
      ¬ ∃ v, v < 256 ∧ (s.page_table v).valid = true ∧
        (s.page_table v).frame_number = (f : Int)) ∧
    (s.is_frame_free f = false →
      ∃ v : Nat, s.frame_to_vpn_map f = (v : Int) ∧ v < 256 ∧
        (s.page_table v).valid = true ∧ (s.page_table v).frame_number = (f : Int) ∧
        ∀ v', v' < 256 → (s.page_table v').valid = true →
          (s.page_table v').frame_number = (f : Int) → v' = v) := by
  have hI := reachable_inv hs
  have huniq : ∀ v v', v < 256 → v' < 256 → (s.page_table v).valid = true →
      (s.page_table v').valid = true →
      (s.page_table v).frame_number = (f : Int) →
      (s.page_table v').frame_number = (f : Int) → v' = v := by
    intro v v' hv hv' hval hval' hfr hfr'
    obtain ⟨f1, -, h1, -, hm1⟩ := hI.valid_pt v hv hval
    obtain ⟨f2, -, h2, -, hm2⟩ := hI.valid_pt v' hv' hval'
    have e1 : f1 = f := by omega
    have e2 : f2 = f := by omega
    subst e1; subst e2
    omega
  constructor
  · constructor
    · rintro hfree ⟨v, hv, hval, hfr⟩
      obtain ⟨f1, -, h1, hused, -⟩ := hI.valid_pt v hv hval
      have e1 : f1 = f := by omega
      subst e1
      rw [hfree] at hused
      exact absurd hused (by simp)
    · intro hno
      cases hfree : s.is_frame_free f
      · exfalso
        obtain ⟨v, hv, -, hval, hfr⟩ := hI.used_map f hf hfree
        exact hno ⟨v, hv, hval, hfr⟩
      · rfl
  · intro hused
    obtain ⟨v, hv, hmap, hval, hfr⟩ := hI.used_map f hf hused
    exact ⟨v, hmap, hv, hval, hfr, fun v' hv' hval' hfr' =>
      huniq v v' hv hv' hval hval' hfr hfr'⟩

set_option maxRecDepth 1000000 in
theorem C7_allocator_agrees_with_page_table_witness :
    ∃ s ts, run initialize_system [0x1234, 0x0100] = some (s, ts) ∧ Reachable s ∧ 1 < 16 ∧
      s.is_frame_free 1 = false ∧
      (s.is_frame_free 1 = true ↔
        ¬ ∃ v, v < 256 ∧ (s.page_table v).valid = true ∧
          (s.page_table v).frame_number = ((1 : Nat) : Int)) ∧
      (∃ v : Nat, s.frame_to_vpn_map 1 = (v : Int) ∧ v < 256 ∧
        (s.page_table v).valid = true ∧ (s.page_table v).frame_number = ((1 : Nat) : Int) ∧
        ∀ v', v' < 256 → (s.page_table v').valid = true →
          (s.page_table v').frame_number = ((1 : Nat) : Int) → v' = v) := by
  have h : ∃ s ts, run initialize_system [0x1234, 0x0100] = some (s, ts) ∧
      s.is_frame_free 1 = false := ⟨_, _, rfl, by decide⟩
  obtain ⟨s, ts, hr, hu⟩ := h
  have hs : Reachable s := ⟨[0x1234, 0x0100], by decide, ts, hr⟩
  have hc := C7_allocator_agrees_with_page_table s hs 1 (by decide)
  exact ⟨s, ts, hr, hs, by decide, hu, hc.1, hc.2 hu⟩

end NivelUnico

/-- In both simulators every call of `translate_address` that returns adds 1
to `total_accesses` and 1 to exactly one of `tlb_hits` and `tlb_misses`, so
that after a trace of `n` addresses that runs to completion from the initial
state `tlb_hits + tlb_misses = total_accesses = n`; and a trace runs to
completion when its addresses are below `2 ^ 16` (single-level) or below
`2 ^ 31` (two-level). -/
theorem counters_on_defined_runs :
    (∀ (s : NivelUnico.State) (a : Nat) (t : NivelUnico.Translation),
      NivelUnico.translate_address s a = some t →
        t.state.total_accesses = s.total_accesses + 1 ∧
        ((t.state.tlb_hits = s.tlb_hits + 1 ∧ t.state.tlb_misses = s.tlb_misses) ∨
         (t.state.tlb_hits = s.tlb_hits ∧ t.state.tlb_misses = s.tlb_misses + 1))) ∧
    (∀ (addrs : List Nat) (s : NivelUnico.State) (ts : List NivelUnico.Translation),
      NivelUnico.run NivelUnico.initialize_system addrs = some (s, ts) →
        s.tlb_hits + s.tlb_misses = s.total_accesses ∧ s.total_accesses = addrs.length) ∧
    (∀ addrs : List Nat, (∀ a ∈ addrs, a < 2 ^ 16) →
      ∃ s ts, NivelUnico.run NivelUnico.initialize_system addrs = some (s, ts)) ∧
    (∀ (s : Multinivel.State) (a : Nat) (t : Multinivel.Translation), a < 2 ^ 32 →
      Multinivel.translate_address s a = some t →
        t.state.total_accesses = s.total_accesses + 1 ∧
        ((t.state.tlb_hits = s.tlb_hits + 1 ∧ t.state.tlb_misses = s.tlb_misses) ∨
         (t.state.tlb_hits = s.tlb_hits ∧ t.state.tlb_misses = s.tlb_misses + 1))) ∧
    (∀ (memory : Nat → Nat → Multinivel.PageTableEntry) (addrs : List Nat)
      (s : Multinivel.State) (ts : List Multinivel.Translation),
      (∀ a ∈ addrs, a < 2 ^ 32) →
      Multinivel.run (Multinivel.initialize_system memory) addrs = some (s, ts) →
        s.tlb_hits + s.tlb_misses = s.total_accesses ∧ s.total_accesses = addrs.length) ∧
    (∀ (memory : Nat → Nat → Multinivel.PageTableEntry) (addrs : List Nat),
      (∀ a ∈ addrs, a < 2 ^ 31) →
      ∃ s ts, Multinivel.run (Multinivel.initialize_system memory) addrs = some (s, ts)) := by
  refine ⟨fun s a t h => NivelUnico.translate_counters h, ?_, ?_,
    fun s a t ha h => ⟨(Multinivel.ml_translate_frame ha h).1,
      (Multinivel.ml_translate_frame ha h).2.1⟩, ?_, ?_⟩
  · intro addrs s ts h
    have := NivelUnico.run_counters h
    have h0 : NivelUnico.initialize_system.total_accesses = 0 := rfl
    have h1 : NivelUnico.initialize_system.tlb_hits = 0 := rfl
    have h2 : NivelUnico.initialize_system.tlb_misses = 0 := rfl
    omega
  · intro addrs hw
    obtain ⟨s, ts, h, -, -⟩ := NivelUnico.run_inv NivelUnico.inv_initialize_system addrs hw
    exact ⟨s, ts, h⟩
  · intro memory addrs s ts hw h
    have := Multinivel.ml_run_counters hw h
    have h0 : (Multinivel.initialize_system memory).total_accesses = 0 := rfl
    have h1 : (Multinivel.initialize_system memory).tlb_hits = 0 := rfl
    have h2 : (Multinivel.initialize_system memory).tlb_misses = 0 := rfl
    omega
  · intro memory addrs hw
    obtain ⟨s, ts, h, -, -, -⟩ := Multinivel.ml_run_low
      (Multinivel.ml_inv_initialize_system memory) (Multinivel.ml_low_initialize_system memory)
      addrs hw
    exact ⟨s, ts, h⟩

theorem counters_on_defined_runs_example :
    (∃ s ts, NivelUnico.run NivelUnico.initialize_system [0, 256, 0, 65535] = some (s, ts) ∧
      s.tlb_hits + s.tlb_misses = s.total_accesses ∧ s.total_accesses = 4) ∧
    (∃ s ts, Multinivel.run (Multinivel.initialize_system (fun _ _ => ⟨false, 0⟩))
        [0, 4096, 0, 2147483647] = some (s, ts) ∧
      s.tlb_hits + s.tlb_misses = s.total_accesses ∧ s.total_accesses = 4) := by
  obtain ⟨-, h2, h3, -, h5, h6⟩ := counters_on_defined_runs
  constructor
  · obtain ⟨s, ts, h⟩ := h3 [0, 256, 0, 65535] (by decide)
    exact ⟨s, ts, h, h2 _ s ts h⟩
  · obtain ⟨s, ts, h⟩ := h6 (fun _ _ => ⟨false, 0⟩) [0, 4096, 0, 2147483647] (by decide)
    exact ⟨s, ts, h, h5 _ _ s ts (by decide) h⟩

namespace Multinivel

/-- C9: a second-level table is created exactly once per directory index.
From the initial state, translating any 32-bit address `a` makes exactly the
directory entry `pd_index(a)` valid, with one block allocated, exactly the
entry `pt_index(a)` of its table valid, and exactly one frame used;
translating next any `b` with the same directory index leaves one valid
directory entry and one block, the same directory entry, and `a`'s entry
valid with its frame. In general a defined translation leaves every valid
directory entry as it is (valid, same table) and makes an invalid entry valid
only when it is the entry of the translated address and the translation
page-faults; and in every run the number of blocks allocated equals the
number of valid directory entries. -/
theorem C9_table_created_once :
    (∀ (memory : Nat → Nat → PageTableEntry) (a : Nat), a < 2 ^ 32 →
      ∃ t, translate_address (initialize_system memory) a = some t ∧
        (∀ d, d < 1024 → ((t.state.page_directory d).valid = true ↔ d = pd_index_of a)) ∧
        valid_directory_entries t.state = 1 ∧ t.state.allocated = 1 ∧
        (∀ j, j < 1024 →
          ((t.state.heap (table_ptr t.state (pd_index_of a)) j).valid = true ↔
            j = pt_index_of a)) ∧
        valid_in_table t.state (pd_index_of a) = 1 ∧
        (∀ f, f < 16 → (t.state.is_frame_free f = false ↔ f = 0)) ∧
        used_frames t.state = 1 ∧
        ∀ b, b < 2 ^ 32 → pd_index_of b = pd_index_of a →
          ∃ t2, translate_address t.state b = some t2 ∧
            valid_directory_entries t2.state = 1 ∧ t2.state.allocated = 1 ∧
            t2.state.page_directory (pd_index_of a) = t.state.page_directory (pd_index_of a) ∧
            (t2.state.heap (table_ptr t2.state (pd_index_of a)) (pt_index_of a)).valid = true ∧
            (t2.state.heap (table_ptr t2.state (pd_index_of a)) (pt_index_of a)).frame_number =
              t.frame_number) ∧
    (∀ (s : State) (a : Nat) (t : Translation), a < 2 ^ 32 →
      translate_address s a = some t → ∀ d,
        ((s.page_directory d).valid = true → t.state.page_directory d = s.page_directory d) ∧
        ((s.page_directory d).valid = false → (t.state.page_directory d).valid = true →
          d = pd_index_of a ∧ t.state.page_faults = s.page_faults + 1 ∧
          (t.state.page_directory d).page_table = some s.allocated)) ∧
    (∀ (memory : Nat → Nat → PageTableEntry) (addrs : List Nat) (s : State)
      (ts : List Translation), (∀ a ∈ addrs, a < 2 ^ 32) →
      run (initialize_system memory) addrs = some (s, ts) →
        valid_directory_entries s = s.allocated) := by
  refine ⟨?_, fun s a t ha h d => ml_dir_entry_step ha h d,
    fun memory addrs s ts hw h => ml_dir_count_run hw h (ml_dir_count_init memory)⟩
  intro memory a ha
  obtain ⟨ht, hI1, hdir, halloc, hpf, hptr, hent, hoth, hfree⟩ := ml_first_translation memory ha
  have hd0 := ml_pd_index_of_lt ha
  have hj0 := ml_pt_index_of_lt a
  have hdirv : ∀ d, d < 1024 →
      (((after_fault (initialize_system memory) a).page_directory d).valid = true ↔
        d = pd_index_of a) := by
    intro d _
    rw [hdir, Function.update_apply]
    split_ifs with h
    · simp [h]
    · simp [h]
  have hcount : valid_directory_entries (after_fault (initialize_system memory) a) = 1 :=
    countP_range_single _ _ (pd_index_of a) (by simpa using hd0)
      (fun i hi => hdirv i (by simpa using hi))
  have hentv : ∀ j, j < 1024 →
      (((after_fault (initialize_system memory) a).heap
        (table_ptr (after_fault (initialize_system memory) a) (pd_index_of a)) j).valid = true ↔
        j = pt_index_of a) := by
    intro j _
    rw [hptr]
    by_cases h : j = pt_index_of a
    · rw [h, hent]; simp
    · rw [hoth j h]; simp [h]
  refine ⟨_, ht, hdirv, hcount, halloc, hentv, ?_, ?_, ?_, ?_⟩
  · unfold valid_in_table
    rw [(hdirv _ hd0).mpr rfl, if_pos rfl, hdir, Function.update_same]
    exact countP_range_single _ _ (pt_index_of a) (by simpa using hj0)
      (fun i hi => by
        have := hentv i (by simpa using hi)
        rw [hptr] at this
        exact this)
  · intro f _
    show (after_fault (initialize_system memory) a).is_frame_free f = false ↔ _
    rw [hfree, Function.update_apply]
    split_ifs with h
    · simp [h]
    · simp [h]
  · unfold used_frames
    apply countP_range_single _ _ 0 (by simp)
    intro f _
    show (!(after_fault (initialize_system memory) a).is_frame_free f) = true ↔ _
    rw [hfree, Function.update_apply]
    split_ifs with h
    · simp [h]
    · simp [h]
  · intro b hb hpd
    have hdvb : ((after_fault (initialize_system memory) a).page_directory
        (pd_index_of b)).valid = true := by rw [hpd]; exact (hdirv _ hd0).mpr rfl
    have hvalb : ((after_fault (initialize_system memory) a).heap
        (table_ptr (after_fault (initialize_system memory) a) (pd_index_of b))
        (pt_index_of a)).valid = true := by rw [hpd]; exact (hentv _ hj0).mpr rfl
    obtain ⟨t2, ht2, h1, h2, h3⟩ :=
      ml_translation_same_dir hI1 (by rw [hpf]; norm_num) hb hdvb hj0 hvalb
    rw [hpd] at h3
    have hptr2 : table_ptr t2.state (pd_index_of a) =
        table_ptr (after_fault (initialize_system memory) a) (pd_index_of a) := by
      unfold table_ptr; rw [h1]
    refine ⟨t2, ht2, ?_, by rw [h2, halloc], by rw [h1], ?_, ?_⟩
    · unfold valid_directory_entries at hcount ⊢
      rw [h1]; exact hcount
    · rw [hptr2, h3]; exact (hentv _ hj0).mpr rfl
    · rw [hptr2, h3, hptr, hent]

theorem C9_table_created_once_witness :
    ∃ t, translate_address (initialize_system (fun _ _ => ⟨false, 0⟩)) 0x00C03004 = some t ∧
      valid_directory_entries t.state = 1 ∧ t.state.allocated = 1 ∧
      valid_in_table t.state (pd_index_of 0x00C03004) = 1 ∧ used_frames t.state = 1 ∧
      ∃ t2, translate_address t.state 0x00C05008 = some t2 ∧
        valid_directory_entries t2.state = 1 ∧ t2.state.allocated = 1 := by
  obtain ⟨t, h1, -, h2, h3, -, h4, -, h5, h6⟩ :=
    C9_table_created_once.1 (fun _ _ => ⟨false, 0⟩) 0x00C03004 (by norm_num)
  obtain ⟨t2, g1, g2, g3, -⟩ := h6 0x00C05008 (by norm_num) (by decide)
  exact ⟨t, h1, h2, h3, h4, h5, t2, g1, g2, g3⟩

end Multinivel

namespace NivelUnico

/-- C10: in every reachable state one translation of an in-width address
adds to `total_access_time` exactly 101 on a TLB hit, exactly 201 on a TLB
miss whose page-table entry is valid, and exactly 50201 on a page fault; the
three cases are told apart by the TLB probe and the page-table entry, and are
matched by the counters. -/
theorem C10_access_time_per_translation (s : State) (hs : Reachable s) (a : Nat)
    (ha : a < 2 ^ 16) :
    ∃ t, translate_address s a = some t ∧
      (tlb_lookup s.tlb (vpn_of a : Nat) ≠ none →
        t.state.total_access_time = s.total_access_time + 101 ∧
        t.state.tlb_hits = s.tlb_hits + 1 ∧ t.state.tlb_misses = s.tlb_misses ∧
        t.state.page_faults = s.page_faults) ∧
      (tlb_lookup s.tlb (vpn_of a : Nat) = none → (s.page_table (vpn_of a)).valid = true →
        t.state.total_access_time = s.total_access_time + 201 ∧
        t.state.tlb_hits = s.tlb_hits ∧ t.state.tlb_misses = s.tlb_misses + 1 ∧
        t.state.page_faults = s.page_faults) ∧
      (tlb_lookup s.tlb (vpn_of a : Nat) = none → (s.page_table (vpn_of a)).valid = false →
        t.state.total_access_time = s.total_access_time + 50201 ∧
        t.state.tlb_hits = s.tlb_hits ∧ t.state.tlb_misses = s.tlb_misses + 1 ∧
        t.state.page_faults = s.page_faults + 1) ∧
      (t.state.total_access_time = s.total_access_time + 101 ∨
        t.state.total_access_time = s.total_access_time + 201 ∨
        t.state.total_access_time = s.total_access_time + 50201) := by
  have t1 : (after_hit s).total_access_time = s.total_access_time + 101 := by
    show s.total_access_time + 1 + 100 = s.total_access_time + 101
    omega
  have t2 : (after_table_hit s (vpn_of a)).total_access_time = s.total_access_time + 201 := by
    show s.total_access_time + 1 + 100 + 100 = s.total_access_time + 201
    omega
  have t3 : (after_fault s (vpn_of a)).total_access_time = s.total_access_time + 50201 := by
    show s.total_access_time + 1 + 100 + 50000 + 100 = s.total_access_time + 50201
    omega
  rcases translate_cases (reachable_inv hs) ha with ⟨fr, hl, -, -, h⟩ | ⟨hl, hv, h⟩ | ⟨hl, hv, h⟩
  · refine ⟨_, h, fun _ => ⟨t1, rfl, rfl, rfl⟩, ?_, ?_, Or.inl t1⟩
    · intro hn; rw [hl] at hn; exact absurd hn (by simp)
    · intro hn; rw [hl] at hn; exact absurd hn (by simp)
  · refine ⟨_, h, fun hn => absurd hl hn, fun _ _ => ⟨t2, rfl, rfl, rfl⟩, ?_,
      Or.inr (Or.inl t2)⟩
    intro _ hv'; rw [hv] at hv'; exact absurd hv' (by simp)
  · refine ⟨_, h, fun hn => absurd hl hn, ?_, fun _ _ => ⟨t3, rfl, rfl, rfl⟩,
      Or.inr (Or.inr t3)⟩
    intro _ hv'; rw [hv] at hv'; exact absurd hv' (by simp)

theorem C10_access_time_per_translation_witness :
    Reachable initialize_system ∧ 0x0100 < 2 ^ 16 ∧
    ∃ t, translate_address initialize_system 0x0100 = some t ∧
      (t.state.total_access_time = initialize_system.total_access_time + 101 ∨
        t.state.total_access_time = initialize_system.total_access_time + 201 ∨
        t.state.total_access_time = initialize_system.total_access_time + 50201) := by
  refine ⟨reachable_init, by norm_num, ?_⟩
  obtain ⟨t, h, -, -, -, h4⟩ :=
    C10_access_time_per_translation initialize_system reachable_init 0x0100 (by norm_num)
  exact ⟨t, h, h4⟩

end NivelUnico

namespace Multinivel

/-- In every reachable state of the two-level program and for every
32-bit address, one call of `translate_address` adds to `total_access_time`
exactly 101 on a TLB hit and 301 on a TLB miss with directory entry and
page-table entry valid, and these calls always return; a page fault that
returns adds 50201 when the directory entry is invalid and 50301 when the
directory entry is valid and the page-table entry invalid, and a page fault
returns whenever a frame is free or the page in the victim frame is numbered
below `2 ^ 19`. -/
theorem ml_access_time_per_translation (s : State) (hs : Reachable s) (a : Nat)
    (ha : a < 2 ^ 32) :
    (tlb_lookup s.tlb (vpn_of a : Nat) ≠ none →
      ∃ t, translate_address s a = some t ∧
        t.state.total_access_time = s.total_access_time + 101 ∧
        t.state.tlb_hits = s.tlb_hits + 1 ∧ t.state.tlb_misses = s.tlb_misses ∧
        t.state.page_faults = s.page_faults) ∧
    (tlb_lookup s.tlb (vpn_of a : Nat) = none →
      (s.page_directory (pd_index_of a)).valid = true →
      (s.heap (table_ptr s (pd_index_of a)) (pt_index_of a)).valid = true →
      ∃ t, translate_address s a = some t ∧
        t.state.total_access_time = s.total_access_time + 301 ∧
        t.state.tlb_hits = s.tlb_hits ∧ t.state.tlb_misses = s.tlb_misses + 1 ∧
        t.state.page_faults = s.page_faults) ∧
    (tlb_lookup s.tlb (vpn_of a : Nat) = none →
      (s.page_directory (pd_index_of a)).valid = false →
      ∀ t, translate_address s a = some t →
        t.state.total_access_time = s.total_access_time + 50201 ∧
        t.state.tlb_hits = s.tlb_hits ∧ t.state.tlb_misses = s.tlb_misses + 1 ∧
        t.state.page_faults = s.page_faults + 1) ∧
    (tlb_lookup s.tlb (vpn_of a : Nat) = none →
      (s.page_directory (pd_index_of a)).valid = true →
      (s.heap (table_ptr s (pd_index_of a)) (pt_index_of a)).valid = false →
      ∀ t, translate_address s a = some t →
        t.state.total_access_time = s.total_access_time + 50301 ∧
        t.state.tlb_hits = s.tlb_hits ∧ t.state.tlb_misses = s.tlb_misses + 1 ∧
        t.state.page_faults = s.page_faults + 1) ∧
    (tlb_lookup s.tlb (vpn_of a : Nat) = none →
      ((s.page_directory (pd_index_of a)).valid = true →
        (s.heap (table_ptr s (pd_index_of a)) (pt_index_of a)).valid = false) →
      (s.page_faults < 16 ∨ s.frame_to_vpn_map (s.page_faults % 16) < 2 ^ 19) →
      ∃ t, translate_address s a = some t) := by
  have hI := ml_reachable_inv hs
  have t1 : (after_hit s).total_access_time = s.total_access_time + 101 := by
    show s.total_access_time + 1 + 100 = s.total_access_time + 101
    omega
  have t2 : ∀ v fr, (after_table_hit s v fr).total_access_time = s.total_access_time + 301 := by
    intro v fr
    show s.total_access_time + 1 + 100 + 100 + 100 = s.total_access_time + 301
    omega
  have t3 := ml_after_fault_time s a
  rcases ml_translate_cases hI ha with ⟨fr, hl, -, -, h⟩ | ⟨hl, hdv, hv, -, h⟩ |
      ⟨hl, hv, -, h1, h2⟩
  · refine ⟨fun _ => ⟨_, h, t1, rfl, rfl, rfl⟩, ?_, ?_, ?_, ?_⟩ <;>
      (intro hn; rw [hl] at hn; exact absurd hn (by simp))
  · refine ⟨fun hn => absurd hl hn, fun _ _ _ => ⟨_, h, t2 _ _, rfl, rfl, rfl⟩, ?_, ?_, ?_⟩
    · intro _ hd; rw [hdv] at hd; exact absurd hd (by simp)
    · intro _ _ hv'; rw [hv] at hv'; exact absurd hv' (by simp)
    · intro _ hv' _; have := hv' hdv; rw [hv] at this; exact absurd this (by simp)
  · have hres : ∀ t, translate_address s a = some t →
        t.state = after_fault s a := by
      intro t ht
      by_cases hlow : ¬ s.page_faults < 16 → s.frame_to_vpn_map (s.page_faults % 16) < 2 ^ 19
      · rw [h1 hlow] at ht; simp only [Option.some.injEq] at ht; rw [← ht]
      · rw [h2 hlow] at ht; exact absurd ht (by simp)
    refine ⟨fun hn => absurd hl hn, ?_, ?_, ?_, ?_⟩
    · intro _ hdv hv'; rw [hv hdv] at hv'; exact absurd hv' (by simp)
    · intro _ hdv t ht
      rw [hres t ht, t3, hdv]
      exact ⟨by simp, rfl, rfl, rfl⟩
    · intro _ hdv _ t ht
      rw [hres t ht, t3, hdv]
      exact ⟨by simp, rfl, rfl, rfl⟩
    · intro _ _ hlow
      exact ⟨_, h1 (fun hpf => by rcases hlow with h | h; exact absurd h hpf; exact h)⟩

theorem ml_access_time_per_translation_example :
    Reachable (initialize_system (fun _ _ => ⟨false, 0⟩)) ∧ 0x00C03004 < 2 ^ 32 ∧
    ∃ t, translate_address (initialize_system (fun _ _ => ⟨false, 0⟩)) 0x00C03004 = some t ∧
      t.state.total_access_time = 50201 := by
  refine ⟨ml_reachable_init _, by norm_num, ?_⟩
  obtain ⟨-, -, h3, -, h5⟩ := ml_access_time_per_translation
    (initialize_system (fun _ _ => ⟨false, 0⟩)) (ml_reachable_init _) 0x00C03004 (by norm_num)
  have hl : tlb_lookup (initialize_system (fun _ _ => ⟨false, 0⟩)).tlb
      (vpn_of 0x00C03004 : Nat) = none := by decide
  obtain ⟨t, ht⟩ := h5 hl (fun h => absurd h (by decide)) (Or.inl (by decide))
  exact ⟨t, ht, by have := (h3 hl (by decide) t ht).1; simpa using this⟩

set_option maxRecDepth 1000000 in
/-- C11 (where the code departs from it): in the state reached by the 16
addresses `0x80000000 + 4096 * i` no frame is free and the victim frame holds
page `0x80000`. Address `0x80010000` misses in the TLB with its directory
entry valid and its page-table entry invalid (the 50301 path), and address 0
misses in the TLB with its directory entry invalid (the 50201 path); both
page faults must evict page `0x80000`, index the directory at `-512`, and the
call has no defined result, so no amount is added to `total_access_time`. -/
theorem C11_page_fault_time_undefined_after_high_pages :
    ∃ s ts, run (initialize_system (fun _ _ => ⟨false, 0⟩))
      [
      2147483648, 2147487744, 2147491840, 2147495936, 2147500032, 2147504128, 2147508224,
      2147512320, 2147516416, 2147520512, 2147524608, 2147528704, 2147532800, 2147536896,
      2147540992, 2147545088
      ] = some (s, ts) ∧
      Reachable s ∧ 2147549184 < 2 ^ 32 ∧
      tlb_lookup s.tlb (vpn_of 2147549184 : Nat) = none ∧
      (s.page_directory (pd_index_of 2147549184)).valid = true ∧
      (s.heap (table_ptr s (pd_index_of 2147549184)) (pt_index_of 2147549184)).valid = false ∧
      translate_address s 2147549184 = none ∧
      tlb_lookup s.tlb (vpn_of 0 : Nat) = none ∧
      (s.page_directory (pd_index_of 0)).valid = false ∧
      translate_address s 0 = none :=
  ⟨_, _, rfl, ⟨fun _ _ => ⟨false, 0⟩,
    [
    2147483648, 2147487744, 2147491840, 2147495936, 2147500032, 2147504128, 2147508224,
    2147512320, 2147516416, 2147520512, 2147524608, 2147528704, 2147532800, 2147536896,
    2147540992, 2147545088
    ], by decide, _, rfl⟩, by norm_num, by decide, by decide,
    by decide, Option.isNone_iff_eq_none.mp (by decide), by decide, by decide,
    Option.isNone_iff_eq_none.mp (by decide)⟩

end Multinivel

namespace NivelUnico

/-- C12 (where the code departs from it): the address 65536 is outside the
16-bit width. Truncation to the width would give page 0, but
`translate_address` computes `vpn = virtual_address >> OFFSET_BITS = 256`
without a mask, which is not an index of `page_table`, and the translation
has no defined result. -/
theorem C12_no_truncation_beyond_width :
    65536 < 2 ^ 32 ∧ vpn_of 65536 = 256 ∧ (65536 % 2 ^ 16) >>> OFFSET_BITS = 0 ∧
    ¬ vpn_of 65536 < NUM_VIRTUAL_PAGES ∧
    idx ((vpn_of 65536 : Nat) : Int) NUM_VIRTUAL_PAGES = none ∧
    translate_address initialize_system 65536 = none :=
  ⟨by norm_num, by decide, by decide, by decide, by decide,
    Option.isNone_iff_eq_none.mp (by decide)⟩

end NivelUnico

/-- C13: in both simulators, in every state reached from `initialize_system`
by a run, no page number occurs in two distinct valid TLB slots; and runs of
in-width addresses (below `2 ^ 16`, and below `2 ^ 31` for the two-level
program) are reached. -/
theorem C13_tlb_no_duplicate_vpn :
    (∀ (addrs : List Nat) (s : NivelUnico.State) (ts : List NivelUnico.Translation),
      NivelUnico.run NivelUnico.initialize_system addrs = some (s, ts) →
      ∀ i j, i < 4 → j < 4 → i ≠ j →
        ¬ ((s.tlb i).valid = true ∧ (s.tlb j).valid = true ∧ (s.tlb i).vpn = (s.tlb j).vpn)) ∧
    (∀ addrs : List Nat, (∀ a ∈ addrs, a < 2 ^ 16) →
      ∃ s ts, NivelUnico.run NivelUnico.initialize_system addrs = some (s, ts)) ∧
    (∀ (memory : Nat → Nat → Multinivel.PageTableEntry) (addrs : List Nat)
      (s : Multinivel.State) (ts : List Multinivel.Translation),
      (∀ a ∈ addrs, a < 2 ^ 32) →
      Multinivel.run (Multinivel.initialize_system memory) addrs = some (s, ts) →
      ∀ i j, i < 4 → j < 4 → i ≠ j →
        ¬ ((s.tlb i).valid = true ∧ (s.tlb j).valid = true ∧ (s.tlb i).vpn = (s.tlb j).vpn)) ∧
    (∀ (memory : Nat → Nat → Multinivel.PageTableEntry) (addrs : List Nat),
      (∀ a ∈ addrs, a < 2 ^ 31) →
      ∃ s ts, Multinivel.run (Multinivel.initialize_system memory) addrs = some (s, ts)) := by
  refine ⟨?_, ?_, ?_, ?_⟩
  · intro addrs s ts h i j hi hj hne hc
    have hI := (NivelUnico.run_defined NivelUnico.inv_initialize_system h).1
    exact hne (hI.tlb_nodup i j hi hj hc.1 hc.2.1 hc.2.2)
  · intro addrs hw
    obtain ⟨s, ts, h, -, -⟩ := NivelUnico.run_inv NivelUnico.inv_initialize_system addrs hw
    exact ⟨s, ts, h⟩
  · intro memory addrs s ts hw h i j hi hj hne hc
    have hI := Multinivel.ml_run_inv (Multinivel.ml_inv_initialize_system memory) hw h
    exact hne (hI.tlb_nodup i j hi hj hc.1 hc.2.1 hc.2.2)
  · intro memory addrs hw
    obtain ⟨s, ts, h, -, -, -⟩ := Multinivel.ml_run_low
      (Multinivel.ml_inv_initialize_system memory) (Multinivel.ml_low_initialize_system memory)
      addrs hw
    exact ⟨s, ts, h⟩

theorem C13_tlb_no_duplicate_vpn_witness :
    (∃ s ts, NivelUnico.run NivelUnico.initialize_system [0, 256, 0, 512, 256] = some (s, ts) ∧
      ¬ ((s.tlb 0).valid = true ∧ (s.tlb 1).valid = true ∧ (s.tlb 0).vpn = (s.tlb 1).vpn)) ∧
    (∃ s ts, Multinivel.run (Multinivel.initialize_system (fun _ _ => ⟨false, 0⟩))
        [0, 4096, 0, 8192, 4096] = some (s, ts) ∧
      ¬ ((s.tlb 0).valid = true ∧ (s.tlb 1).valid = true ∧ (s.tlb 0).vpn = (s.tlb 1).vpn)) := by
  obtain ⟨h1, h2, h3, h4⟩ := C13_tlb_no_duplicate_vpn
  constructor
  · obtain ⟨s, ts, h⟩ := h2 [0, 256, 0, 512, 256] (by decide)
    exact ⟨s, ts, h, h1 _ s ts h 0 1 (by decide) (by decide) (by decide)⟩
  · obtain ⟨s, ts, h⟩ := h4 (fun _ _ => ⟨false, 0⟩) [0, 4096, 0, 8192, 4096] (by decide)
    exact ⟨s, ts, h, h3 _ _ s ts (by decide) h 0 1 (by decide) (by decide) (by decide)⟩

/-- In both simulators the frame number `translate_address` composes the
physical address from lies in `[0, 16)` on every path, so that
`physical_address = frame * PAGE_SIZE + offset < PHYSICAL_MEMORY_SIZE`.
Single-level: every reachable state and address below `2 ^ 16`. Two-level:
every reachable state, 32-bit address and translation that returns, and a
translation returns when a frame is free or the victim's page is numbered
below `2 ^ 19`. -/
theorem frame_number_in_range_when_defined :
    (∀ (s : NivelUnico.State), NivelUnico.Reachable s → ∀ a : Nat, a < 2 ^ 16 →
      ∃ t, NivelUnico.translate_address s a = some t ∧
        0 ≤ t.frame_number ∧ t.frame_number < (NivelUnico.NUM_PHYSICAL_FRAMES : Int) ∧
        t.physical_address =
          t.frame_number.toNat * NivelUnico.PAGE_SIZE + NivelUnico.offset_of a ∧
        t.physical_address < NivelUnico.PHYSICAL_MEMORY_SIZE) ∧
    (∀ (s : Multinivel.State), Multinivel.Reachable s → ∀ a : Nat, a < 2 ^ 32 →
      (∀ t, Multinivel.translate_address s a = some t →
        0 ≤ t.frame_number ∧ t.frame_number < (Multinivel.NUM_PHYSICAL_FRAMES : Int) ∧
        t.physical_address =
          t.frame_number.toNat * Multinivel.PAGE_SIZE + Multinivel.offset_of a ∧
        t.physical_address < Multinivel.PHYSICAL_MEMORY_SIZE) ∧
      ((s.page_faults < 16 ∨ s.frame_to_vpn_map (s.page_faults % 16) < 2 ^ 19) →
        ∃ t, Multinivel.translate_address s a = some t)) := by
  constructor
  · intro s hs a ha
    obtain ⟨t, h, h0, h1, h2, h3⟩ :=
      NivelUnico.translate_frame_range (NivelUnico.reachable_inv hs) ha
    exact ⟨t, h, h0, by simpa using h1, by simpa using h2, by simpa using h3⟩
  · intro s hs a ha
    refine ⟨?_, Multinivel.ml_translate_defined (Multinivel.ml_reachable_inv hs) ha⟩
    intro t ht
    obtain ⟨h0, h1, h2, h3⟩ :=
      Multinivel.ml_translate_frame_range (Multinivel.ml_reachable_inv hs) ha ht
    exact ⟨h0, by simpa using h1, by simpa using h2, by simpa using h3⟩

theorem frame_number_in_range_when_defined_example :
    (∃ t, NivelUnico.translate_address NivelUnico.initialize_system 0x1234 = some t ∧
        0 ≤ t.frame_number ∧ t.frame_number < (NivelUnico.NUM_PHYSICAL_FRAMES : Int)) ∧
    (∃ t, Multinivel.translate_address
        (Multinivel.initialize_system (fun _ _ => ⟨false, 0⟩)) 0x12345678 = some t ∧
        0 ≤ t.frame_number ∧ t.frame_number < (Multinivel.NUM_PHYSICAL_FRAMES : Int)) := by
  obtain ⟨h1, h2⟩ := frame_number_in_range_when_defined
  constructor
  · obtain ⟨t, h, h0, h1', -⟩ := h1 _ NivelUnico.reachable_init 0x1234 (by norm_num)
    exact ⟨t, h, h0, h1'⟩
  · obtain ⟨g1, g2⟩ := h2 _ (Multinivel.ml_reachable_init (fun _ _ => ⟨false, 0⟩)) 0x12345678
      (by norm_num)
    obtain ⟨t, ht⟩ := g2 (Or.inl (by decide))
    exact ⟨t, ht, (g1 t ht).1, (g1 t ht).2.1⟩

namespace Multinivel

set_option maxRecDepth 1000000 in
/-- C14 (where the code departs from it): in the state reached by the 16
addresses `0x80000000 + 4096 * i`, a translation of the in-width address
`0x80010000` page-faults with no free frame, must evict page `0x80000` from
frame 0 and indexes the directory at `-512`: the call has no defined result,
so no physical address is composed. In the same state the address
`0x8000F000`, whose page is in the TLB, is translated with frame 15. -/
theorem C14_no_physical_address_after_high_pages :
    ∃ s ts, run (initialize_system (fun _ _ => ⟨false, 0⟩))
      [
      2147483648, 2147487744, 2147491840, 2147495936, 2147500032, 2147504128, 2147508224,
      2147512320, 2147516416, 2147520512, 2147524608, 2147528704, 2147532800, 2147536896,
      2147540992, 2147545088
      ] = some (s, ts) ∧
      Reachable s ∧ 2147549184 < 2 ^ 32 ∧
      find_free_frame s.is_frame_free = -1 ∧
      translate_address s 2147549184 = none ∧
      (translate_address s 2147545088).map (fun t => (t.frame_number, t.physical_address)) =
        some (15, 15 * 4096) :=
  ⟨_, _, rfl, ⟨fun _ _ => ⟨false, 0⟩,
    [
    2147483648, 2147487744, 2147491840, 2147495936, 2147500032, 2147504128, 2147508224,
    2147512320, 2147516416, 2147520512, 2147524608, 2147528704, 2147532800, 2147536896,
    2147540992, 2147545088
    ], by decide, _, rfl⟩, by norm_num, by decide,
    Option.isNone_iff_eq_none.mp (by decide), by decide⟩

end Multinivel

/-- C15: in both simulators, for every state whose `tlb_victim_entry_ptr` is
`p` in `[0, 4)` and every `(vpn, frame)`, `update_tlb(vpn, frame)` sets slot
`p` to `{valid, vpn, frame}`, leaves every other slot as it was (also a slot
that already holds `vpn`, which then occurs twice), and advances the pointer
to `(p + 1) mod 4`. -/
theorem C15_update_tlb_round_robin :
    (∀ (s : NivelUnico.State) (vpn frame : Int),
      0 ≤ s.tlb_victim_entry_ptr → s.tlb_victim_entry_ptr < 4 →
      ∃ s', NivelUnico.update_tlb s vpn frame = some s' ∧
        s'.tlb s.tlb_victim_entry_ptr.toNat = ⟨true, vpn, frame⟩ ∧
        (∀ i, i ≠ s.tlb_victim_entry_ptr.toNat → s'.tlb i = s.tlb i) ∧
        s'.tlb_victim_entry_ptr = (s.tlb_victim_entry_ptr + 1) % 4 ∧
        (∀ j, j ≠ s.tlb_victim_entry_ptr.toNat → (s.tlb j).valid = true →
          (s.tlb j).vpn = vpn →
          (s'.tlb j).valid = true ∧ (s'.tlb j).vpn = vpn ∧
          (s'.tlb s.tlb_victim_entry_ptr.toNat).valid = true ∧
          (s'.tlb s.tlb_victim_entry_ptr.toNat).vpn = vpn)) ∧
    (∀ (s : Multinivel.State) (vpn frame : Int),
      0 ≤ s.tlb_victim_entry_ptr → s.tlb_victim_entry_ptr < 4 →
      ∃ s', Multinivel.update_tlb s vpn frame = some s' ∧
        s'.tlb s.tlb_victim_entry_ptr.toNat = ⟨true, vpn, frame⟩ ∧
        (∀ i, i ≠ s.tlb_victim_entry_ptr.toNat → s'.tlb i = s.tlb i) ∧
        s'.tlb_victim_entry_ptr = (s.tlb_victim_entry_ptr + 1) % 4 ∧
        (∀ j, j ≠ s.tlb_victim_entry_ptr.toNat → (s.tlb j).valid = true →
          (s.tlb j).vpn = vpn →
          (s'.tlb j).valid = true ∧ (s'.tlb j).vpn = vpn ∧
          (s'.tlb s.tlb_victim_entry_ptr.toNat).valid = true ∧
          (s'.tlb s.tlb_victim_entry_ptr.toNat).vpn = vpn)) := by
  constructor
  · intro s vpn frame h0 h1
    refine ⟨_, NivelUnico.update_tlb_eq ⟨h0, h1⟩ vpn frame, ?_, ?_, rfl, ?_⟩
    · show Function.update s.tlb _ _ _ = _
      rw [Function.update_same]
    · intro i hi
      show Function.update s.tlb _ _ i = _
      rw [Function.update_noteq hi]
    · intro j hj hv hvpn
      have e1 : Function.update s.tlb s.tlb_victim_entry_ptr.toNat ⟨true, vpn, frame⟩ j =
          s.tlb j := Function.update_noteq hj _ _
      have e2 : Function.update s.tlb s.tlb_victim_entry_ptr.toNat ⟨true, vpn, frame⟩
          s.tlb_victim_entry_ptr.toNat = ⟨true, vpn, frame⟩ := Function.update_same _ _ _
      show (Function.update s.tlb _ _ j).valid = true ∧ (Function.update s.tlb _ _ j).vpn = vpn ∧
        (Function.update s.tlb _ _ _).valid = true ∧ (Function.update s.tlb _ _ _).vpn = vpn
      rw [e1, e2]
      exact ⟨hv, hvpn, rfl, rfl⟩
  · intro s vpn frame h0 h1
    refine ⟨_, Multinivel.ml_update_tlb_eq ⟨h0, h1⟩ vpn frame, ?_, ?_, rfl, ?_⟩
    · show Function.update s.tlb _ _ _ = _
      rw [Function.update_same]
    · intro i hi
      show Function.update s.tlb _ _ i = _
      rw [Function.update_noteq hi]
    · intro j hj hv hvpn
      have e1 : Function.update s.tlb s.tlb_victim_entry_ptr.toNat ⟨true, vpn, frame⟩ j =
          s.tlb j := Function.update_noteq hj _ _
      have e2 : Function.update s.tlb s.tlb_victim_entry_ptr.toNat ⟨true, vpn, frame⟩
          s.tlb_victim_entry_ptr.toNat = ⟨true, vpn, frame⟩ := Function.update_same _ _ _
      show (Function.update s.tlb _ _ j).valid = true ∧ (Function.update s.tlb _ _ j).vpn = vpn ∧
        (Function.update s.tlb _ _ _).valid = true ∧ (Function.update s.tlb _ _ _).vpn = vpn
      rw [e1, e2]
      exact ⟨hv, hvpn, rfl, rfl⟩

theorem C15_update_tlb_round_robin_witness :
    (∃ s', NivelUnico.update_tlb NivelUnico.initialize_system 7 3 = some s' ∧
      s'.tlb 0 = ⟨true, 7, 3⟩ ∧ s'.tlb_victim_entry_ptr = 1) ∧
    (∃ s', Multinivel.update_tlb (Multinivel.initialize_system (fun _ _ => ⟨false, 0⟩)) 7 3
        = some s' ∧
      s'.tlb 0 = ⟨true, 7, 3⟩ ∧ s'.tlb_victim_entry_ptr = 1) := by
  obtain ⟨h1, h2⟩ := C15_update_tlb_round_robin
  constructor
  · obtain ⟨s', h, g1, -, g3, -⟩ := h1 NivelUnico.initialize_system 7 3 (by decide) (by decide)
    exact ⟨s', h, g1, g3⟩
  · obtain ⟨s', h, g1, -, g3, -⟩ :=
      h2 (Multinivel.initialize_system (fun _ _ => ⟨false, 0⟩)) 7 3 (by decide) (by decide)
    exact ⟨s', h, g1, g3⟩

namespace Multinivel

set_option maxRecDepth 1000000 in
/-- C16 (where the code departs from it): for the page `0x80000` of the
address `0x80000000`, `translate_address` decodes `pd_index = 512` and
`pt_index = 0`, but the eviction path computes `old_vpn * PAGE_SIZE = 2 ^ 31`
in `int`, which wraps to `-2 ^ 31`, and re-derives `old_pd_index = -512`; the
re-derived `old_pt_index` is 0. -/
theorem C16_rederived_directory_index_overflows :
    vpn_of 2147483648 = 524288 ∧ 524288 < 2 ^ 20 ∧
    pd_index_of 2147483648 = 512 ∧ pt_index_of 2147483648 = 0 ∧
    wrap32 (524288 * (PAGE_SIZE : Int)) = -2147483648 ∧
    old_pd_index_of 524288 = -512 ∧ old_pt_index_of 524288 = 0 ∧
    old_pd_index_of 524288 ≠ ((pd_index_of 2147483648 : Nat) : Int) := by
  have hpt : old_pt_index_of 524288 = 0 := by
    have h := @old_pt_index_of_high 524288 (by norm_num) (by norm_num)
    simpa using h
  exact ⟨by decide, by norm_num, by decide, by decide, by decide, by decide, hpt, by decide⟩

set_option maxRecDepth 1000000 in
/-- C17 (where the code departs from it): after the 16 addresses
`0x80000000 + 4096 * i` no frame is free and frame 0, the FIFO victim, holds
page `0x80000`. The next page fault evicts it: the re-derived
`old_pd_index` is `-512`, not an index of `page_directory`, and
`handle_page_fault` has no defined result. -/
theorem C17_eviction_indexes_outside_directory :
    ∃ s ts, run (initialize_system (fun _ _ => ⟨false, 0⟩))
      [
      2147483648, 2147487744, 2147491840, 2147495936, 2147500032, 2147504128, 2147508224,
      2147512320, 2147516416, 2147520512, 2147524608, 2147528704, 2147532800, 2147536896,
      2147540992, 2147545088
      ] = some (s, ts) ∧
      find_free_frame s.is_frame_free = -1 ∧ s.fifo_victim_frame_ptr = 0 ∧
      s.frame_to_vpn_map 0 = 524288 ∧
      old_pd_index_of (s.frame_to_vpn_map 0) = -512 ∧
      idx (old_pd_index_of (s.frame_to_vpn_map 0)) NUM_PD_ENTRIES = none ∧
      choose_frame s = none ∧
      handle_page_fault s ((vpn_of 2147549184 : Nat) : Int)
        ((pd_index_of 2147549184 : Nat) : Int) ((pt_index_of 2147549184 : Nat) : Int) = none :=
  ⟨_, _, rfl, by decide, by decide, by decide, by decide, by decide,
    Option.isNone_iff_eq_none.mp (by decide), Option.isNone_iff_eq_none.mp (by decide)⟩

end Multinivel

/-- C18: in both simulators, in a reachable state and for an in-width
address, a translation that takes no page fault (a TLB hit, or a TLB miss that
finds the page-table entry valid, below a valid directory entry in the
two-level program) returns and leaves the page table (directory, second-level
tables and allocation count in the two-level program), `is_frame_free`,
`frame_to_vpn_map`, `fifo_victim_frame_ptr` and `page_faults` unchanged; on a
TLB hit it also leaves the TLB, `tlb_victim_entry_ptr` and `tlb_misses`
unchanged, adding one to `total_accesses` and `tlb_hits` and the TLB and one
memory access to `total_access_time`. In the remaining case of the
single-level program `page_faults` grows by one. -/
theorem C18_translation_without_fault_frame :
    (∀ (s : NivelUnico.State) (a : Nat), NivelUnico.Reachable s → a < 2 ^ 16 →
      ∃ t, NivelUnico.translate_address s a = some t ∧
        ((NivelUnico.tlb_lookup s.tlb (NivelUnico.vpn_of a : Nat) ≠ none ∨
            (s.page_table (NivelUnico.vpn_of a)).valid = true) →
          t.state.page_table = s.page_table ∧ t.state.is_frame_free = s.is_frame_free ∧
          t.state.frame_to_vpn_map = s.frame_to_vpn_map ∧
          t.state.fifo_victim_frame_ptr = s.fifo_victim_frame_ptr ∧
          t.state.page_faults = s.page_faults) ∧
        (NivelUnico.tlb_lookup s.tlb (NivelUnico.vpn_of a : Nat) ≠ none →
          t.state.tlb = s.tlb ∧ t.state.tlb_victim_entry_ptr = s.tlb_victim_entry_ptr ∧
          t.state.tlb_misses = s.tlb_misses ∧
          t.state.total_accesses = s.total_accesses + 1 ∧
          t.state.tlb_hits = s.tlb_hits + 1 ∧
          t.state.total_access_time =
            s.total_access_time + NivelUnico.TLB_ACCESS_TIME + NivelUnico.MEMORY_ACCESS_TIME) ∧
        (NivelUnico.tlb_lookup s.tlb (NivelUnico.vpn_of a : Nat) = none →
          (s.page_table (NivelUnico.vpn_of a)).valid = false →
          t.state.page_faults = s.page_faults + 1)) ∧
    (∀ (s : Multinivel.State) (a : Nat), Multinivel.Reachable s → a < 2 ^ 32 →
      (Multinivel.tlb_lookup s.tlb (Multinivel.vpn_of a : Nat) ≠ none ∨
        ((s.page_directory (Multinivel.pd_index_of a)).valid = true ∧
          (s.heap (Multinivel.table_ptr s (Multinivel.pd_index_of a))
            (Multinivel.pt_index_of a)).valid = true)) →
      ∃ t, Multinivel.translate_address s a = some t ∧
        t.state.page_directory = s.page_directory ∧ t.state.heap = s.heap ∧
        t.state.allocated = s.allocated ∧ t.state.is_frame_free = s.is_frame_free ∧
        t.state.frame_to_vpn_map = s.frame_to_vpn_map ∧
        t.state.fifo_victim_frame_ptr = s.fifo_victim_frame_ptr ∧
        t.state.page_faults = s.page_faults ∧
        (Multinivel.tlb_lookup s.tlb (Multinivel.vpn_of a : Nat) ≠ none →
          t.state.tlb = s.tlb ∧ t.state.tlb_victim_entry_ptr = s.tlb_victim_entry_ptr ∧
          t.state.tlb_misses = s.tlb_misses ∧
          t.state.total_accesses = s.total_accesses + 1 ∧
          t.state.tlb_hits = s.tlb_hits + 1 ∧
          t.state.total_access_time =
            s.total_access_time + Multinivel.TLB_ACCESS_TIME +
              Multinivel.MEMORY_ACCESS_TIME)) := by
  constructor
  · intro s a hs ha
    rcases NivelUnico.translate_cases (NivelUnico.reachable_inv hs) ha with
      ⟨fr, hl, -, -, h⟩ | ⟨hl, hv, h⟩ | ⟨hl, hv, h⟩
    · refine ⟨_, h, fun _ => ⟨rfl, rfl, rfl, rfl, rfl⟩, fun _ => ⟨rfl, rfl, rfl, rfl, rfl, rfl⟩,
        fun hn => ?_⟩
      rw [hl] at hn
      exact absurd hn (by simp)
    · refine ⟨_, h, fun _ => ⟨rfl, rfl, rfl, rfl, rfl⟩, fun hn => absurd hl hn, fun _ hf => ?_⟩
      rw [hv] at hf
      exact absurd hf (by simp)
    · refine ⟨_, h, fun hn => ?_, fun hn => absurd hl hn, fun _ _ => rfl⟩
      rcases hn with hn | hn
      · exact absurd hl hn
      · rw [hv] at hn
        exact absurd hn (by simp)
  · intro s a hs ha hnf
    rcases Multinivel.ml_translate_cases (Multinivel.ml_reachable_inv hs) ha with
      ⟨fr, hl, -, -, h⟩ | ⟨hl, hdv, hv, -, h⟩ | ⟨hl, hv, -, -, -⟩
    · exact ⟨_, h, rfl, rfl, rfl, rfl, rfl, rfl, rfl, fun _ => ⟨rfl, rfl, rfl, rfl, rfl, rfl⟩⟩
    · exact ⟨_, h, rfl, rfl, rfl, rfl, rfl, rfl, rfl, fun hn => absurd hl hn⟩
    · rcases hnf with hn | ⟨hd, hn⟩
      · exact absurd hl hn
      · rw [hv hd] at hn
        exact absurd hn (by simp)

set_option maxRecDepth 1000000 in
theorem C18_translation_without_fault_frame_witness :
    (∃ s ts, NivelUnico.run NivelUnico.initialize_system [0, 256, 512, 768, 1024] = some (s, ts) ∧
      (∃ t, NivelUnico.translate_address s 256 = some t ∧
        t.state.page_table = s.page_table ∧ t.state.tlb = s.tlb) ∧
      (∃ t, NivelUnico.translate_address s 0 = some t ∧
        t.state.page_table = s.page_table ∧ t.state.page_faults = s.page_faults)) ∧
    (∃ s ts, Multinivel.run (Multinivel.initialize_system (fun _ _ => ⟨false, 0⟩))
        [0, 4096, 8192, 12288, 16384] = some (s, ts) ∧
      (∃ t, Multinivel.translate_address s 4096 = some t ∧
        t.state.heap = s.heap ∧ t.state.tlb = s.tlb) ∧
      (∃ t, Multinivel.translate_address s 0 = some t ∧
        t.state.heap = s.heap ∧ t.state.page_faults = s.page_faults)) := by
  have hf : ∃ s ts,
      NivelUnico.run NivelUnico.initialize_system [0, 256, 512, 768, 1024] = some (s, ts) ∧
      NivelUnico.tlb_lookup s.tlb (NivelUnico.vpn_of 256 : Nat) ≠ none ∧
      (s.page_table (NivelUnico.vpn_of 0)).valid = true :=
    ⟨_, _, rfl, by decide, by decide⟩
  have hm : ∃ s ts, Multinivel.run (Multinivel.initialize_system (fun _ _ => ⟨false, 0⟩))
        [0, 4096, 8192, 12288, 16384] = some (s, ts) ∧
      Multinivel.tlb_lookup s.tlb (Multinivel.vpn_of 4096 : Nat) ≠ none ∧
      (s.page_directory (Multinivel.pd_index_of 0)).valid = true ∧
      (s.heap (Multinivel.table_ptr s (Multinivel.pd_index_of 0))
        (Multinivel.pt_index_of 0)).valid = true :=
    ⟨_, _, rfl, by decide, by decide, by decide⟩
  obtain ⟨s, ts, hr, hl, hv⟩ := hf
  obtain ⟨m, tm, hrm, hlm, hdm, hvm⟩ := hm
  have hs : NivelUnico.Reachable s := ⟨[0, 256, 512, 768, 1024], by decide, ts, hr⟩
  have hR : Multinivel.Reachable m :=
    ⟨fun _ _ => ⟨false, 0⟩, [0, 4096, 8192, 12288, 16384], by decide, tm, hrm⟩
  obtain ⟨t1, ht1, h1, h2, -⟩ := C18_translation_without_fault_frame.1 s 256 hs (by norm_num)
  obtain ⟨t2, ht2, h3, -, -⟩ := C18_translation_without_fault_frame.1 s 0 hs (by norm_num)
  obtain ⟨t3, ht3, -, h4, -, -, -, -, -, h5⟩ :=
    C18_translation_without_fault_frame.2 m 4096 hR (by norm_num) (Or.inl hlm)
  obtain ⟨t4, ht4, -, h6, -, -, -, -, h7, -⟩ :=
    C18_translation_without_fault_frame.2 m 0 hR (by norm_num) (Or.inr ⟨hdm, hvm⟩)
  exact ⟨⟨s, ts, hr, ⟨t1, ht1, (h1 (Or.inl hl)).1, (h2 hl).1⟩,
      ⟨t2, ht2, (h3 (Or.inr hv)).1, (h3 (Or.inr hv)).2.2.2.2⟩⟩,
    ⟨m, tm, hrm, ⟨t3, ht3, h4, (h5 hlm).1⟩, ⟨t4, ht4, h6, h7⟩⟩⟩

namespace NivelUnico

set_option maxRecDepth 1000000 in
/-- C19 (counterexample to the claim as stated): after the pages 0 to 15
have filled the 16 frames, page 0 is translated again, which installs it in
TLB slot 0, and then page 16 faults and evicts page 0 from frame 0. Slot 0 of
the TLB is still valid for page 0 and frame 0, while `page_table[0]` is
invalid and frame 0 holds page 16: a TLB hit on page 0 now returns frame 0. -/
theorem C19_stale_tlb_entry_after_eviction :
    ∃ s ts, run initialize_system
      [0, 256, 512, 768, 1024, 1280, 1536, 1792, 2048, 2304, 2560, 2816, 3072, 3328, 3584, 3840,
       0, 4096] = some (s, ts) ∧
      (∀ a ∈ [0, 256, 512, 768, 1024, 1280, 1536, 1792, 2048, 2304, 2560, 2816, 3072, 3328,
        3584, 3840, 0, 4096], a < 2 ^ 16) ∧
      (s.tlb 0).valid = true ∧ (s.tlb 0).vpn = 0 ∧ (s.tlb 0).frame_number = 0 ∧
      (s.page_table (s.tlb 0).vpn.toNat).valid = false ∧
      s.frame_to_vpn_map 0 = 16 ∧ (s.page_table 16).valid = true ∧
      (s.page_table 16).frame_number = 0 ∧
      tlb_lookup s.tlb (vpn_of 0 : Nat) = some 0 :=
  ⟨_, _, rfl, by decide, by decide, by decide, by decide, by decide, by decide, by decide,
    by decide, by decide⟩

/-- C19 (amended): in every state reachable from `initialize_system` by
translating addresses below `2 ^ 16`, a valid TLB entry whose page is valid in
the page table agrees with it: if `tlb[i].valid` and
`page_table[tlb[i].vpn].valid` then
`page_table[tlb[i].vpn].frame_number = tlb[i].frame_number`; while no page has
been evicted (`page_faults ≤ 16`) the page of every valid TLB entry is valid in
the page table; hence a TLB hit on a page the page table currently holds
returns the frame in which the page table holds it. -/
theorem C19_tlb_agrees_with_valid_entries (s : State) (hs : Reachable s) :
    (∀ i, i < 4 → (s.tlb i).valid = true →
      (s.page_table (s.tlb i).vpn.toNat).valid = true →
      (s.page_table (s.tlb i).vpn.toNat).frame_number = (s.tlb i).frame_number) ∧
    (s.page_faults ≤ 16 → ∀ i, i < 4 → (s.tlb i).valid = true →
      (s.page_table (s.tlb i).vpn.toNat).valid = true) ∧
    (∀ a fr, a < 2 ^ 16 → tlb_lookup s.tlb (vpn_of a : Nat) = some fr →
      (s.page_table (vpn_of a)).valid = true →
      ∃ t, translate_address s a = some t ∧ t.frame_number = fr ∧
        t.frame_number = (s.page_table (vpn_of a)).frame_number) := by
  have hA := tlb_agrees_reachable hs
  refine ⟨hA.1, hA.2, ?_⟩
  intro a fr ha hl hv
  have hI := reachable_inv hs
  obtain ⟨i, hi, hval, hvpn, hfr, -⟩ := tlb_lookup_eq_some hl
  have hagree := hA.1 i hi hval
  rw [hvpn, Int.toNat_natCast] at hagree
  obtain ⟨hok0, hok1, hf0, hf1⟩ := hI.tlb_ok i hi hval
  rw [hfr] at hf0 hf1
  exact ⟨_, translate_hit hl hf0 hf1, rfl, by rw [← hfr]; exact (hagree hv).symm⟩

set_option maxRecDepth 1000000 in
theorem C19_tlb_agrees_with_valid_entries_witness :
    ∃ s ts, run initialize_system [0, 256, 512, 0] = some (s, ts) ∧
      (s.tlb 1).valid = true ∧ (s.page_table (s.tlb 1).vpn.toNat).valid = true ∧
      (s.page_table (s.tlb 1).vpn.toNat).frame_number = (s.tlb 1).frame_number ∧
      ∃ t, translate_address s 256 = some t ∧ t.frame_number = 1 ∧
        t.frame_number = (s.page_table (vpn_of 256)).frame_number := by
  have h : ∃ s ts, run initialize_system [0, 256, 512, 0] = some (s, ts) ∧
      (s.tlb 1).valid = true ∧ (s.page_table (s.tlb 1).vpn.toNat).valid = true ∧
      tlb_lookup s.tlb (vpn_of 256 : Nat) = some 1 ∧
      (s.page_table (vpn_of 256)).valid = true :=
    ⟨_, _, rfl, by decide, by decide, by decide, by decide⟩
  obtain ⟨s, ts, hr, h1, h2, h3, h4⟩ := h
  obtain ⟨ha, -, hc⟩ := C19_tlb_agrees_with_valid_entries s ⟨[0, 256, 512, 0], by decide, ts, hr⟩
  exact ⟨s, ts, hr, h1, h2, ha 1 (by decide) h1 h2, hc 256 1 (by norm_num) h3 h4⟩

/-- C20: in the single-level program `page_faults` is 0 initially, and in
every state reached from the initial state by a trace of addresses below
`2 ^ 16` the number of non-free frames is `min(page_faults, 16)` and
`fifo_victim_frame_ptr` is `max(page_faults - 16, 0) mod 16`; the next
translation returns, it raises `page_faults` by one exactly when it
page-faults (TLB miss on an invalid page-table entry) and leaves it unchanged
otherwise; when it is the `k`-th page fault (`page_faults` becomes `k`) the
page is loaded into frame `(k - 1) mod 16`; and every frame that was used
stays used. -/
theorem C20_faults_fill_frames_in_order (s : State) (hs : Reachable s) (a : Nat)
    (ha : a < 2 ^ 16) :
    initialize_system.page_faults = 0 ∧
    used_frames s = min s.page_faults 16 ∧
    s.fifo_victim_frame_ptr = max ((s.page_faults : Int) - 16) 0 % 16 ∧
    ∃ t, translate_address s a = some t ∧
      (t.state.page_faults = s.page_faults + 1 ↔
        (tlb_lookup s.tlb (vpn_of a : Nat) = none ∧
          (s.page_table (vpn_of a)).valid = false)) ∧
      (t.state.page_faults = s.page_faults + 1 ∨ t.state.page_faults = s.page_faults) ∧
      (t.state.page_faults = s.page_faults + 1 →
        t.frame_number = (((t.state.page_faults - 1) % 16 : Nat) : Int) ∧
        t.state.page_table (vpn_of a) =
          ⟨true, (((t.state.page_faults - 1) % 16 : Nat) : Int)⟩ ∧
        t.state.frame_to_vpn_map ((t.state.page_faults - 1) % 16) = (vpn_of a : Nat) ∧
        t.state.is_frame_free ((t.state.page_faults - 1) % 16) = false) ∧
      (∀ f, f < 16 → s.is_frame_free f = false → t.state.is_frame_free f = false) := by
  have hI := reachable_inv hs
  refine ⟨rfl, used_frames_eq_min hI, fifo_eq_max hI, ?_⟩
  rcases translate_cases hI ha with ⟨fr, hl, -, -, h⟩ | ⟨hl, hv, h⟩ | ⟨hl, hv, h⟩
  · refine ⟨_, h, ?_, Or.inr rfl, ?_, fun f _ hf => hf⟩
    · constructor
      · intro hc
        have hc' : s.page_faults = s.page_faults + 1 := hc
        omega
      · intro hc
        rw [hl] at hc
        exact absurd hc.1 (by simp)
    · intro hc
      have hc' : s.page_faults = s.page_faults + 1 := hc
      omega
  · refine ⟨_, h, ?_, Or.inr rfl, ?_, fun f _ hf => hf⟩
    · constructor
      · intro hc
        have hc' : s.page_faults = s.page_faults + 1 := hc
        omega
      · intro hc
        rw [hv] at hc
        exact absurd hc.2 (by simp)
    · intro hc
      have hc' : s.page_faults = s.page_faults + 1 := hc
      omega
  · refine ⟨_, h, ⟨fun _ => ⟨hl, hv⟩, fun _ => rfl⟩, Or.inl rfl, fun _ => ?_, ?_⟩
    · show ((s.page_faults % 16 : Nat) : Int) = (((s.page_faults + 1 - 1) % 16 : Nat) : Int) ∧
        Function.update (evicted_table s) (vpn_of a) ⟨true, ((s.page_faults % 16 : Nat) : Int)⟩
            (vpn_of a) = ⟨true, (((s.page_faults + 1 - 1) % 16 : Nat) : Int)⟩ ∧
        Function.update s.frame_to_vpn_map (s.page_faults % 16) ((vpn_of a : Nat) : Int)
            ((s.page_faults + 1 - 1) % 16) = (vpn_of a : Nat) ∧
        Function.update s.is_frame_free (s.page_faults % 16) false
            ((s.page_faults + 1 - 1) % 16) = false
      rw [Nat.add_sub_cancel, Function.update_same, Function.update_same, Function.update_same]
      exact ⟨rfl, rfl, rfl, rfl⟩
    · intro f _ hf
      show Function.update s.is_frame_free (s.page_faults % 16) false f = false
      by_cases hfp : f = s.page_faults % 16
      · rw [hfp, Function.update_same]
      · rw [Function.update_noteq hfp]; exact hf

theorem C20_faults_fill_frames_in_order_witness :
    Reachable initialize_system ∧ 0x1234 < 2 ^ 16 ∧
    used_frames initialize_system = min initialize_system.page_faults 16 ∧
    ∃ t, translate_address initialize_system 0x1234 = some t ∧
      t.state.page_faults = 1 ∧ t.frame_number = 0 ∧
      t.state.is_frame_free 0 = false := by
  obtain ⟨-, h1, -, t, ht, hiff, -, hk, -⟩ :=
    C20_faults_fill_frames_in_order initialize_system reachable_init 0x1234 (by norm_num)
  have hpf : t.state.page_faults = initialize_system.page_faults + 1 :=
    hiff.mpr ⟨by decide, by decide⟩
  have hpf1 : t.state.page_faults = 1 := hpf
  obtain ⟨h2, -, -, h3⟩ := hk hpf
  rw [hpf1] at h2 h3
  exact ⟨reachable_init, by norm_num, h1, t, ht, hpf1, h2, h3⟩

end NivelUnico
